import Mathlib

/-!
# Layer lifecycle, weight update and forward pass of the tiger neural-network graph engine

A shallow embedding of `NeuralLayer::setup`, `initializeWeights`, `clearGradients`,
`updateWeights`, `setSampleCount`, `forward`, `setInputData`, `getOutput`, `hasSameWeights`,
`addChild` and `visitedDependencies` (`src/src/NeuralLayer.cpp`,
`src/include/NeuralLayer.h`), of `DeconvolutionLayer::copy_and_unpad_output`
(`src/src/DeconvolutionLayer.cpp`), and of the constructor and `initialize` of
`AveragePoolFilter` (`src/src/AveragePoolFilter.cpp`).

* `float_t` is an arbitrary type `F` carrying the operations the code uses
  (`0`, `1`, `+`, `*`, `/`, conversion from `int`); no law of arithmetic is assumed.
* `std::shared_ptr<Signal>` is an index into a heap of signals (`none` is the null pointer),
  so that two slots holding the same index alias the same signal.
* A call that an exception leaves is `Outcome.threw`, carrying the state at the throw;
  undefined behaviour (null dereference, index out of range, `front()` of an empty
  vector) is `Outcome.fault`.
* Calls that leave the layer (the initialisation callbacks, the optimizer, the methods of
  `Signal`, the `post` hook) are appended to a log, which is the only ghost state.
-/

namespace tgr

/-! ## Data model -/

/-- Modelled from the spec: the enumeration `ChannelType` is declared in `NeuralSignal.h`,
which is not among the sources; the spec gives the channel kinds data, weight and bias. -/
inductive ChannelType where
  | data
  | weight
  | bias
  deriving DecidableEq, Repr

/-- Modelled from the spec: `is_trainable_weight` is declared outside the sources; the spec
calls the weight and bias kinds the ones that require a learned parameter. -/
def is_trainable_weight : ChannelType → Bool
  | .weight => true
  | .bias => true
  | .data => false

/-- Shape `aly::dim3` (width, height, depth) of one sample of a signal. -/
structure dim3 where
  x : Nat
  y : Nat
  z : Nat
  deriving DecidableEq, Repr

/-- Number of elements of a shape. -/
def dim3.volume (d : dim3) : Nat := d.x * d.y * d.z

/-- One sample: `Storage`, a vector of `float_t`. -/
abbrev Storage (F : Type) := List F

/-- A batch: `Tensor`, a vector of `Storage`, one per sample. -/
abbrev Tensor (F : Type) := List (Storage F)

/-- Modelled from the spec: `Signal` is declared in `NeuralSignal.h`, which is not among the
sources. It owns the per-sample value buffer (`weight` in `NeuralLayer.cpp`, `value` in
`NeuralLayer.h`) and the per-sample gradient accumulator (`change`), and records the
producing layer, the shape and the channel kind it was constructed with. -/
structure Signal (F : Type) where
  input : Option Nat
  dimensions : dim3
  type : ChannelType
  weight : Tensor F
  change : Tensor F
  deriving DecidableEq, Repr

/-- Modelled from the spec: the constructor `Signal(layer, dimensions, type)` is not among the
sources; the spec has it allocate a signal sized per the dimensions, here one zero sample of
`dimensions.volume` elements in each buffer. -/
def Signal.new {F : Type} [Zero F] (owner : Nat) (d : dim3) (t : ChannelType) : Signal F :=
  { input := some owner, dimensions := d, type := t,
    weight := [List.replicate d.volume 0], change := [List.replicate d.volume 0] }

/-- Modelled from the spec: `Signal::mergeGradients(dst)` is not among the sources; the spec
has it merge (sum) all accumulated per-sample gradient rows into a single vector, which
replaces the previous contents of `dst`. Merging an accumulator without any row is a
fault. -/
def Signal.mergeGradients {F : Type} [Add F] (sig : Signal F) (_dst : Storage F) :
    Option (Storage F) :=
  match sig.change with
  | [] => none
  | g :: rest => some (rest.foldl (fun acc row => List.zipWith (fun a b => a + b) acc row) g)

/-- Modelled from the spec: `Signal::clearGradients()` is not among the sources; the spec has
it clear the gradient accumulator, here every element of every row set to zero. -/
def Signal.clearGradients {F : Type} [Zero F] (sig : Signal F) : Signal F :=
  { sig with change := sig.change.map (fun row => row.map (fun _ => (0 : F))) }

/-- A call that leaves the layer, as recorded in the log. The index `i` is the channel the
call was made for; `forward` also logs its call of the virtual `setSampleCount`, and the
kernel call with the signals whose value buffers it is handed. -/
inductive Event (F : Type) where
  | weightInit (i : Nat) (data : Storage F) (fanIn fanOut : Int)
  | biasInit (i : Nat) (data : Storage F) (fanIn fanOut : Int)
  | mergeGradients (i : Nat)
  | optimizer (i : Nat) (dW W : Storage F) (parallel : Bool)
  | clearGradients (i : Nat)
  | post
  | setSampleCount (sample_count : Nat)
  | clearOutputGradients (i : Nat)
  | forwardPropagation (in_data out_data : List Nat)
  deriving DecidableEq, Repr

/-- An initialisation callback `std::function<void(Storage& data, int fanIn, int fanOut)>`:
it may rewrite the buffer and its own captured state `σ`. -/
abbrev InitFunc (F σ : Type) := σ → Storage F → Int → Int → σ × Storage F

/-- The optimizer callback `std::function<void(Storage& dW, Storage& W, bool parallel)>`:
it may rewrite both buffers and its own captured state `σ`. -/
abbrev Optimizer (F σ : Type) := σ → Storage F → Storage F → Bool → σ × Storage F × Storage F

/-- The fields of `NeuralLayer` that the lifecycle and the weight update use. The pure
virtual `getInputDimensions()` and `getOutputDimensions()` are given by their results, the
virtual `getFanInSize()`, `getFanOutSize()` by an optional override and the virtual
`post()` by its effect on the captured state. `inputChannels` and `outputChannels` are the
`int` members the constructor sets to the sizes of the type lists. `children` and
`dependencies` hold the addresses of the consuming and of the producing layers. -/
structure NeuralLayer (F σ : Type) where
  inputs : List (Option Nat)
  outputs : List (Option Nat)
  inputTypes : List ChannelType
  outputTypes : List ChannelType
  id : Int
  trainable : Bool
  visited : Bool
  initialized : Bool
  weightInitFunc : Option (InitFunc F σ)
  biasInitFunc : Option (InitFunc F σ)
  weightDifference : Storage F
  inputChannels : Nat
  outputChannels : Nat
  getInputDimensions : List dim3
  getOutputDimensions : List dim3
  fanInOverride : Option Int
  fanOutOverride : Option Int
  post : σ → σ
  children : List Nat := []
  dependencies : List Nat := []

/-- The constructor `NeuralLayer(name, inTypes, outTypes)`; the members that the constructor
leaves to the subclass or to later setters are parameters. -/
def NeuralLayer.new {F σ : Type} (inTypes outTypes : List ChannelType)
    (inDims outDims : List dim3) : NeuralLayer F σ :=
  { inputs := List.replicate inTypes.length none,
    outputs := List.replicate outTypes.length none,
    inputTypes := inTypes, outputTypes := outTypes, id := -1,
    trainable := true, visited := false, initialized := false,
    weightInitFunc := none, biasInitFunc := none, weightDifference := [],
    inputChannels := inTypes.length, outputChannels := outTypes.length,
    getInputDimensions := inDims, getOutputDimensions := outDims,
    fanInOverride := none, fanOutOverride := none, post := fun e => e }

/-- The layer together with everything its methods can touch: the heap of signals, the
state captured by the callbacks, and the log of outgoing calls. -/
structure State (F σ : Type) where
  layer : NeuralLayer F σ
  heap : List (Signal F)
  env : σ
  log : List (Event F)

/-- The exception of `setup`: `std::runtime_error("Connection mismatch at setup layer")`,
which the spec names `ShapeMismatch`. -/
inductive LayerError where
  | shapeMismatch
  deriving DecidableEq, Repr

/-- Result of a method: normal return, an exception together with the state it leaves
behind, or undefined behaviour. -/
inductive Outcome (α : Type) where
  | ok (s : α)
  | threw (e : LayerError) (s : α)
  | fault

/-- Sequencing: the continuation runs only after a normal return. -/
def Outcome.andThen {α : Type} (r : Outcome α) (k : α → Outcome α) : Outcome α :=
  match r with
  | .ok s => k s
  | .threw e s => .threw e s
  | .fault => .fault

/-- The loop `for (i = 0; i < n; i++) body(i)`, over the list of its indices. -/
def forLoop {α : Type} (body : Nat → α → Outcome α) : List Nat → α → Outcome α
  | [], s => .ok s
  | i :: rest, s => (body i s).andThen (forLoop body rest)

/-! ## Accessors -/

variable {F σ : Type}

/-- Modelled from the spec: the body of the non-const `getInput(i)` is not among the sources;
it is taken to return the pointer in slot `i` like the const overload of `NeuralLayer.h`.
`none` stands for a slot that is out of range or null, which the callers dereference. -/
def getInput (L : NeuralLayer F σ) (i : Nat) : Option Nat :=
  (L.inputs[i]?).join

/-- The virtual `getFanInSize()`: `getInputDimensions()[0].x` unless overridden. -/
def getFanInSize (L : NeuralLayer F σ) : Option Int :=
  match L.fanInOverride with
  | some v => some v
  | none => (L.getInputDimensions[0]?).map (fun d => (d.x : Int))

/-- The virtual `getFanOutSize()`: `getOutputDimensions()[0].x` unless overridden. -/
def getFanOutSize (L : NeuralLayer F σ) : Option Int :=
  match L.fanOutOverride with
  | some v => some v
  | none => (L.getOutputDimensions[0]?).map (fun d => (d.x : Int))

/-- The accessor `getInputWeights(idx)`: `getInput(idx)->value.front()`, the first sample of
the value buffer of input signal `idx`. -/
def getInputWeights (s : State F σ) (idx : Nat) : Option (Storage F) :=
  match getInput s.layer idx with
  | none => none
  | some p =>
    match s.heap[p]? with
    | none => none
    | some sig => sig.weight.head?

/-! ## initializeWeights -/

/-- One invocation `func(getInputWeights(i), getFanInSize(), getFanOutSize())` of an
initialisation callback on the parameter buffer of input channel `i`. -/
def callInit (tag : Nat → Storage F → Int → Int → Event F) (func : InitFunc F σ) (i : Nat)
    (s : State F σ) : Outcome (State F σ) :=
  match getInput s.layer i with
  | none => .fault
  | some p =>
    match s.heap[p]? with
    | none => .fault
    | some sig =>
      match sig.weight with
      | [] => .fault
      | w :: rest =>
        match getFanInSize s.layer, getFanOutSize s.layer with
        | some fanIn, some fanOut =>
          .ok { s with
            heap := s.heap.set p { sig with weight := (func s.env w fanIn fanOut).2 :: rest },
            env := (func s.env w fanIn fanOut).1,
            log := s.log ++ [tag i w fanIn fanOut] }
        | _, _ => .fault

/-- Body of the loop of `initializeWeights`: the `switch (inputTypes[i])`. -/
def initBody (i : Nat) (s : State F σ) : Outcome (State F σ) :=
  match s.layer.inputTypes[i]? with
  | none => .fault
  | some .weight =>
    match s.layer.weightInitFunc with
    | some func => callInit Event.weightInit func i s
    | none => .ok s
  | some .bias =>
    match s.layer.biasInitFunc with
    | some func => callInit Event.biasInit func i s
    | none => .ok s
  | some .data => .ok s

/-- The assignment `initialized = true`. -/
def markInitialized (s : State F σ) : State F σ :=
  { s with layer := { s.layer with initialized := true } }

/-- The method `NeuralLayer::initializeWeights()`. -/
def initializeWeights (s : State F σ) : Outcome (State F σ) :=
  if s.layer.trainable = false then
    .ok (markInitialized s)
  else
    (forLoop initBody (List.range s.layer.inputChannels) s).andThen
      (fun s1 => .ok (markInitialized s1))

/-! ## setup -/

/-- The test of `setup`: the declared dimension lists disagree with the channel counts. -/
def connectionMismatch (L : NeuralLayer F σ) : Bool :=
  L.getInputDimensions.length != L.inputChannels
    || L.getOutputDimensions.length != L.outputChannels

/-- Body of the allocation loop of `setup`: a null output slot `i` receives
`new Signal(this, getOutputDimensions(i), outputTypes[i])`; `self` is `this`. -/
def allocBody [Zero F] (self : Nat) (i : Nat) (s : State F σ) : Outcome (State F σ) :=
  match s.layer.outputs[i]? with
  | none => .fault
  | some (some _) => .ok s
  | some none =>
    match s.layer.getOutputDimensions[i]?, s.layer.outputTypes[i]? with
    | some d, some t =>
      .ok { s with
        layer := { s.layer with outputs := s.layer.outputs.set i (some s.heap.length) },
        heap := s.heap ++ [Signal.new self d t] }
    | _, _ => .fault

/-- The method `NeuralLayer::setup(reset_weight)` of the layer at address `self`. -/
def setup [Zero F] (self : Nat) (reset_weight : Bool) (s : State F σ) : Outcome (State F σ) :=
  if connectionMismatch s.layer then
    .threw .shapeMismatch s
  else
    (forLoop (allocBody self) (List.range s.layer.outputChannels) s).andThen
      (fun s1 =>
        if reset_weight || !s1.layer.initialized then initializeWeights s1 else .ok s1)

/-! ## clearGradients and updateWeights -/

/-- Body of the loop of `NeuralLayer::clearGradients`: `getInput(i)->clearGradients()`. -/
def clearBody [Zero F] (i : Nat) (s : State F σ) : Outcome (State F σ) :=
  match getInput s.layer i with
  | none => .fault
  | some p =>
    match s.heap[p]? with
    | none => .fault
    | some sig =>
      .ok { s with heap := s.heap.set p sig.clearGradients,
                   log := s.log ++ [Event.clearGradients i] }

/-- The method `NeuralLayer::clearGradients()`. -/
def clearGradients [Zero F] (s : State F σ) : Outcome (State F σ) :=
  forLoop clearBody (List.range s.layer.inputChannels) s

/-- The call of the virtual hook `post()`. -/
def post (s : State F σ) : Outcome (State F σ) :=
  .ok { s with env := s.layer.post s.env, log := s.log ++ [Event.post] }

/-- Body of the loop of `updateWeights` for input channel `i`; `diff` is the member
`weightDifference`, `target` the buffer `getInputWeights(i)`. -/
def updateBody [Add F] [Mul F] (optimizer : Optimizer F σ) (rcp_batch_size : F) (i : Nat)
    (s : State F σ) : Outcome (State F σ) :=
  if s.layer.trainable then
    match s.layer.inputTypes[i]? with
    | none => .fault
    | some t =>
      if is_trainable_weight t then
        match getInput s.layer i with
        | none => .fault
        | some p =>
          match s.heap[p]? with
          | none => .fault
          | some sig =>
            match sig.weight with
            | [] => .fault
            | target :: rest =>
              match sig.mergeGradients s.layer.weightDifference with
              | none => .fault
              | some merged =>
                let diff := merged.map (fun g => g * rcp_batch_size)
                let parallelize := decide (512 ≤ target.length)
                let r := optimizer s.env diff target parallelize
                .ok { layer := { s.layer with weightDifference := r.2.1 },
                      heap := s.heap.set p { sig with weight := r.2.2 :: rest },
                      env := r.1,
                      log := s.log ++ [Event.mergeGradients i,
                                       Event.optimizer i diff target parallelize] }
      else .ok s
  else .ok s

/-- The factor `float_t(1) / float_t(batch_size)`. -/
def rcpBatchSize [One F] [Div F] [IntCast F] (batch_size : Int) : F :=
  (1 : F) / ((batch_size : Int) : F)

/-- The method `NeuralLayer::updateWeights(optimizer, batch_size)`. -/
def updateWeights [Zero F] [One F] [Add F] [Mul F] [Div F] [IntCast F]
    (optimizer : Optimizer F σ) (batch_size : Int) (s : State F σ) : Outcome (State F σ) :=
  (forLoop (updateBody optimizer (rcpBatchSize batch_size)) (List.range s.layer.inputChannels)
      s).andThen
    (fun s1 => (clearGradients s1).andThen post)

/-! ## setSampleCount -/

/-- The accessor `getOutput(i)`. The const overload is `return outputs[i]` in `NeuralLayer.h`.
Modelled from the spec: the body of the non-const overload is not among the sources; it is
taken to return the pointer in slot `i` as well. `none` stands for a slot that is out of
range or null. -/
def getOutput (L : NeuralLayer F σ) (i : Nat) : Option Nat :=
  (L.outputs[i]?).join

/-- The lambda `resize` of `setSampleCount`: `tensor->resize(sample_count, (*tensor)[0])`.
Reading element 0 of an empty tensor is a fault; `std::vector::resize` keeps the first
`sample_count` samples and appends copies of the given sample up to `sample_count`. -/
def resizeTensor (sample_count : Nat) (tensor : Tensor F) : Option (Tensor F) :=
  match tensor with
  | [] => none
  | first :: _ =>
    some (tensor.take sample_count ++ List.replicate (sample_count - tensor.length) first)

/-- One iteration of either loop of `setSampleCount`, for a channel of kind `kind` whose
slot holds `slot`: `if (!is_trainable_weight(kind)) resize(&signal->weight);`
`resize(&signal->change);`. -/
def sampleBody (sample_count : Nat) (kind : Option ChannelType) (slot : Option Nat)
    (s : State F σ) : Outcome (State F σ) :=
  match kind with
  | none => .fault
  | some ty =>
    match slot with
    | none => .fault
    | some p =>
      match s.heap[p]? with
      | none => .fault
      | some sig =>
        match (if is_trainable_weight ty then some sig.weight
               else resizeTensor sample_count sig.weight) with
        | none => .fault
        | some w =>
          match resizeTensor sample_count sig.change with
          | none => .fault
          | some c => .ok { s with heap := s.heap.set p { sig with weight := w, change := c } }

/-- Body of the first loop of `setSampleCount`, over the input channels. -/
def sampleInBody (sample_count : Nat) (i : Nat) (s : State F σ) : Outcome (State F σ) :=
  sampleBody sample_count (s.layer.inputTypes[i]?) (getInput s.layer i) s

/-- Body of the second loop of `setSampleCount`, over the output channels. -/
def sampleOutBody (sample_count : Nat) (i : Nat) (s : State F σ) : Outcome (State F σ) :=
  sampleBody sample_count (s.layer.outputTypes[i]?) (getOutput s.layer i) s

/-- The method `NeuralLayer::setSampleCount(sample_count)`. -/
def setSampleCount (sample_count : Nat) (s : State F σ) : Outcome (State F σ) :=
  (forLoop (sampleInBody sample_count) (List.range s.layer.inputChannels) s).andThen
    (fun s1 => forLoop (sampleOutBody sample_count) (List.range s1.layer.outputChannels) s1)

/-! ## forward and setInputData -/

/-- The pure virtual `forwardPropagation(in_data, out_data)`: the kernel of a concrete layer
is handed the signals whose value buffers `in_data` and `out_data` point to; it may change
the signals and whatever state the layer's callbacks share. -/
abbrev Kernel (F σ : Type) := σ → List (Signal F) → List Nat → List Nat → σ × List (Signal F)

/-- Body of the first loop of `forward`: `fowardInData[i] = &getInput(i)->weight`. The
second component is `fowardInData`, kept as the signals the pointers lead into. -/
def gatherBody (i : Nat) (acc : State F σ × List Nat) : Outcome (State F σ × List Nat) :=
  match getInput acc.1.layer i with
  | none => .fault
  | some p =>
    match acc.1.heap[p]? with
    | none => .fault
    | some _ => .ok (acc.1, acc.2 ++ [p])

/-- Body of the second loop of `forward`: `fowardInGradient[i] = &getOutput(i)->weight;`
`getOutput(i)->clearGradients();`. The second component is `fowardInGradient`. -/
def clearOutBody [Zero F] (i : Nat) (acc : State F σ × List Nat) :
    Outcome (State F σ × List Nat) :=
  match getOutput acc.1.layer i with
  | none => .fault
  | some p =>
    match acc.1.heap[p]? with
    | none => .fault
    | some sig =>
      .ok ({ acc.1 with heap := acc.1.heap.set p sig.clearGradients,
                        log := acc.1.log ++ [Event.clearOutputGradients i] },
           acc.2 ++ [p])

/-- The method `NeuralLayer::forward()`, with `setSampleCount` bound to the implementation of
`NeuralLayer` and `forwardPropagation` bound to `kernel`. Reading `fowardInData[0]` of a
layer without inputs is a fault. -/
def forward [Zero F] (kernel : Kernel F σ) (s : State F σ) : Outcome (State F σ) :=
  match forLoop gatherBody (List.range s.layer.inputChannels) (s, []) with
  | .threw e u => .threw e u.1
  | .fault => .fault
  | .ok (s0, in_data) =>
    match in_data[0]? with
    | none => .fault
    | some p0 =>
      match s0.heap[p0]? with
      | none => .fault
      | some first =>
        match setSampleCount first.weight.length
            { s0 with log := s0.log ++ [Event.setSampleCount first.weight.length] } with
        | .threw e u => .threw e u
        | .fault => .fault
        | .ok s1 =>
          match forLoop clearOutBody (List.range s1.layer.outputChannels) (s1, []) with
          | .threw e u => .threw e u.1
          | .fault => .fault
          | .ok (s2, out_data) =>
            .ok { s2 with env := (kernel s2.env s2.heap in_data out_data).1,
                          heap := (kernel s2.env s2.heap in_data out_data).2,
                          log := s2.log ++ [Event.forwardPropagation in_data out_data] }

/-- Body of the loop of `setInputData(data)`; the second component is the counter `n`. A
channel that is not of kind data is skipped; `assert(n < cnt)` failing is a fault;
`dst_data.resize(sz)` followed by the copy loop leaves the samples of `data[n]`. -/
def inputDataBody (data : List (Tensor F)) (i : Nat) (acc : State F σ × Nat) :
    Outcome (State F σ × Nat) :=
  match acc.1.layer.inputTypes[i]? with
  | none => .fault
  | some ty =>
    if ty ≠ ChannelType.data then .ok acc
    else
      match getInput acc.1.layer i with
      | none => .fault
      | some p =>
        match acc.1.heap[p]? with
        | none => .fault
        | some sig =>
          match data[acc.2]? with
          | none => .fault
          | some storage =>
            .ok ({ acc.1 with heap := acc.1.heap.set p { sig with weight := storage } },
                 acc.2 + 1)

/-- The method `NeuralLayer::setInputData(data)` for a vector of batches, each a vector of
pointers to samples (here the samples themselves). -/
def setInputData (data : List (Tensor F)) (s : State F σ) : Outcome (State F σ) :=
  match forLoop (inputDataBody data) (List.range s.layer.inputChannels) (s, 0) with
  | .ok (t, _) => .ok t
  | .threw e u => .threw e u.1
  | .fault => .fault

/-! ## getOutput(out) -/

/-- Body of the loop of `getOutput(std::vector<Tensor*>& out) const`:
`if (outputTypes[i] == ChannelType::data) out.push_back(&(getOutput(i)->weight))`. A
buffer pointer is kept as the signal it leads into. -/
def outputBody (s : State F σ) (i : Nat) (out : List Nat) : Outcome (List Nat) :=
  match s.layer.outputTypes[i]? with
  | none => .fault
  | some ty =>
    if ty = ChannelType.data then
      match getOutput s.layer i with
      | none => .fault
      | some p =>
        match s.heap[p]? with
        | none => .fault
        | some _ => .ok (out ++ [p])
    else .ok out

/-- The method `getOutput(std::vector<Tensor*>& out) const`: `out.clear()`, then the loop
over the output channels; the result is the final `out`. -/
def getOutput_out (s : State F σ) (_out : List Nat) : Outcome (List Nat) :=
  forLoop (outputBody s) (List.range s.layer.outputChannels) []

/-! ## The layer graph: addChild and visitedDependencies -/

/-- The loop of `visitedDependencies`: `for (NeuralLayer* layer : dependencies)`
`if (!layer->isVisited()) return false;` and `return true` after it. Layers live in a store
`net` and a `NeuralLayer*` is an index into it; following a pointer to no layer is a
fault (`none`). -/
def visitedLoop (net : List (NeuralLayer F σ)) : List Nat → Option Bool
  | [] => some true
  | d :: rest =>
    match net[d]? with
    | none => none
    | some layer => if !layer.visited then some false else visitedLoop net rest

/-- The method `NeuralLayer::visitedDependencies() const` of the layer at `self`. -/
def visitedDependencies (net : List (NeuralLayer F σ)) (self : Nat) : Option Bool :=
  match net[self]? with
  | none => none
  | some me => visitedLoop net me.dependencies

/-- The method `NeuralLayer::addChild(layer)` of the layer at `self`:
`children.push_back(layer.get()); layer->dependencies.push_back(this);`. -/
def addChild (net : List (NeuralLayer F σ)) (self layer : Nat) :
    Option (List (NeuralLayer F σ)) :=
  match net[self]? with
  | none => none
  | some me =>
    match (net.set self { me with children := me.children ++ [layer] })[layer]? with
    | none => none
    | some child =>
      some ((net.set self { me with children := me.children ++ [layer] }).set layer
        { child with dependencies := child.dependencies ++ [self] })

/-! ## hasSameWeights -/

/-- Body of the loop of `getInputWeights() const`:
`if (is_trainable_weight(inputTypes[i])) v.push_back(getInput(i)->weight.data())`. The
pointer `weight.data()` leads to the first sample of the value buffer, and to nothing
(`none`) if the buffer is empty. -/
def weightsBody (s : State F σ) (i : Nat) (v : List (Option (Storage F))) :
    Outcome (List (Option (Storage F))) :=
  match s.layer.inputTypes[i]? with
  | none => .fault
  | some ty =>
    if is_trainable_weight ty then
      match getInput s.layer i with
      | none => .fault
      | some p =>
        match s.heap[p]? with
        | none => .fault
        | some sig => .ok (v ++ [sig.weight.head?])
    else .ok v

/-- The method `getInputWeights() const`, which returns one pointer per input channel of
kind weight or bias. -/
def getInputWeights_vec (s : State F σ) : Outcome (List (Option (Storage F))) :=
  forLoop (weightsBody s) (List.range s.layer.inputChannels) []

/-- The inner loop of `hasSameWeights` over the element indices `j` of one pair of buffers:
`if (std::abs((*w1[i])[j] - (*w2[i])[j]) > eps) return false;`. -/
def sameElements [Sub F] [LT F] [DecidableRel (fun x y : F => x < y)] (fabs : F → F) (eps : F)
    (a b : Storage F) : List Nat → Option Bool
  | [] => some true
  | j :: rest =>
    match a[j]?, b[j]? with
    | some x, some y =>
      if eps < fabs (x - y) then some false else sameElements fabs eps a b rest
    | _, _ => none

/-- The outer loop of `hasSameWeights` over the slots `i`:
`if (w1[i]->size() != w2[i]->size()) return false;` followed by the inner loop. -/
def sameBuffers [Sub F] [LT F] [DecidableRel (fun x y : F => x < y)] (fabs : F → F) (eps : F)
    (w1 w2 : List (Option (Storage F))) : List Nat → Option Bool
  | [] => some true
  | i :: rest =>
    match w1[i]?, w2[i]? with
    | some (some a), some (some b) =>
      if a.length ≠ b.length then some false
      else
        match sameElements fabs eps a b (List.range a.length) with
        | none => none
        | some false => some false
        | some true => sameBuffers fabs eps w1 w2 rest
    | _, _ => none

/-- The method `NeuralLayer::hasSameWeights(rhs, eps) const` of the layer of `s`, with
`std::abs` on `float_t` as `fabs`; `none` is a fault. -/
def hasSameWeights [Sub F] [LT F] [DecidableRel (fun x y : F => x < y)] (fabs : F → F)
    (s rhs : State F σ) (eps : F) : Option Bool :=
  match getInputWeights_vec s, getInputWeights_vec rhs with
  | .ok w1, .ok w2 =>
    if w1.length ≠ w2.length then some false
    else sameBuffers fabs eps w1 w2 (List.range w1.length)
  | _, _ => none

/-! ## DeconvolutionLayer: shapes and copy_and_unpad_output -/

/-- Modelled from the spec: `shape3d` (tiny_dnn's `index3d`) is not among the sources; it is
taken with the layout the coordinates of the deconvolution code presuppose, rows of `width_`
elements, `height_` rows per channel, channels one after the other. -/
structure shape3d where
  width_ : Nat
  height_ : Nat
  depth_ : Nat
  deriving DecidableEq, Repr

/-- Modelled from the spec: `shape3d::get_index(x, y, channel)`, the offset of element
`(x, y, channel)`, is not among the sources: `(height_ * channel + y) * width_ + x`. -/
def shape3d.get_index (sh : shape3d) (x y channel : Nat) : Nat :=
  (sh.height_ * channel + y) * sh.width_ + x

/-- Modelled from the spec: `shape3d::size()` is not among the sources:
`width_ * height_ * depth_`. -/
def shape3d.size (sh : shape3d) : Nat := sh.width_ * sh.height_ * sh.depth_

/-- The enumeration `padding` of the deconvolution parameters. -/
inductive padding where
  | valid
  | same
  deriving DecidableEq, Repr

/-- Rounding of a natural number to `float` (binary32, round to nearest, ties to even): a
number below 2^24 is kept; a larger one keeps its 24 leading binary digits `q` and is
rounded on the remainder `r` of the `e` digits dropped. -/
def roundF32 (n : Nat) : Nat :=
  if n < 16777216 then n
  else
    let e := Nat.log2 n - 23
    let q := n / 2 ^ e
    let r := n % 2 ^ e
    if 2 * r < 2 ^ e then q * 2 ^ e
    else if 2 ^ e < 2 * r then (q + 1) * 2 ^ e
    else if q % 2 = 0 then q * 2 ^ e
    else (q + 1) * 2 ^ e

/-- The function `deconv_out_length`: `(int) ceil((float) in_length * stride + window_size - 1)`.
Every operand is converted to `float` and every operation rounds its result; `ceil` and the
conversion to `int` keep the integer value they are given. The arguments are non-negative
with `in_length * stride + window_size` at least 1, and the result is in the range of
`int`. -/
def deconv_out_length (in_length window_size stride : Nat) : Nat :=
  roundF32 (roundF32 (roundF32 (roundF32 in_length * roundF32 stride) + roundF32 window_size)
    - roundF32 1)

/-- The function `deconv_out_unpadded_length`: `(int) ceil((float) in_length * stride)` for
`same` padding, and the expression of `deconv_out_length` otherwise. -/
def deconv_out_unpadded_length (in_length window_size stride : Nat) (pad_type : padding) :
    Nat :=
  if pad_type = padding.same then roundF32 (roundF32 in_length * roundF32 stride)
  else
    roundF32 (roundF32 (roundF32 (roundF32 in_length * roundF32 stride) + roundF32 window_size)
      - roundF32 1)

/-- The members of `params_` that `deconv_set_params` sets, the connection table apart. -/
structure deconv_params where
  in_ : shape3d
  out : shape3d
  out_unpadded : shape3d
  weight : shape3d
  has_bias : Bool
  pad_type : padding
  w_stride : Nat
  h_stride : Nat
  deriving DecidableEq, Repr

/-- The method `DeconvolutionLayer::deconv_set_params`. -/
def deconv_set_params (in_ : shape3d) (w_width w_height outc : Nat) (ptype : padding)
    (has_bias : Bool) (w_stride h_stride : Nat) : deconv_params :=
  { in_ := in_,
    out := ⟨deconv_out_length in_.width_ w_width w_stride,
      deconv_out_length in_.height_ w_height h_stride, outc⟩,
    out_unpadded := ⟨deconv_out_unpadded_length in_.width_ w_width w_stride ptype,
      deconv_out_unpadded_length in_.height_ w_height h_stride ptype, outc⟩,
    weight := ⟨w_width, w_height, in_.depth_ * outc⟩,
    has_bias := has_bias, pad_type := ptype, w_stride := w_stride, h_stride := h_stride }

/-- The call `std::copy(pout, pout + n, pimg)` with `pout = &src[src_at]` and
`pimg = &dst[dst_at]`: a read or a write outside the vectors is a fault. -/
def copyRow (src dst : Storage F) (src_at dst_at n : Nat) : Outcome (Storage F) :=
  if n = 0 then .ok dst
  else if src_at + n ≤ src.length ∧ dst_at + n ≤ dst.length then
    .ok (dst.take dst_at ++ ((src.drop src_at).take n ++ dst.drop (dst_at + n)))
  else .fault

/-- Body of the loop over `y` in `copy_and_unpad_output`, at its iteration `k` (so
`y = wieght_h_half + k`) for channel `c`: by then `pout` and `pimg` have been advanced `k`
times by `out.width_` and by `out_unpadded.width_`. -/
def unpadRowBody (P : deconv_params) (src : Storage F) (c k : Nat) (dst : Storage F) :
    Outcome (Storage F) :=
  copyRow src dst
    (P.out.get_index (P.weight.width_ / 2) (P.weight.height_ / 2) c + k * P.out.width_)
    (P.out_unpadded.get_index 0 0 c + k * P.out_unpadded.width_)
    P.out_unpadded.width_

/-- Body of the loop over the channels `c` in `copy_and_unpad_output`. -/
def unpadChannelBody (P : deconv_params) (src : Storage F) (c : Nat) (dst : Storage F) :
    Outcome (Storage F) :=
  forLoop (unpadRowBody P src c) (List.range P.out_unpadded.height_) dst

/-- Body of the loop over the samples in `copy_and_unpad_output`; the state is
`curr_out_buf_`. -/
def unpadSampleBody (P : deconv_params) (out : Tensor F) (sample : Nat) (buf : Tensor F) :
    Outcome (Tensor F) :=
  match out[sample]?, buf[sample]? with
  | some src, some dst =>
    match forLoop (unpadChannelBody P src) (List.range P.out_unpadded.depth_) dst with
    | .ok dst2 => .ok (buf.set sample dst2)
    | .threw e _ => .threw e buf
    | .fault => .fault
  | _, _ => .fault

/-- The method `DeconvolutionLayer::copy_and_unpad_output(out)`; the result is the tensor
that `curr_out_unpadded_` points to after the call. -/
def copy_and_unpad_output [Zero F] (P : deconv_params) (out : Tensor F) :
    Outcome (Tensor F) :=
  if P.pad_type = padding.valid then .ok out
  else
    forLoop (unpadSampleBody P out) (List.range out.length)
      (List.replicate out.length (List.replicate P.out_unpadded.size 0))

/-! ## AveragePoolFilter -/

/-- Identity of a layer object in `AveragePoolFilter.cpp`: a layer that exists before
`initialize`, known by its address, or the object that `new NeuralLayer(...)` returns in
iteration `k` of the loop over the input layers. -/
inductive LayerRef where
  | given (addr : Nat)
  | created (k : Nat)
  deriving DecidableEq, Repr

/-- Modelled from the spec: the class `NeuralLayer` that `AveragePoolFilter.cpp` is written
against (constructor `NeuralLayer(name, width, height, bins, bias)`, members `width`,
`height` and `get(i, j)`) is not the one of `NeuralLayer.h` and is not among the sources; a
layer is taken to be a grid of `width` by `height` neurons. -/
structure GridLayer where
  ref : LayerRef
  width : Nat
  height : Nat
  deriving DecidableEq, Repr

/-- Identity of a signal object created by `initialize`: the one that `new Signal(...)`
returns for output neuron `(i, j)` of the output layer of iteration `layer`. -/
structure PoolSignal where
  layer : Nat
  i : Nat
  j : Nat
  deriving DecidableEq, Repr

/-- The calls that `initialize` makes into classes outside the sources, in the order it
makes them: the layer constructor, `sys.add(outputLayer->getBiasSignals())`,
`dest.addInput(sig)` on the neuron `get(i, j)` of a layer, `sys.add(sig)`, and
`src.addOutput(sig)` on the neuron `get(x, y)` of a layer. -/
inductive PoolEvent where
  | construct (k width height : Nat)
  | addBiasSignals (k : Nat)
  | addInput (layer : LayerRef) (i j : Nat) (sig : PoolSignal)
  | addSignal (sig : PoolSignal)
  | addOutput (layer : LayerRef) (x y : Nat) (sig : PoolSignal)
  deriving DecidableEq, Repr

/-- The members of `AveragePoolFilter` that the two functions use; `kernelSize` is taken
non-negative, and a null entry of `outputLayers` is `none`. -/
structure AveragePoolFilter where
  inputLayers : List GridLayer
  outputLayers : List (Option GridLayer)
  kernelSize : Nat
  deriving DecidableEq, Repr

/-- Result of the constructor: the object, the exception
`std::runtime_error("Map size must be divisible by kernel size.")`, or a fault. -/
inductive Constructed where
  | object (f : AveragePoolFilter)
  | mapSizeError
  | fault
  deriving DecidableEq, Repr

/-- The loop of the constructor over the input layers: it throws at the first layer whose
width or height leaves a remainder; `%` by a zero `kernelSize` is a fault. -/
def checkLayers (kernelSize : Nat) : List GridLayer → Option Bool
  | [] => some true
  | layer :: rest =>
    if kernelSize = 0 then none
    else if layer.width % kernelSize ≠ 0 ∨ layer.height % kernelSize ≠ 0 then some false
    else checkLayers kernelSize rest

/-- The constructor `AveragePoolFilter(inputLayers, kernelSize)`. -/
def AveragePoolFilter.new (inputLayers : List GridLayer) (kernelSize : Nat) : Constructed :=
  match checkLayers kernelSize inputLayers with
  | none => .fault
  | some false => .mapSizeError
  | some true =>
    .object { inputLayers := inputLayers, outputLayers := [], kernelSize := kernelSize }

/-- Body of the loop over `ii` in `initialize`:
`inputLayer->get(i*kernelSize + ii, j*kernelSize + jj).addOutput(sig)`. Modelled from the
spec: `get` is not among the sources; a position outside the grid is taken to be a fault. -/
def poolSourceBody (inputLayer : GridLayer) (kernelSize i j jj : Nat) (sig : PoolSignal)
    (ii : Nat) (log : List PoolEvent) : Outcome (List PoolEvent) :=
  if i * kernelSize + ii < inputLayer.width ∧ j * kernelSize + jj < inputLayer.height then
    .ok (log ++ [PoolEvent.addOutput inputLayer.ref (i * kernelSize + ii)
      (j * kernelSize + jj) sig])
  else .fault

/-- Body of the loop over `jj` in `initialize`. -/
def poolWindowBody (inputLayer : GridLayer) (kernelSize i j : Nat) (sig : PoolSignal)
    (jj : Nat) (log : List PoolEvent) : Outcome (List PoolEvent) :=
  forLoop (poolSourceBody inputLayer kernelSize i j jj sig) (List.range kernelSize) log

/-- Body of the loop over `i` in `initialize`: a new signal, `dest.addInput(sig)` on
`outputLayer->get(i, j)`, `sys.add(sig)`, and the loops over the window. -/
def poolCellBody (inputLayer outputLayer : GridLayer) (kernelSize k j i : Nat)
    (log : List PoolEvent) : Outcome (List PoolEvent) :=
  if i < outputLayer.width ∧ j < outputLayer.height then
    forLoop (poolWindowBody inputLayer kernelSize i j ⟨k, i, j⟩) (List.range kernelSize)
      (log ++ [PoolEvent.addInput outputLayer.ref i j ⟨k, i, j⟩, PoolEvent.addSignal ⟨k, i, j⟩])
  else .fault

/-- Body of the loop over `j` in `initialize`. -/
def poolRowBody (inputLayer outputLayer : GridLayer) (kernelSize k j : Nat)
    (log : List PoolEvent) : Outcome (List PoolEvent) :=
  forLoop (poolCellBody inputLayer outputLayer kernelSize k j) (List.range outputLayer.width)
    log

/-- Body of the loop over `k` in `initialize`; the state is the filter and the calls made
so far. The division by a zero `kernelSize` is a fault. -/
def poolLayerBody (k : Nat) (acc : AveragePoolFilter × List PoolEvent) :
    Outcome (AveragePoolFilter × List PoolEvent) :=
  match acc.1.inputLayers[k]? with
  | none => .fault
  | some inputLayer =>
    if acc.1.kernelSize = 0 ∨ acc.1.outputLayers.length ≤ k then .fault
    else
      match forLoop
          (poolRowBody inputLayer
            ⟨.created k, inputLayer.width / acc.1.kernelSize,
              inputLayer.height / acc.1.kernelSize⟩ acc.1.kernelSize k)
          (List.range (inputLayer.height / acc.1.kernelSize))
          (acc.2 ++ [PoolEvent.construct k (inputLayer.width / acc.1.kernelSize)
            (inputLayer.height / acc.1.kernelSize), PoolEvent.addBiasSignals k]) with
      | .ok log =>
        .ok ({ acc.1 with
          outputLayers := acc.1.outputLayers.set k
            (some ⟨.created k, inputLayer.width / acc.1.kernelSize,
              inputLayer.height / acc.1.kernelSize⟩) }, log)
      | .threw e _ => .threw e acc
      | .fault => .fault

/-- The method `AveragePoolFilter::initialize(sys)`: `outputLayers.resize(inputLayers.size())`
and the loop over the input layers. The result is the filter and the calls the method
made. -/
def AveragePoolFilter.initialize (f : AveragePoolFilter) :
    Outcome (AveragePoolFilter × List PoolEvent) :=
  forLoop poolLayerBody (List.range f.inputLayers.length)
    ({ f with
      outputLayers := f.outputLayers.take f.inputLayers.length ++
        List.replicate (f.inputLayers.length - f.outputLayers.length) none }, [])

/-! ## Well-formedness predicates -/

/-- The invariant the constructor establishes on the output side: the slot list and the
type list have `outputChannels` entries. -/
def OutputsSized (L : NeuralLayer F σ) : Prop :=
  L.outputs.length = L.outputChannels ∧ L.outputTypes.length = L.outputChannels

instance (L : NeuralLayer F σ) : Decidable (OutputsSized L) :=
  inferInstanceAs (Decidable (_ ∧ _))

/-- Input slot `i` is in range, holds a live signal, and both buffers of that signal hold at
least one sample. -/
def inputReady (s : State F σ) (i : Nat) : Bool :=
  match getInput s.layer i with
  | none => false
  | some p =>
    match s.heap[p]? with
    | none => false
    | some sig => !sig.weight.isEmpty && !sig.change.isEmpty

/-- Every input channel has a type and a connected signal with at least one sample. -/
def InputsWired (s : State F σ) : Prop :=
  s.layer.inputTypes.length = s.layer.inputChannels ∧
    ∀ i, i < s.layer.inputChannels → inputReady s i = true

instance (s : State F σ) : Decidable (InputsWired s) :=
  inferInstanceAs (Decidable (_ ∧ _))

/-- Both `getFanInSize()` and `getFanOutSize()` are defined (no read of element 0 of an
empty dimension list). -/
def FanDefined (L : NeuralLayer F σ) : Prop :=
  (getFanInSize L).isSome = true ∧ (getFanOutSize L).isSome = true

instance (L : NeuralLayer F σ) : Decidable (FanDefined L) :=
  inferInstanceAs (Decidable (_ ∧ _))

/-- Output slot `i` is in range and holds a signal. -/
def outputAllocated (L : NeuralLayer F σ) (i : Nat) : Bool :=
  match L.outputs[i]? with
  | some (some _) => true
  | _ => false

/-- No signal is wired into two input slots of the layer. -/
def NoSharedInput (L : NeuralLayer F σ) : Prop := L.inputs.Nodup

instance (L : NeuralLayer F σ) : Decidable (NoSharedInput L) :=
  inferInstanceAs (Decidable (List.Nodup _))

/-! ## Frames and loop invariants -/

/-- Signal `b` agrees with `a` except possibly on the first sample of the value buffer. -/
def CellFrame (a b : Signal F) : Prop :=
  b.input = a.input ∧ b.dimensions = a.dimensions ∧ b.type = a.type ∧ b.change = a.change ∧
    b.weight.tail = a.weight.tail ∧ (b.weight = [] ↔ a.weight = [])

/-- Heap `h2` holds the same signals as `h1` except possibly for first value samples. -/
def HeapFrame (h1 h2 : List (Signal F)) : Prop :=
  h2.length = h1.length ∧
    ∀ (p : Nat) (a : Signal F), h1[p]? = some a → ∃ b, h2[p]? = some b ∧ CellFrame a b

/-- Invariant of the allocation loop after the slots below `k`, against the state `s` in
which the loop started. -/
def AllocInv [Zero F] (self : Nat) (s : State F σ) (k : Nat) (t : State F σ) : Prop :=
  t.env = s.env ∧ t.log = s.log ∧
  (∃ outs, t.layer = { s.layer with outputs := outs }) ∧
  t.layer.outputs.length = s.layer.outputs.length ∧
  s.heap.length ≤ t.heap.length ∧
  (∀ p : Nat, p < s.heap.length → t.heap[p]? = s.heap[p]?) ∧
  (∀ j : Nat, k ≤ j → t.layer.outputs[j]? = s.layer.outputs[j]?) ∧
  (∀ j p : Nat, s.layer.outputs[j]? = some (some p) → t.layer.outputs[j]? = some (some p)) ∧
  (∀ j : Nat, j < k → s.layer.outputs[j]? = some none →
    ∃ p d ty, t.layer.outputs[j]? = some (some p) ∧ s.heap.length ≤ p ∧
      s.layer.getOutputDimensions[j]? = some d ∧ s.layer.outputTypes[j]? = some ty ∧
      t.heap[p]? = some (Signal.new self d ty)) ∧
  (∀ i j : Nat, i < j → j < k → s.layer.outputs[i]? = some none →
    s.layer.outputs[j]? = some none → t.layer.outputs[i]? ≠ t.layer.outputs[j]?)

/-! ## Specification-side definitions for `initializeWeights` -/

/-- The callback that initialises channels of kind `t`: the weight callback for weight
channels, the bias callback for bias channels, none for data channels. -/
def initCallback (L : NeuralLayer F σ) : ChannelType → Option (InitFunc F σ)
  | .weight => L.weightInitFunc
  | .bias => L.biasInitFunc
  | .data => none

/-- The log entry of an invocation made for a channel of kind `t`. -/
def initTag : ChannelType → Nat → Storage F → Int → Int → Event F
  | .bias => Event.biasInit
  | _ => Event.weightInit

/-- The invocation the specification expects for input channel `i`, read off the state `s`
in which `initializeWeights` is called: the callback of the kind of the channel, if it is
set, on the first value sample of the channel with the fan sizes of the layer. -/
def expectedInitEvent (s : State F σ) (i : Nat) : Option (Event F) :=
  match s.layer.inputTypes[i]?, getInputWeights s i, getFanInSize s.layer,
      getFanOutSize s.layer with
  | some t, some w, some fanIn, some fanOut =>
    if (initCallback s.layer t).isSome then some (initTag t i w fanIn fanOut) else none
  | _, _, _, _ => none

/-- Signal `b` is what the initialisation of a channel of kind `ty` makes of signal `a`:
`a` itself when no callback is set for the kind, and otherwise `a` with its first value
sample replaced by the output of the callback on that sample and the fan sizes. -/
def InitializedCell (L : NeuralLayer F σ) (ty : ChannelType) (a b : Signal F) : Prop :=
  match initCallback L ty with
  | none => b = a
  | some func =>
    ∃ e w rest fanIn fanOut, a.weight = w :: rest ∧ getFanInSize L = some fanIn ∧
      getFanOutSize L = some fanOut ∧
      b = { a with weight := (func e w fanIn fanOut).2 :: rest }

/-- Invariant of the loop of `initializeWeights` after the channels below `k`, against the
state `s` in which the loop started, for a layer without shared inputs. -/
def InitInv (s : State F σ) (k : Nat) (t : State F σ) : Prop :=
  t.layer = s.layer ∧
  t.log = s.log ++ (List.range k).filterMap (expectedInitEvent s) ∧
  (∀ j p : Nat, k ≤ j → getInput s.layer j = some p → t.heap[p]? = s.heap[p]?) ∧
  (∀ (j p : Nat) (ty : ChannelType) (a : Signal F), j < k → getInput s.layer j = some p →
    s.layer.inputTypes[j]? = some ty → s.heap[p]? = some a →
    ∃ b, t.heap[p]? = some b ∧ InitializedCell s.layer ty a b)

/-- The input channel an initialisation callback was invoked for, if the log entry is such
an invocation. -/
def Event.initChannel : Event F → Option Nat
  | .weightInit i _ _ _ => some i
  | .biasInit i _ _ _ => some i
  | _ => none

/-- The input channel the optimizer was called for, if the log entry is such a call. -/
def Event.optimizerChannel : Event F → Option Nat
  | .optimizer i _ _ _ => some i
  | _ => none

/-- Channel `i` gets initialised: it has a kind for which a callback is set. -/
def initActive (L : NeuralLayer F σ) (i : Nat) : Bool :=
  match L.inputTypes[i]? with
  | some ty => (initCallback L ty).isSome
  | none => false

/-- An entry `initializeWeights` may log: the weight callback for a weight channel or the
bias callback for a bias channel, the callback being set, with the fan sizes of the
layer. -/
def InitEventOk (s : State F σ) : Event F → Prop
  | .weightInit i _ fanIn fanOut =>
    s.layer.inputTypes[i]? = some .weight ∧ s.layer.weightInitFunc.isSome = true ∧
      getFanInSize s.layer = some fanIn ∧ getFanOutSize s.layer = some fanOut
  | .biasInit i _ fanIn fanOut =>
    s.layer.inputTypes[i]? = some .bias ∧ s.layer.biasInitFunc.isSome = true ∧
      getFanInSize s.layer = some fanIn ∧ getFanOutSize s.layer = some fanOut
  | _ => False

/-- Invariant of the loop of `initializeWeights` after the channels below `k` that needs no
assumption on sharing: the layer object is untouched, only first value samples change and
only in signals held by a channel that gets initialised, and the log gained one admissible
invocation for each such channel, in channel order. -/
def InitInvWeak (s : State F σ) (k : Nat) (t : State F σ) : Prop :=
  t.layer = s.layer ∧ HeapFrame s.heap t.heap ∧
  (∀ p : Nat, (∀ j : Nat, j < k → initActive s.layer j = true → getInput s.layer j ≠ some p) →
    t.heap[p]? = s.heap[p]?) ∧
  ∃ evs, t.log = s.log ++ evs ∧
    evs.filterMap Event.initChannel = (List.range k).filter (initActive s.layer) ∧
    ∀ e ∈ evs, InitEventOk s e

/-! ## Specification-side definitions for `updateWeights` -/

/-- Channel `i` takes part in the weight update: the layer is trainable and the channel is
of weight or bias kind. -/
def eligible (L : NeuralLayer F σ) (i : Nat) : Bool :=
  L.trainable &&
    (match L.inputTypes[i]? with
     | some t => is_trainable_weight t
     | none => false)

/-- The gradient the specification expects the optimizer to receive for channel `i`, read
off the state `s` in which `updateWeights` is called: the rows of the gradient accumulator
of input signal `i` merged into one vector, every element multiplied by `1 / batch_size`. -/
def expectedGradient [One F] [Add F] [Mul F] [Div F] [IntCast F] (s : State F σ)
    (batch_size : Int) (i : Nat) : Option (Storage F) :=
  match getInput s.layer i with
  | none => none
  | some p =>
    match s.heap[p]? with
    | none => none
    | some sig =>
      (sig.mergeGradients []).map
        (fun merged => merged.map (fun g => g * ((1 : F) / ((batch_size : Int) : F))))

/-- The calls the specification expects for channel `i`, read off the state `s` in which
`updateWeights` is called: for an eligible channel one merge and one optimizer call with
the expected gradient, the first value sample of the channel and the hint
`512 ≤ size`; for any other channel none. -/
def expectedUpdateEvents [One F] [Add F] [Mul F] [Div F] [IntCast F] (s : State F σ)
    (batch_size : Int) (i : Nat) : List (Event F) :=
  if eligible s.layer i then
    match expectedGradient s batch_size i, getInputWeights s i with
    | some dW, some W =>
      [Event.mergeGradients i, Event.optimizer i dW W (decide (512 ≤ W.length))]
    | _, _ => []
  else []

/-- An entry the update loop may log while it handles the channels below `k`: a merge or
an optimizer call for an eligible channel below `k`, the optimizer call with the expected
gradient and with the hint decided by the size of the buffer it is handed. -/
def UpdateEventOk [One F] [Add F] [Mul F] [Div F] [IntCast F] (s : State F σ)
    (batch_size : Int) (k : Nat) : Event F → Prop
  | .mergeGradients i => i < k ∧ eligible s.layer i = true
  | .optimizer i dW W parallel =>
    i < k ∧ eligible s.layer i = true ∧ expectedGradient s batch_size i = some dW ∧
      parallel = decide (512 ≤ W.length)
  | _ => False

/-- Invariant of the update loop after the channels below `k` that needs no assumption on
sharing: only `weightDifference` and first value samples change, nothing changes on a layer
that is not trainable, every new log entry is an admissible one, and the optimizer was
called once for each eligible channel, in channel order. -/
def UpdateInvWeak [One F] [Add F] [Mul F] [Div F] [IntCast F] (s : State F σ)
    (batch_size : Int) (k : Nat) (t : State F σ) : Prop :=
  (∃ d, t.layer = { s.layer with weightDifference := d }) ∧
  HeapFrame s.heap t.heap ∧
  (s.layer.trainable = false → t = s) ∧
  ∃ evs, t.log = s.log ++ evs ∧
    evs.filterMap Event.optimizerChannel = (List.range k).filter (eligible s.layer) ∧
    ∀ e ∈ evs, UpdateEventOk s batch_size k e

/-- Invariant of the update loop after the channels below `k` on a layer without shared
inputs: the log holds exactly the expected calls, and the signals of the channels from `k`
on are untouched. -/
def UpdateInv [One F] [Add F] [Mul F] [Div F] [IntCast F] (s : State F σ)
    (batch_size : Int) (k : Nat) (t : State F σ) : Prop :=
  (∃ d, t.layer = { s.layer with weightDifference := d }) ∧
  HeapFrame s.heap t.heap ∧
  t.log = s.log ++ (List.range k).flatMap (expectedUpdateEvents s batch_size) ∧
  (∀ j p : Nat, k ≤ j → getInput s.layer j = some p → t.heap[p]? = s.heap[p]?)

/-- Invariant of the loop of `clearGradients` after the channels below `k`: the signals of
those channels are cleared, every other signal is either untouched or cleared, and the log
holds one entry per channel. -/
def ClearInv [Zero F] (s : State F σ) (k : Nat) (t : State F σ) : Prop :=
  t.layer = s.layer ∧ t.env = s.env ∧
  t.log = s.log ++ (List.range k).map Event.clearGradients ∧
  (∀ (p : Nat) (a : Signal F), s.heap[p]? = some a →
    t.heap[p]? = some a ∨ t.heap[p]? = some a.clearGradients) ∧
  (∀ p : Nat, (∀ j : Nat, j < k → getInput s.layer j ≠ some p) → t.heap[p]? = s.heap[p]?) ∧
  (∀ (j p : Nat) (a : Signal F), j < k → getInput s.layer j = some p → s.heap[p]? = some a →
    t.heap[p]? = some a.clearGradients)

/-! ## Specification-side definitions for `setSampleCount` -/

/-- The analogue of `inputReady` for output channel `i`. -/
def outputReady (s : State F σ) (i : Nat) : Bool :=
  match getOutput s.layer i with
  | none => false
  | some p =>
    match s.heap[p]? with
    | none => false
    | some sig => !sig.weight.isEmpty && !sig.change.isEmpty

/-- Every output channel has a type and a connected signal with at least one sample. -/
def OutputsWired (s : State F σ) : Prop :=
  s.layer.outputTypes.length = s.layer.outputChannels ∧
    ∀ i, i < s.layer.outputChannels → outputReady s i = true

instance (s : State F σ) : Decidable (OutputsWired s) :=
  inferInstanceAs (Decidable (_ ∧ _))

/-- What `std::vector::resize(n, t[0])` makes of a buffer `t`. -/
def resized (n : Nat) (t : Tensor F) : Tensor F :=
  t.take n ++ List.replicate (n - t.length) (t.headD [])

/-- Signal `p` sits in one of the first `k` slots of `slot`. -/
def heldBelow (slot : Nat → Option Nat) (k p : Nat) : Prop :=
  ∃ j, j < k ∧ slot j = some p

/-- Signal `p` sits in one of the first `k` slots of `slot`, in a channel whose kind is
neither weight nor bias. -/
def dataBelow (slot : Nat → Option Nat) (kind : Nat → Option ChannelType) (k p : Nat) :
    Prop :=
  ∃ j, j < k ∧ slot j = some p ∧ ∃ ty, kind j = some ty ∧ is_trainable_weight ty = false

/-- Signal `p` is connected to an input or an output channel of `L`. -/
def SignalHeld (L : NeuralLayer F σ) (p : Nat) : Prop :=
  heldBelow (getInput L) L.inputChannels p ∨ heldBelow (getOutput L) L.outputChannels p

/-- Signal `p` is connected to an input or an output channel of `L` whose kind is neither
weight nor bias. -/
def DataHeld (L : NeuralLayer F σ) (p : Nat) : Prop :=
  dataBelow (getInput L) (fun j => L.inputTypes[j]?) L.inputChannels p ∨
    dataBelow (getOutput L) (fun j => L.outputTypes[j]?) L.outputChannels p

/-- State `t` differs from `s` only in that the gradient buffers of the signals in `C` and
the value buffers of the signals in `W` were resized to `n` samples. -/
def SampleRel (n : Nat) (C W : Nat → Prop) (s t : State F σ) : Prop :=
  t.layer = s.layer ∧ t.env = s.env ∧ t.log = s.log ∧ t.heap.length = s.heap.length ∧
    ∀ (p : Nat) (a : Signal F), s.heap[p]? = some a →
      ∃ b, t.heap[p]? = some b ∧ b.input = a.input ∧ b.dimensions = a.dimensions ∧
        b.type = a.type ∧
        (C p → b.change = resized n a.change) ∧ (¬ C p → b.change = a.change) ∧
        (W p → b.weight = resized n a.weight) ∧ (¬ W p → b.weight = a.weight)

/-- Buffer `new` is `old` grown to `n` samples: if `old` holds fewer than `n` samples and
at least one, `new` holds `n`, starts with the samples of `old`, and every further sample
is the sample that was first in `old`. -/
def GrownFrom (n : Nat) (old new : Tensor F) : Prop :=
  ∀ (first : Storage F) (rest : Tensor F), old = first :: rest → old.length < n →
    new.length = n ∧ new.take old.length = old ∧
      ∀ k, old.length ≤ k → k < n → new[k]? = some first

/-! ## Specification-side definitions for `forward` -/

/-- Invariant of the second loop of `forward` after the output channels below `k`: the
output pointers gathered so far are those of the slots below `k`, the log holds one entry
per channel, and a signal is cleared if it sits in one of these slots and untouched
otherwise. -/
def ClearOutInv [Zero F] (s : State F σ) (k : Nat) (acc : State F σ × List Nat) : Prop :=
  acc.1.layer = s.layer ∧ acc.1.env = s.env ∧
  acc.1.log = s.log ++ (List.range k).map Event.clearOutputGradients ∧
  acc.2 = (List.range k).filterMap (getOutput s.layer) ∧
  ∀ (p : Nat) (a : Signal F), s.heap[p]? = some a →
    ∃ b, acc.1.heap[p]? = some b ∧
      (heldBelow (getOutput s.layer) k p → b = a.clearGradients) ∧
      (¬ heldBelow (getOutput s.layer) k p → b = a)

/-- Number of data channels among the input channels below `i`: the index of the batch
that `setInputData` hands to input channel `i`. -/
def dataIndex (L : NeuralLayer F σ) (i : Nat) : Nat :=
  ((List.range i).filter (fun j => decide (L.inputTypes[j]? = some ChannelType.data))).length

/-- The output slots of kind data, in increasing order. -/
def dataOutputSlots (L : NeuralLayer F σ) : List Nat :=
  (List.range L.outputChannels).filter (fun i => decide (L.outputTypes[i]? = some .data))

/-- The visited flag behind a layer pointer, `false` for a pointer to no layer. -/
def visitedAt (net : List (NeuralLayer F σ)) (d : Nat) : Bool :=
  match net[d]? with
  | some layer => layer.visited
  | none => false

/-! ## Specification-side definitions for `hasSameWeights` -/

/-- The parameter buffers of a layer: the first value sample of every input channel of kind
weight or bias, in slot order. -/
def paramBuffers (s : State F σ) : List (Storage F) :=
  (List.range s.layer.inputChannels).filterMap (fun i =>
    match s.layer.inputTypes[i]? with
    | some ty => if is_trainable_weight ty then getInputWeights s i else none
    | none => none)

/-- Two lists of parameter buffers agree up to `eps`: as many buffers, slot by slot as many
elements, and no pair of corresponding elements with `eps < fabs (x - y)`. -/
def SameWeights [Sub F] [LT F] (fabs : F → F) (eps : F) (w1 w2 : List (Storage F)) : Prop :=
  w1.length = w2.length ∧
    ∀ (i : Nat) (a b : Storage F), w1[i]? = some a → w2[i]? = some b →
      a.length = b.length ∧
        ∀ (j : Nat) (x y : F), a[j]? = some x → b[j]? = some y → ¬ eps < fabs (x - y)

/-! ## Specification-side definitions for `copy_and_unpad_output` -/

/-- The padded shape holds the unpadded one shifted by half the window, channel by
channel. -/
def UnpadGeometry (P : deconv_params) : Prop :=
  P.weight.width_ / 2 + P.out_unpadded.width_ ≤ P.out.width_ ∧
  P.weight.height_ / 2 + P.out_unpadded.height_ ≤ P.out.height_ ∧
  P.out_unpadded.depth_ ≤ P.out.depth_

/-- Invariant of the loops over `c` and `y` of `copy_and_unpad_output` after `R` rows: `dst`
has the unpadded size and its first `R` rows are the cropped rows of `src`. -/
def UnpadInv (P : deconv_params) (src : Storage F) (R : Nat) (dst : Storage F) : Prop :=
  dst.length = P.out_unpadded.size ∧
  ∀ c y x, y < P.out_unpadded.height_ → x < P.out_unpadded.width_ →
    P.out_unpadded.height_ * c + y < R →
    dst[P.out_unpadded.get_index x y c]? =
      src[P.out.get_index (x + P.weight.width_ / 2) (y + P.weight.height_ / 2) c]?

/-! ## Specification-side definitions for `AveragePoolFilter` -/

/-- The `addOutput` calls for one pooled signal: the window of `kernelSize` by `kernelSize`
neurons of the input layer, row by row. -/
def windowEvents (inputLayer : GridLayer) (kernelSize i j : Nat) (sig : PoolSignal) :
    List PoolEvent :=
  (List.range kernelSize).flatMap (fun jj =>
    (List.range kernelSize).map (fun ii =>
      PoolEvent.addOutput inputLayer.ref (i * kernelSize + ii) (j * kernelSize + jj) sig))

/-- The calls for output neuron `(i, j)` of the output layer of iteration `k`. -/
def cellEvents (inputLayer : GridLayer) (kernelSize k j i : Nat) : List PoolEvent :=
  [PoolEvent.addInput (.created k) i j ⟨k, i, j⟩, PoolEvent.addSignal ⟨k, i, j⟩] ++
    windowEvents inputLayer kernelSize i j ⟨k, i, j⟩

/-- The calls for row `j` of the output layer of iteration `k`. -/
def rowEvents (inputLayer : GridLayer) (kernelSize k j : Nat) : List PoolEvent :=
  (List.range (inputLayer.width / kernelSize)).flatMap (cellEvents inputLayer kernelSize k j)

/-- The calls of iteration `k` of the loop over the input layers. -/
def layerEvents (inputLayer : GridLayer) (kernelSize k : Nat) : List PoolEvent :=
  [PoolEvent.construct k (inputLayer.width / kernelSize) (inputLayer.height / kernelSize),
    PoolEvent.addBiasSignals k] ++
    (List.range (inputLayer.height / kernelSize)).flatMap (rowEvents inputLayer kernelSize k)

/-- The calls of `initialize` on the filter `f`. -/
def expectedCalls (f : AveragePoolFilter) : List PoolEvent :=
  (List.range f.inputLayers.length).flatMap (fun k =>
    match f.inputLayers[k]? with
    | some inputLayer => layerEvents inputLayer f.kernelSize k
    | none => [])

/-- The event attaches neuron `(x, y)` of layer `layer` as a source to a signal created for
the output layer of iteration `k`. -/
def PoolEvent.attaches (layer : LayerRef) (x y k : Nat) : PoolEvent → Bool
  | .addOutput l x2 y2 sig => decide (l = layer ∧ x2 = x ∧ y2 = y ∧ sig.layer = k)
  | _ => false

/-- The event attaches neuron `(x, y)` of layer `layer` as a source to some signal. -/
def PoolEvent.attachesAny (layer : LayerRef) (x y : Nat) : PoolEvent → Bool
  | .addOutput l x2 y2 _ => decide (l = layer ∧ x2 = x ∧ y2 = y)
  | _ => false

/-- The event attaches some neuron as a source to the signal `sig`. -/
def PoolEvent.feeds (sig : PoolSignal) : PoolEvent → Bool
  | .addOutput _ _ _ sig2 => decide (sig2 = sig)
  | _ => false

/-- The event adds an input signal to neuron `(i, j)` of layer `layer`. -/
def PoolEvent.drives (layer : LayerRef) (i j : Nat) : PoolEvent → Bool
  | .addInput l i2 j2 _ => decide (l = layer ∧ i2 = i ∧ j2 = j)
  | _ => false

/-- The neuron an `addOutput` call is made on. -/
def PoolEvent.source : PoolEvent → Option (LayerRef × Nat × Nat)
  | .addOutput l x y _ => some (l, x, y)
  | _ => none

/-! ## Concrete layers used to instantiate the theorems -/

/-- A parameter signal with two value elements and two accumulated gradient rows. -/
def exampleSignal : Signal Int :=
  { input := none, dimensions := ⟨2, 1, 1⟩, type := .weight,
    weight := [[1, 2]], change := [[3, 4], [5, 6]] }

/-- A callback that counts its calls and fills the buffer with the constant 7. -/
def exampleInit : InitFunc Int Nat := fun e data _ _ => (e + 1, data.map (fun _ => 7))

/-- A freshly constructed trainable layer with one weight input wired to signal 0, one data
output that is not allocated yet, matching dimension lists and a weight callback. -/
def exampleLayer : NeuralLayer Int Nat :=
  { (NeuralLayer.new [.weight] [.data] [⟨2, 1, 1⟩] [⟨3, 1, 1⟩] : NeuralLayer Int Nat) with
    inputs := [some 0], weightInitFunc := some exampleInit }

/-- The layer `exampleLayer` with the signal it is wired to. -/
def exampleState : State Int Nat :=
  { layer := exampleLayer, heap := [exampleSignal], env := 0, log := [] }

/-- The same layer declaring two input shapes for its single input channel. -/
def mismatchState : State Int Nat :=
  { exampleState with
    layer := { exampleLayer with getInputDimensions := [⟨2, 1, 1⟩, ⟨2, 1, 1⟩] } }

/-- The layer after a first `setup`: output 0 holds signal 1 and `initialized` is set. -/
def settledState : State Int Nat :=
  { layer := { exampleLayer with outputs := [some 1], initialized := true },
    heap := [exampleSignal, Signal.new 0 ⟨3, 1, 1⟩ .data], env := 1, log := [] }

/-- A layer that is not trainable although both callbacks are configured. -/
def frozenState : State Int Nat :=
  { exampleState with
    layer := { exampleLayer with trainable := false, biasInitFunc := some exampleInit } }

/-- The example layer after a first `setup`, asked to reset: the weight buffer holds values
written earlier. -/
def trainedState : State Int Nat :=
  { settledState with
    heap := [{ exampleSignal with weight := [[40, 41]] }, Signal.new 0 ⟨3, 1, 1⟩ .data] }

/-- An optimizer that counts its calls, takes the gradient off the weights and leaves junk
in the gradient buffer it was handed. -/
def exampleOptimizer : Optimizer Int Nat :=
  fun e dW W _ => (e + 1, dW.map (fun _ => 99), List.zipWith (fun w g => w - g) W dW)

/-- A trainable layer with a weight, a bias and a data input, each wired to a signal of its
own; only the weight callback is configured. -/
def mixedState : State Int Nat :=
  { layer :=
      { (NeuralLayer.new [.weight, .bias, .data] [.data]
          [⟨2, 1, 1⟩, ⟨1, 1, 1⟩, ⟨2, 1, 1⟩] [⟨3, 1, 1⟩] : NeuralLayer Int Nat) with
        inputs := [some 0, some 1, some 2], weightInitFunc := some exampleInit },
    heap := [exampleSignal,
      { exampleSignal with type := .bias, dimensions := ⟨1, 1, 1⟩, weight := [[5]],
                           change := [[1], [2]] },
      { exampleSignal with type := .data, weight := [[8, 9]], change := [[10, 20]] }],
    env := 0, log := [] }

/-- The example layer with a weight buffer of `n` elements. -/
def sizedState (n : Nat) : State Int Nat :=
  { exampleState with
    heap := [{ exampleSignal with weight := [List.replicate n 1],
                                  change := [List.replicate n 2] }] }

/-- A layer that is not trainable, with one data input whose gradient accumulator holds
two rows. -/
def frozenDataState : State Int Nat :=
  { layer :=
      { (NeuralLayer.new [.data] [.data] [⟨2, 1, 1⟩] [⟨3, 1, 1⟩] : NeuralLayer Int Nat) with
        inputs := [some 0], trainable := false },
    heap := [{ exampleSignal with type := .data }], env := 0, log := [] }

/-- A data signal of two elements per sample holding three samples in both buffers. -/
def batchSignal : Signal Int :=
  { input := none, dimensions := ⟨2, 1, 1⟩, type := .data,
    weight := [[1, 2], [3, 4], [5, 6]], change := [[7, 8], [9, 10], [11, 12]] }

/-- A layer with one data input holding three samples, one weight input holding one
sample, and one allocated data output holding one sample. -/
def batchState : State Int Nat :=
  { layer :=
      { (NeuralLayer.new [.data, .weight] [.data]
          [⟨2, 1, 1⟩, ⟨2, 1, 1⟩] [⟨2, 1, 1⟩] : NeuralLayer Int Nat) with
        inputs := [some 0, some 1], outputs := [some 2] },
    heap := [batchSignal,
      { exampleSignal with weight := [[1, 2]], change := [[3, 4]] },
      { batchSignal with input := some 0, weight := [[0, 0]], change := [[5, 5]] }],
    env := 0, log := [] }

/-- A kernel that counts its calls and leaves the signals alone. -/
def exampleKernel : Kernel Int Nat := fun env heap _ _ => (env + 1, heap)

/-- A layer without input channels, with one allocated data output. -/
def sourcelessState : State Int Nat :=
  { layer :=
      { (NeuralLayer.new [] [.data] [] [⟨2, 1, 1⟩] : NeuralLayer Int Nat) with
        outputs := [some 0] },
    heap := [batchSignal], env := 0, log := [] }

/-- The layer of `batchState` after an empty batch was written to its data input. -/
def starvedState : State Int Nat :=
  { batchState with heap := batchState.heap.set 0 { batchSignal with weight := [] } }

/-- A layer with three allocated outputs of kinds data, weight and data. -/
def fanoutState : State Int Nat :=
  { layer :=
      { (NeuralLayer.new [] [.data, .weight, .data] []
          [⟨2, 1, 1⟩, ⟨2, 1, 1⟩, ⟨2, 1, 1⟩] : NeuralLayer Int Nat) with
        outputs := [some 2, some 0, some 1] },
    heap := [batchSignal, batchSignal, batchSignal], env := 0, log := [] }

/-- A store of three layers: a visited producer, an unvisited producer, and an unvisited
join node that depends on both. -/
def exampleNet : List (NeuralLayer Int Nat) :=
  [{ (NeuralLayer.new [] [] [] [] : NeuralLayer Int Nat) with visited := true, children := [2] },
   { (NeuralLayer.new [] [] [] [] : NeuralLayer Int Nat) with children := [2] },
   { (NeuralLayer.new [] [] [] [] : NeuralLayer Int Nat) with dependencies := [0, 1] }]

/-- The layer of `mixedState` with the second element of its weight buffer raised by 2. -/
def perturbedState : State Int Nat :=
  { mixedState with heap := mixedState.heap.set 0 { exampleSignal with weight := [[1, 4]] } }

/-- Absolute value on the integers, standing for `std::abs`. -/
def absInt (x : Int) : Int := (x.natAbs : Int)

/-- Deconvolution parameters for a 2 x 1 input, a 3 x 2 window, two output channels and
strides 1 and 2 with `same` padding: padded output 4 x 3, unpadded output 2 x 2. -/
def exampleDeconv : deconv_params :=
  deconv_set_params ⟨2, 1, 1⟩ 3 2 2 padding.same false 1 2

/-- A padded output sample for `exampleDeconv` whose element at offset `i` is `i`. -/
def paddedSample : Storage Int :=
  [0, 1, 2, 3, 4, 5, 6, 7, 8, 9, 10, 11, 12, 13, 14, 15, 16, 17, 18, 19, 20, 21, 22, 23]

/-- Two input layers: a 4 x 2 map and a 2 x 2 map. -/
def exampleMaps : List GridLayer := [⟨.given 0, 4, 2⟩, ⟨.given 1, 2, 2⟩]

/-- The filter that the constructor returns for `exampleMaps` and kernel size 2. -/
def examplePool : AveragePoolFilter :=
  { inputLayers := exampleMaps, outputLayers := [], kernelSize := 2 }

/-- Deconvolution parameters for an input of 16777216 by 1, a window of 2 by 1, one output
channel and strides 1 with `same` padding. -/
def wideDeconv : deconv_params :=
  deconv_set_params ⟨16777216, 1, 1⟩ 2 1 1 padding.same false 1 1

/-! ## Loop rules -/

@[simp] theorem andThen_ok {α : Type} (s : α) (k : α → Outcome α) :
    (Outcome.ok s).andThen k = k s := rfl

@[simp] theorem andThen_threw {α : Type} (e : LayerError) (s : α) (k : α → Outcome α) :
    (Outcome.threw e s).andThen k = .threw e s := rfl

@[simp] theorem andThen_fault {α : Type} (k : α → Outcome α) :
    (Outcome.fault : Outcome α).andThen k = .fault := rfl

@[simp] theorem forLoop_nil {α : Type} (body : Nat → α → Outcome α) (s : α) :
    forLoop body [] s = .ok s := rfl

@[simp] theorem forLoop_cons {α : Type} (body : Nat → α → Outcome α) (i : Nat)
    (rest : List Nat) (s : α) :
    forLoop body (i :: rest) s = (body i s).andThen (forLoop body rest) := rfl

/-- A loop whose body never throws never throws. -/
theorem forLoop_no_throw {α : Type} (body : Nat → α → Outcome α)
    (hb : ∀ i s e t, body i s ≠ .threw e t) (l : List Nat) (s : α) (e : LayerError) (t : α) :
    forLoop body l s ≠ .threw e t := by
  induction l generalizing s with
  | nil => simp
  | cons i rest ih =>
    rw [forLoop_cons]
    cases hbi : body i s with
    | ok s1 => simpa using ih s1
    | threw e1 t1 => exact absurd hbi (hb i s e1 t1)
    | fault => simp

/-- Hoare rule for the counting loop, over the index range from `k`. -/
theorem forLoop_range_from {α : Type} (body : Nat → α → Outcome α) (Inv : Nat → α → Prop)
    (m k : Nat) (s : α) (h0 : Inv k s)
    (step : ∀ j s1, k ≤ j → j < k + m → Inv j s1 → ∃ s2, body j s1 = .ok s2 ∧ Inv (j + 1) s2) :
    ∃ t, forLoop body (List.range' k m) s = .ok t ∧ Inv (k + m) t := by
  induction m generalizing k s with
  | zero => exact ⟨s, by simp, by simpa using h0⟩
  | succ m ih =>
    obtain ⟨s2, hs2, hinv⟩ := step k s (Nat.le_refl k) (by omega) h0
    obtain ⟨t, ht, hinvt⟩ := ih (k + 1) s2 hinv
      (fun j s1 h1 h2 h3 => step j s1 (by omega) (by omega) h3)
    refine ⟨t, ?_, ?_⟩
    · simp [List.range'_succ, hs2, ht]
    · have : k + (m + 1) = k + 1 + m := by omega
      rw [this]; exact hinvt

/-- Hoare rule for `for (i = 0; i < n; i++) body(i)`: an invariant that holds at 0 and that
every iteration carries from `j` to `j + 1` holds at `n`, and the loop returns. -/
theorem forLoop_range {α : Type} (body : Nat → α → Outcome α) (Inv : Nat → α → Prop)
    (n : Nat) (s : α) (h0 : Inv 0 s)
    (step : ∀ j s1, j < n → Inv j s1 → ∃ s2, body j s1 = .ok s2 ∧ Inv (j + 1) s2) :
    ∃ t, forLoop body (List.range n) s = .ok t ∧ Inv n t := by
  have h := forLoop_range_from body Inv n 0 s h0
    (fun j s1 _ h2 h3 => step j s1 (by omega) h3)
  simpa [List.range_eq_range'] using h

/-! ## Frames: what a method leaves untouched -/

theorem cellFrame_refl (a : Signal F) : CellFrame a a :=
  ⟨rfl, rfl, rfl, rfl, rfl, Iff.rfl⟩

theorem cellFrame_trans {a b c : Signal F} (hab : CellFrame a b) (hbc : CellFrame b c) :
    CellFrame a c :=
  ⟨hbc.1.trans hab.1, hbc.2.1.trans hab.2.1, hbc.2.2.1.trans hab.2.2.1,
    hbc.2.2.2.1.trans hab.2.2.2.1, hbc.2.2.2.2.1.trans hab.2.2.2.2.1,
    hbc.2.2.2.2.2.trans hab.2.2.2.2.2⟩

theorem cellFrame_head (a : Signal F) (w v : Storage F) (rest : Tensor F)
    (hw : a.weight = w :: rest) : CellFrame a { a with weight := v :: rest } := by
  refine ⟨rfl, rfl, rfl, rfl, ?_, ?_⟩
  · simp [hw]
  · simp [hw]

theorem heapFrame_refl (h : List (Signal F)) : HeapFrame h h :=
  ⟨rfl, fun _ a ha => ⟨a, ha, cellFrame_refl a⟩⟩

theorem heapFrame_trans {h1 h2 h3 : List (Signal F)} (a : HeapFrame h1 h2)
    (b : HeapFrame h2 h3) : HeapFrame h1 h3 := by
  refine ⟨b.1.trans a.1, fun p x hx => ?_⟩
  obtain ⟨y, hy, hxy⟩ := a.2 p x hx
  obtain ⟨z, hz, hyz⟩ := b.2 p y hy
  exact ⟨z, hz, cellFrame_trans hxy hyz⟩

theorem getElem?_lt_of_eq_some {α : Type} {l : List α} {p : Nat} {a : α}
    (h : l[p]? = some a) : p < l.length := by
  obtain ⟨hp, _⟩ := List.getElem?_eq_some.mp h
  exact hp

theorem heapFrame_set {h : List (Signal F)} {p : Nat} {a b : Signal F}
    (ha : h[p]? = some a) (hab : CellFrame a b) : HeapFrame h (h.set p b) := by
  refine ⟨by simp, fun q x hx => ?_⟩
  by_cases hq : p = q
  · subst hq
    have hx2 : x = a := by rw [ha] at hx; exact (Option.some.inj hx).symm
    subst hx2
    exact ⟨b, by simp [getElem?_lt_of_eq_some ha], hab⟩
  · exact ⟨x, by simp [List.getElem?_set_ne hq, hx], cellFrame_refl x⟩

/-- What `inputReady` says, spelled out. -/
theorem inputReady_unpack {s : State F σ} {i : Nat} (h : inputReady s i = true) :
    ∃ p sig w rest g grest, getInput s.layer i = some p ∧ s.heap[p]? = some sig ∧
      sig.weight = w :: rest ∧ sig.change = g :: grest := by
  unfold inputReady at h
  cases hp : getInput s.layer i with
  | none => simp [hp] at h
  | some p =>
    cases hs : s.heap[p]? with
    | none => simp [hp, hs] at h
    | some sig =>
      simp only [hp, hs] at h
      cases hw : sig.weight with
      | nil => simp [hw] at h
      | cons w rest =>
        cases hc : sig.change with
        | nil => simp [hc] at h
        | cons g grest => exact ⟨p, sig, w, rest, g, grest, rfl, hs, hw, hc⟩

theorem inputReady_of_frame {s t : State F σ} {i : Nat} (hl : t.layer.inputs = s.layer.inputs)
    (hh : HeapFrame s.heap t.heap) (h : inputReady s i = true) : inputReady t i = true := by
  obtain ⟨p, sig, w, rest, g, grest, hp, hs, hw, hc⟩ := inputReady_unpack h
  obtain ⟨b, hb, hab⟩ := hh.2 p sig hs
  have hp2 : getInput t.layer i = some p := by
    unfold getInput at hp ⊢; rw [hl]; exact hp
  obtain ⟨-, -, -, c4, -, c6⟩ := hab
  have hbw : b.weight ≠ [] := fun hn => by
    have := c6.mp hn
    rw [hw] at this; exact absurd this (by simp)
  have hbc : b.change ≠ [] := by rw [c4, hc]; simp
  unfold inputReady
  simp only [hp2, hb]
  cases hbw2 : b.weight with
  | nil => exact absurd hbw2 hbw
  | cons _ _ =>
    cases hbc2 : b.change with
    | nil => exact absurd hbc2 hbc
    | cons _ _ => simp

/-! ## The body of the initialisation loop -/

theorem callInit_spec (tag : Nat → Storage F → Int → Int → Event F) (func : InitFunc F σ)
    (i : Nat) (s : State F σ) (hr : inputReady s i = true) (hf : FanDefined s.layer) :
    ∃ p sig w rest fanIn fanOut, getInput s.layer i = some p ∧ s.heap[p]? = some sig ∧
      sig.weight = w :: rest ∧ getFanInSize s.layer = some fanIn ∧
      getFanOutSize s.layer = some fanOut ∧
      callInit tag func i s = .ok { s with
        heap := s.heap.set p { sig with weight := (func s.env w fanIn fanOut).2 :: rest },
        env := (func s.env w fanIn fanOut).1,
        log := s.log ++ [tag i w fanIn fanOut] } := by
  obtain ⟨p, sig, w, rest, g, grest, hp, hs, hw, -⟩ := inputReady_unpack hr
  obtain ⟨h1, h2⟩ := hf
  obtain ⟨fanIn, hfi⟩ := Option.isSome_iff_exists.mp h1
  obtain ⟨fanOut, hfo⟩ := Option.isSome_iff_exists.mp h2
  refine ⟨p, sig, w, rest, fanIn, fanOut, hp, hs, hw, hfi, hfo, ?_⟩
  unfold callInit
  simp only [hp, hs, hw, hfi, hfo]

theorem callInit_no_throw (tag : Nat → Storage F → Int → Int → Event F) (func : InitFunc F σ)
    (i : Nat) (s : State F σ) (e : LayerError) (t : State F σ) :
    callInit tag func i s ≠ .threw e t := by
  unfold callInit
  repeat' split
  all_goals simp

theorem initBody_no_throw (i : Nat) (s : State F σ) (e : LayerError) (t : State F σ) :
    initBody i s ≠ .threw e t := by
  unfold initBody
  repeat' split
  all_goals first
    | exact callInit_no_throw _ _ _ _ _ _
    | simp

theorem initializeWeights_no_throw (s : State F σ) (e : LayerError) (t : State F σ) :
    initializeWeights s ≠ .threw e t := by
  unfold initializeWeights
  split
  · simp
  · cases h : forLoop initBody (List.range s.layer.inputChannels) s with
    | ok s1 => simp
    | threw e1 t1 => exact absurd h (forLoop_no_throw _ initBody_no_throw _ _ _ _)
    | fault => simp

theorem allocBody_no_throw [Zero F] (self i : Nat) (s : State F σ) (e : LayerError)
    (t : State F σ) : allocBody self i s ≠ .threw e t := by
  unfold allocBody
  repeat' split
  all_goals simp

/-! ## The initialisation loop: return and frame -/

theorem initBody_frame (i : Nat) (s : State F σ) (hi : i < s.layer.inputTypes.length)
    (hr : inputReady s i = true) (hf : FanDefined s.layer) :
    ∃ t, initBody i s = .ok t ∧ t.layer = s.layer ∧ HeapFrame s.heap t.heap ∧
      (∀ p : Nat, getInput s.layer i ≠ some p → t.heap[p]? = s.heap[p]?) ∧
      ∃ evs, t.log = s.log ++ evs := by
  have hself : ∃ t, (Outcome.ok s : Outcome (State F σ)) = .ok t ∧ t.layer = s.layer ∧
      HeapFrame s.heap t.heap ∧
      (∀ p : Nat, getInput s.layer i ≠ some p → t.heap[p]? = s.heap[p]?) ∧
      ∃ evs, t.log = s.log ++ evs :=
    ⟨s, rfl, rfl, heapFrame_refl _, fun _ _ => rfl, [], by simp⟩
  have hcall : ∀ (tag : Nat → Storage F → Int → Int → Event F) (func : InitFunc F σ),
      ∃ t, callInit tag func i s = .ok t ∧ t.layer = s.layer ∧ HeapFrame s.heap t.heap ∧
        (∀ p : Nat, getInput s.layer i ≠ some p → t.heap[p]? = s.heap[p]?) ∧
        ∃ evs, t.log = s.log ++ evs := by
    intro tag func
    obtain ⟨p, sig, w, rest, fanIn, fanOut, hp, hs, hw, -, -, hcall⟩ :=
      callInit_spec tag func i s hr hf
    refine ⟨_, hcall, rfl, heapFrame_set hs (cellFrame_head sig w _ rest hw), ?_, _, rfl⟩
    intro q hq
    have hne : p ≠ q := fun h => hq (by rw [hp, h])
    simp [List.getElem?_set_ne hne]
  unfold initBody
  rw [List.getElem?_eq_getElem hi]
  cases s.layer.inputTypes[i] with
  | data => exact hself
  | weight =>
    cases s.layer.weightInitFunc with
    | none => exact hself
    | some func => exact hcall _ func
  | bias =>
    cases s.layer.biasInitFunc with
    | none => exact hself
    | some func => exact hcall _ func

/-- The loop of `initializeWeights` returns on a wired layer; it leaves the layer object
alone and rewrites nothing but first value samples of input signals. -/
theorem initLoop_frame (s : State F σ) (hw : InputsWired s) (hf : FanDefined s.layer) :
    ∃ t, forLoop initBody (List.range s.layer.inputChannels) s = .ok t ∧ t.layer = s.layer ∧
      HeapFrame s.heap t.heap ∧
      (∀ p : Nat, (∀ i, i < s.layer.inputChannels → getInput s.layer i ≠ some p) →
        t.heap[p]? = s.heap[p]?) := by
  apply forLoop_range initBody
    (fun _ t => t.layer = s.layer ∧ HeapFrame s.heap t.heap ∧
      (∀ p : Nat, (∀ i, i < s.layer.inputChannels → getInput s.layer i ≠ some p) →
        t.heap[p]? = s.heap[p]?))
  · exact ⟨rfl, heapFrame_refl _, fun _ _ => rfl⟩
  · intro j s1 hj ⟨hl, hh, hfr⟩
    have hr : inputReady s1 j = true :=
      inputReady_of_frame (by rw [hl]) hh (hw.2 j hj)
    obtain ⟨t, ht, htl, hth, htf, -⟩ :=
      initBody_frame j s1 (by rw [hl, hw.1]; exact hj) hr (by rw [hl]; exact hf)
    refine ⟨t, ht, htl.trans hl, heapFrame_trans hh hth, fun p hp => ?_⟩
    rw [htf p (by rw [hl]; exact hp j hj), hfr p hp]

/-- The method `initializeWeights` returns on a wired layer, sets `initialized` and nothing
else in the layer object, and rewrites nothing but first value samples of input signals. -/
theorem initializeWeights_frame (s : State F σ) (hw : InputsWired s)
    (hf : FanDefined s.layer) :
    ∃ t, initializeWeights s = .ok t ∧ t.layer = { s.layer with initialized := true } ∧
      HeapFrame s.heap t.heap ∧
      (∀ p : Nat, (∀ i, i < s.layer.inputChannels → getInput s.layer i ≠ some p) →
        t.heap[p]? = s.heap[p]?) := by
  unfold initializeWeights
  split
  · exact ⟨_, rfl, rfl, heapFrame_refl _, fun _ _ => rfl⟩
  · obtain ⟨t, ht, hl, hh, hfr⟩ := initLoop_frame s hw hf
    refine ⟨markInitialized t, by simp [ht], ?_, hh, hfr⟩
    simp [markInitialized, hl]

/-! ## The allocation loop of `setup` -/

theorem allocBody_step [Zero F] (self : Nat) (s : State F σ) (hs : OutputsSized s.layer)
    (hd : s.layer.getOutputDimensions.length = s.layer.outputChannels)
    (k : Nat) (t : State F σ) (hk : k < s.layer.outputChannels) (inv : AllocInv self s k t) :
    ∃ t2, allocBody self k t = .ok t2 ∧ AllocInv self s (k + 1) t2 := by
  obtain ⟨he, hlog, ⟨outs, hl⟩, hlen, hhl, hhp, hge, hsome, hnew, hdist⟩ := inv
  have houts : t.layer.outputs = outs := by rw [hl]
  rw [houts] at hlen hge hsome hnew hdist
  have hkl : k < s.layer.outputs.length := by rw [hs.1]; exact hk
  have hkeq : outs[k]? = s.layer.outputs[k]? := hge k (Nat.le_refl k)
  have hnew_lt : ∀ j : Nat, j < k → s.layer.outputs[j]? = some none →
      ∃ p, outs[j]? = some (some p) ∧ p < t.heap.length := by
    intro j hj hn
    obtain ⟨p, d, ty, h1, -, -, -, h5⟩ := hnew j hj hn
    exact ⟨p, h1, getElem?_lt_of_eq_some h5⟩
  cases hsk : s.layer.outputs[k] with
  | some p =>
    have hsk2 : s.layer.outputs[k]? = some (some p) := by
      rw [List.getElem?_eq_getElem hkl, hsk]
    refine ⟨t, ?_, he, hlog, ⟨outs, hl⟩, by rw [houts]; exact hlen, hhl, hhp, ?_, ?_, ?_, ?_⟩
    · unfold allocBody
      rw [houts, hkeq, hsk2]
    · intro j hj; rw [houts]; exact hge j (by omega)
    · rw [houts]; exact hsome
    · intro j hj hn
      rw [houts]
      have hjk : j < k := by
        rcases Nat.lt_succ_iff_lt_or_eq.mp hj with h | h
        · exact h
        · subst h; rw [hsk2] at hn; simp at hn
      exact hnew j hjk hn
    · intro i j hij hj hni hnj
      rw [houts]
      have hjk : j < k := by
        rcases Nat.lt_succ_iff_lt_or_eq.mp hj with h | h
        · exact h
        · subst h; rw [hsk2] at hnj; simp at hnj
      exact hdist i j hij hjk hni hnj
  | none =>
    have hsk2 : s.layer.outputs[k]? = some none := by
      rw [List.getElem?_eq_getElem hkl, hsk]
    have hkd : k < s.layer.getOutputDimensions.length := by rw [hd]; exact hk
    have hkt : k < s.layer.outputTypes.length := by rw [hs.2]; exact hk
    have hko : k < outs.length := by rw [hlen]; exact hkl
    refine ⟨{ t with
        layer := { t.layer with outputs := t.layer.outputs.set k (some t.heap.length) },
        heap := t.heap ++ [Signal.new self s.layer.getOutputDimensions[k]
          s.layer.outputTypes[k]] }, ?_, he, hlog, ?_, ?_, ?_, ?_, ?_, ?_, ?_, ?_⟩
    · unfold allocBody
      rw [houts, hkeq, hsk2]
      simp only [hl, List.getElem?_eq_getElem hkd, List.getElem?_eq_getElem hkt]
    · exact ⟨outs.set k (some t.heap.length), by simp only [houts]; rw [hl]⟩
    · simp only [houts, List.length_set]; exact hlen
    · simp only [List.length_append, List.length_singleton]; omega
    · intro p hp
      simp only
      rw [List.getElem?_append_left (by omega)]
      exact hhp p hp
    · intro j hj
      simp only [houts]
      rw [List.getElem?_set_ne (by omega)]
      exact hge j (by omega)
    · intro j p hjp
      simp only [houts]
      have hjk : k ≠ j := by
        intro h; subst h; rw [hsk2] at hjp; simp at hjp
      rw [List.getElem?_set_ne hjk]
      exact hsome j p hjp
    · intro j hj hn
      simp only [houts]
      rcases Nat.lt_succ_iff_lt_or_eq.mp hj with h | h
      · obtain ⟨p, d, ty, h1, h2, h3, h4, h5⟩ := hnew j h hn
        refine ⟨p, d, ty, ?_, h2, h3, h4, ?_⟩
        · rw [List.getElem?_set_ne (by omega)]; exact h1
        · rw [List.getElem?_append_left (getElem?_lt_of_eq_some h5)]; exact h5
      · subst h
        refine ⟨t.heap.length, s.layer.getOutputDimensions[j], s.layer.outputTypes[j], ?_, hhl,
          List.getElem?_eq_getElem hkd, List.getElem?_eq_getElem hkt, ?_⟩
        · simp [hko]
        · simp
    · intro i j hij hj hni hnj
      simp only [houts]
      rcases Nat.lt_succ_iff_lt_or_eq.mp hj with h | h
      · rw [List.getElem?_set_ne (by omega), List.getElem?_set_ne (by omega)]
        exact hdist i j hij h hni hnj
      · subst h
        obtain ⟨p, h1, h2⟩ := hnew_lt i hij hni
        rw [List.getElem?_set_ne (by omega), h1]
        simp [hko]
        omega

/-- The allocation loop returns; it fills exactly the null output slots, each with a signal
of its own appended to the heap, and touches nothing else. -/
theorem allocLoop_spec [Zero F] (self : Nat) (s : State F σ) (hs : OutputsSized s.layer)
    (hd : s.layer.getOutputDimensions.length = s.layer.outputChannels) :
    ∃ t, forLoop (allocBody self) (List.range s.layer.outputChannels) s = .ok t ∧
      AllocInv self s s.layer.outputChannels t := by
  apply forLoop_range (allocBody self) (AllocInv self s)
  · refine ⟨rfl, rfl, ⟨s.layer.outputs, rfl⟩, rfl, Nat.le_refl _, fun _ _ => rfl,
      fun _ _ => rfl, fun _ _ h => h, ?_, ?_⟩
    · intro j hj; exact absurd hj (Nat.not_lt_zero j)
    · intro i j _ hj; exact absurd hj (Nat.not_lt_zero j)
  · intro j s1 hj inv
    exact allocBody_step self s hs hd j s1 hj inv

/-! ## Unfolding `setup` -/

theorem setup_of_mismatch [Zero F] (self : Nat) (reset_weight : Bool) (s : State F σ)
    (h : connectionMismatch s.layer = true) :
    setup self reset_weight s = .threw .shapeMismatch s := by
  unfold setup
  rw [if_pos h]

theorem setup_of_match [Zero F] (self : Nat) (reset_weight : Bool) (s : State F σ)
    (h : connectionMismatch s.layer = false) :
    setup self reset_weight s =
      (forLoop (allocBody self) (List.range s.layer.outputChannels) s).andThen
        (fun s1 =>
          if reset_weight || !s1.layer.initialized then initializeWeights s1 else .ok s1) := by
  unfold setup
  rw [if_neg (by simp [h])]

theorem connectionMismatch_iff (L : NeuralLayer F σ) :
    connectionMismatch L = true ↔
      (L.getInputDimensions.length ≠ L.inputChannels ∨
        L.getOutputDimensions.length ≠ L.outputChannels) := by
  simp [connectionMismatch]

theorem connectionMismatch_false_iff (L : NeuralLayer F σ) :
    connectionMismatch L = false ↔
      ¬ (L.getInputDimensions.length ≠ L.inputChannels ∨
        L.getOutputDimensions.length ≠ L.outputChannels) := by
  rw [← connectionMismatch_iff]; simp

theorem setup_no_throw_of_match [Zero F] (self : Nat) (reset_weight : Bool) (s : State F σ)
    (h : connectionMismatch s.layer = false) (e : LayerError) (t : State F σ) :
    setup self reset_weight s ≠ .threw e t := by
  rw [setup_of_match self reset_weight s h]
  cases h1 : forLoop (allocBody self) (List.range s.layer.outputChannels) s with
  | ok s1 =>
    simp only [andThen_ok]
    by_cases hc : (reset_weight || !s1.layer.initialized) = true
    · rw [if_pos hc]; exact initializeWeights_no_throw _ _ _
    · rw [if_neg hc]; simp
  | threw e1 t1 => exact absurd h1 (forLoop_no_throw _ (allocBody_no_throw self) _ _ _ _)
  | fault => simp

/-- After the allocation loop the inputs are as wired as before it. -/
theorem wired_after_alloc [Zero F] {self : Nat} {s t : State F σ} {k : Nat}
    (inv : AllocInv self s k t) (hw : InputsWired s) (hf : FanDefined s.layer) :
    InputsWired t ∧ FanDefined t.layer := by
  obtain ⟨-, -, ⟨outs, hl⟩, -, -, hhp, -⟩ := inv
  constructor
  · refine ⟨by rw [hl]; exact hw.1, fun i hi => ?_⟩
    have hi2 : i < s.layer.inputChannels := by rw [hl] at hi; exact hi
    obtain ⟨p, sig, w, rest, g, grest, hp, hsg, hwt, hc⟩ := inputReady_unpack (hw.2 i hi2)
    have hp1 : getInput t.layer i = some p := by
      unfold getInput at hp ⊢; rw [hl]; exact hp
    unfold inputReady
    simp only [hp1, hhp p (getElem?_lt_of_eq_some hsg), hsg, hwt, hc]
    rfl
  · unfold FanDefined getFanInSize getFanOutSize at hf ⊢
    rw [hl]; exact hf

/-- On a matching, wired layer `setup` returns; its result is the result of the allocation
loop, up to the initialisation that follows, which changes neither the output slots nor
any signal the loop created. -/
theorem setup_spec [Zero F] (self : Nat) (reset_weight : Bool) (s : State F σ)
    (hm : connectionMismatch s.layer = false) (hs : OutputsSized s.layer)
    (hw : InputsWired s) (hf : FanDefined s.layer) :
    ∃ t1 t, AllocInv self s s.layer.outputChannels t1 ∧ setup self reset_weight s = .ok t ∧
      t.layer.outputs = t1.layer.outputs ∧
      (∀ p : Nat, s.heap.length ≤ p → t.heap[p]? = t1.heap[p]?) := by
  have hd : s.layer.getOutputDimensions.length = s.layer.outputChannels := by
    have := (connectionMismatch_false_iff _).mp hm
    by_contra h; exact this (Or.inr h)
  obtain ⟨t1, ht1, inv⟩ := allocLoop_spec self s hs hd
  obtain ⟨hw1, hf1⟩ := wired_after_alloc inv hw hf
  rw [setup_of_match self reset_weight s hm, ht1]
  simp only [andThen_ok]
  by_cases hc : (reset_weight || !t1.layer.initialized) = true
  · rw [if_pos hc]
    obtain ⟨t2, ht2, hl2, -, hfr⟩ := initializeWeights_frame t1 hw1 hf1
    refine ⟨t1, t2, inv, ht2, by rw [hl2], fun p hp => hfr p ?_⟩
    obtain ⟨-, -, ⟨outs, hl⟩, -, -, -, -⟩ := inv
    intro i hi hgi
    have hi2 : i < s.layer.inputChannels := by rw [hl] at hi; exact hi
    obtain ⟨q, sig, w, rest, g, grest, hq, hsg, -, -⟩ := inputReady_unpack (hw.2 i hi2)
    have hq1 : getInput t1.layer i = some q := by
      unfold getInput at hq ⊢; rw [hl]; exact hq
    rw [hq1] at hgi
    have := getElem?_lt_of_eq_some hsg
    have hqp : q = p := Option.some.inj hgi
    omega
  · rw [if_neg hc]
    exact ⟨t1, t1, inv, rfl, rfl, fun _ _ => rfl⟩

/-! ## The initialisation loop on a layer without shared inputs -/

theorem getInput_eq_some_iff (L : NeuralLayer F σ) (i p : Nat) :
    getInput L i = some p ↔ L.inputs[i]? = some (some p) := by
  unfold getInput
  cases L.inputs[i]? with
  | none => simp
  | some o => cases o <;> simp

/-- Two input slots of a layer without shared inputs that hold the same signal are the
same slot. -/
theorem getInput_inj {L : NeuralLayer F σ} (hn : NoSharedInput L) {i j p : Nat}
    (hi : getInput L i = some p) (hj : getInput L j = some p) : i = j := by
  rw [getInput_eq_some_iff] at hi hj
  exact List.getElem?_inj (getElem?_lt_of_eq_some hi) hn (hi.trans hj.symm)

theorem initBody_of_none (i : Nat) (s : State F σ) (ty : ChannelType)
    (hty : s.layer.inputTypes[i]? = some ty) (hcb : initCallback s.layer ty = none) :
    initBody i s = .ok s := by
  unfold initBody
  rw [hty]
  cases ty <;> simp only [initCallback] at hcb <;> simp only [hcb]

theorem initBody_of_some (i : Nat) (s : State F σ) (ty : ChannelType) (func : InitFunc F σ)
    (hty : s.layer.inputTypes[i]? = some ty) (hcb : initCallback s.layer ty = some func) :
    initBody i s = callInit (initTag ty) func i s := by
  unfold initBody
  rw [hty]
  cases ty <;> simp only [initCallback] at hcb <;> simp only [hcb, initTag]
  exact absurd hcb (by simp)

theorem range_succ_filterMap {β : Type} (f : Nat → Option β) (k : Nat) :
    (List.range (k + 1)).filterMap f = (List.range k).filterMap f ++ (f k).toList := by
  rw [List.range_succ, List.filterMap_append]
  cases h : f k <;> simp [List.filterMap_cons, h]

theorem initBody_step (s : State F σ) (hw : InputsWired s) (hf : FanDefined s.layer)
    (hn : NoSharedInput s.layer) (k : Nat) (t : State F σ) (hk : k < s.layer.inputChannels)
    (inv : InitInv s k t) :
    ∃ t2, initBody k t = .ok t2 ∧ InitInv s (k + 1) t2 := by
  obtain ⟨hl, hlog, hlater, hdone⟩ := inv
  obtain ⟨p, sig, w, rest, g, grest, hp, hsig, hwt, hc⟩ := inputReady_unpack (hw.2 k hk)
  have hkt : k < s.layer.inputTypes.length := by rw [hw.1]; exact hk
  have htp : t.heap[p]? = some sig := by rw [hlater k p (Nat.le_refl k) hp]; exact hsig
  obtain ⟨hfi, hfo⟩ := hf
  obtain ⟨fanIn, hfanIn⟩ := Option.isSome_iff_exists.mp hfi
  obtain ⟨fanOut, hfanOut⟩ := Option.isSome_iff_exists.mp hfo
  have hgw : getInputWeights s k = some w := by
    unfold getInputWeights; simp only [hp, hsig, hwt]; rfl
  have hexp : expectedInitEvent s k =
      if (initCallback s.layer s.layer.inputTypes[k]).isSome
      then some (initTag s.layer.inputTypes[k] k w fanIn fanOut) else none := by
    unfold expectedInitEvent
    simp only [List.getElem?_eq_getElem hkt, hgw, hfanIn, hfanOut]
  have htyk : t.layer.inputTypes[k]? = some s.layer.inputTypes[k] := by
    rw [hl]; exact List.getElem?_eq_getElem hkt
  cases hcb : initCallback s.layer s.layer.inputTypes[k] with
  | none =>
    refine ⟨t, initBody_of_none k t _ htyk (by rw [hl]; exact hcb), hl, ?_,
      fun j q hj hq => hlater j q (by omega) hq, ?_⟩
    · rw [range_succ_filterMap, hexp, hcb]; simp [hlog]
    · intro j q ty a hj hq hty ha
      rcases Nat.lt_succ_iff_lt_or_eq.mp hj with h | h
      · exact hdone j q ty a h hq hty ha
      · subst h
        have hqp : q = p := Option.some.inj (hq.symm.trans hp)
        subst hqp
        have hty2 : ty = s.layer.inputTypes[j] := by
          rw [List.getElem?_eq_getElem hkt] at hty; exact (Option.some.inj hty).symm
        have ha2 : a = sig := Option.some.inj (ha.symm.trans hsig)
        subst hty2; subst ha2
        refine ⟨a, htp, ?_⟩
        unfold InitializedCell; rw [hcb]
  | some func =>
    have hcall : initBody k t = .ok { t with
        heap := t.heap.set p { sig with weight := (func t.env w fanIn fanOut).2 :: rest },
        env := (func t.env w fanIn fanOut).1,
        log := t.log ++ [initTag s.layer.inputTypes[k] k w fanIn fanOut] } := by
      rw [initBody_of_some k t _ func htyk (by rw [hl]; exact hcb)]
      unfold callInit
      simp only [hl, hp, htp, hwt, hfanIn, hfanOut]
    refine ⟨_, hcall, hl, ?_, ?_, ?_⟩
    · rw [range_succ_filterMap, hexp, hcb]; simp [hlog]
    · intro j q hj hq
      have hne : p ≠ q := fun h => by
        subst h; have := getInput_inj hn hp hq; omega
      show (t.heap.set p _)[q]? = _
      rw [List.getElem?_set_ne hne]
      exact hlater j q (by omega) hq
    · intro j q ty a hj hq hty ha
      rcases Nat.lt_succ_iff_lt_or_eq.mp hj with h | h
      · have hne : p ≠ q := fun h2 => by
          subst h2; have := getInput_inj hn hp hq; omega
        show ∃ b, (t.heap.set p _)[q]? = some b ∧ _
        rw [List.getElem?_set_ne hne]
        exact hdone j q ty a h hq hty ha
      · subst h
        have hqp : q = p := Option.some.inj (hq.symm.trans hp)
        subst hqp
        have hty2 : ty = s.layer.inputTypes[j] := by
          rw [List.getElem?_eq_getElem hkt] at hty; exact (Option.some.inj hty).symm
        have ha2 : a = sig := Option.some.inj (ha.symm.trans hsig)
        subst hty2; subst ha2
        refine ⟨{ a with weight := (func t.env w fanIn fanOut).2 :: rest },
          List.getElem?_set_self (getElem?_lt_of_eq_some htp), ?_⟩
        unfold InitializedCell; rw [hcb]
        exact ⟨t.env, w, rest, fanIn, fanOut, hwt, hfanIn, hfanOut, rfl⟩

/-- On a trainable, wired layer without shared inputs `initializeWeights` returns; it sets
`initialized`, logs exactly the expected invocations in channel order, and leaves every
input signal as the initialisation of its channel makes it. -/
theorem initializeWeights_spec (s : State F σ) (ht : s.layer.trainable = true)
    (hw : InputsWired s) (hf : FanDefined s.layer) (hn : NoSharedInput s.layer) :
    ∃ t, initializeWeights s = .ok t ∧ t.layer = { s.layer with initialized := true } ∧
      t.log = s.log ++ (List.range s.layer.inputChannels).filterMap (expectedInitEvent s) ∧
      (∀ (j p : Nat) (ty : ChannelType) (a : Signal F), j < s.layer.inputChannels →
        getInput s.layer j = some p → s.layer.inputTypes[j]? = some ty →
        s.heap[p]? = some a → ∃ b, t.heap[p]? = some b ∧ InitializedCell s.layer ty a b) := by
  obtain ⟨t, hloop, hl, hlog, -, hdone⟩ := forLoop_range initBody (InitInv s)
    s.layer.inputChannels s
    ⟨rfl, by simp, fun _ _ _ _ => rfl, fun j _ _ _ hj => absurd hj (Nat.not_lt_zero j)⟩
    (fun j s1 hj inv => initBody_step s hw hf hn j s1 hj inv)
  refine ⟨markInitialized t, ?_, ?_, hlog, hdone⟩
  · unfold initializeWeights
    rw [if_neg (by simp [ht]), hloop]
    rfl
  · simp [markInitialized, hl]

/-! ## `setup` followed by the initialisation -/

theorem expectedInitEvent_after_alloc [Zero F] {self : Nat} {s t : State F σ} {k : Nat}
    (inv : AllocInv self s k t) (hw : InputsWired s) (i : Nat)
    (hi : i < s.layer.inputChannels) : expectedInitEvent t i = expectedInitEvent s i := by
  obtain ⟨-, -, ⟨outs, hl⟩, -, -, hhp, -⟩ := inv
  obtain ⟨p, sig, w, rest, g, grest, hp, hsg, hwt, hc⟩ := inputReady_unpack (hw.2 i hi)
  have hp1 : getInput t.layer i = some p := by
    unfold getInput at hp ⊢; rw [hl]; exact hp
  have hgw : getInputWeights t i = getInputWeights s i := by
    unfold getInputWeights
    simp only [hp1, hp, hhp p (getElem?_lt_of_eq_some hsg)]
  unfold expectedInitEvent
  rw [hgw]
  unfold getFanInSize getFanOutSize initCallback
  rw [hl]

/-- When `reset_weight` is set or the layer is not initialized, `setup` on a matching,
wired layer is the allocation loop followed by `initializeWeights`. -/
theorem setup_runs_init [Zero F] (self : Nat) (reset_weight : Bool) (s : State F σ)
    (hm : connectionMismatch s.layer = false) (hs : OutputsSized s.layer)
    (hrun : reset_weight = true ∨ s.layer.initialized = false) :
    ∃ t1, AllocInv self s s.layer.outputChannels t1 ∧
      setup self reset_weight s = initializeWeights t1 := by
  have hd : s.layer.getOutputDimensions.length = s.layer.outputChannels := by
    have := (connectionMismatch_false_iff _).mp hm
    by_contra h; exact this (Or.inr h)
  obtain ⟨t1, ht1, inv⟩ := allocLoop_spec self s hs hd
  refine ⟨t1, inv, ?_⟩
  rw [setup_of_match self reset_weight s hm, ht1]
  simp only [andThen_ok]
  obtain ⟨-, -, ⟨outs, hl⟩, -⟩ := inv
  have hinit : t1.layer.initialized = s.layer.initialized := by rw [hl]
  rw [if_pos]
  rcases hrun with h | h
  · simp [h]
  · simp [hinit, h]

/-! ## The body of the update loop -/

theorem updateBody_skip [Add F] [Mul F] (optimizer : Optimizer F σ) (rcp : F) (k : Nat)
    (t : State F σ) (hk : k < t.layer.inputTypes.length) (h : eligible t.layer k = false) :
    updateBody optimizer rcp k t = .ok t := by
  unfold updateBody
  unfold eligible at h
  rw [List.getElem?_eq_getElem hk] at h ⊢
  cases htr : t.layer.trainable with
  | false => simp
  | true =>
    rw [htr] at h
    simp only [Bool.true_and] at h
    simp [h]

theorem updateBody_eligible [Add F] [Mul F] (optimizer : Optimizer F σ) (rcp : F) (k : Nat)
    (t : State F σ) (p : Nat) (sig : Signal F) (target : Storage F) (rest : Tensor F)
    (merged : Storage F) (h : eligible t.layer k = true) (hp : getInput t.layer k = some p)
    (hs : t.heap[p]? = some sig) (hw : sig.weight = target :: rest)
    (hm : sig.mergeGradients t.layer.weightDifference = some merged) :
    updateBody optimizer rcp k t = .ok
      { layer := { t.layer with weightDifference :=
          (optimizer t.env (merged.map (fun g => g * rcp)) target
            (decide (512 ≤ target.length))).2.1 },
        heap := t.heap.set p { sig with weight :=
          (optimizer t.env (merged.map (fun g => g * rcp)) target
            (decide (512 ≤ target.length))).2.2 :: rest },
        env := (optimizer t.env (merged.map (fun g => g * rcp)) target
            (decide (512 ≤ target.length))).1,
        log := t.log ++ [Event.mergeGradients k,
          Event.optimizer k (merged.map (fun g => g * rcp)) target
            (decide (512 ≤ target.length))] } := by
  unfold eligible at h
  simp only [Bool.and_eq_true] at h
  obtain ⟨htr, hty⟩ := h
  unfold updateBody
  rw [if_pos htr]
  cases hx : t.layer.inputTypes[k]? with
  | none => rw [hx] at hty; simp at hty
  | some ty =>
    rw [hx] at hty
    have hty2 : is_trainable_weight ty = true := hty
    simp only [hp, hs, hw, hm]
    rw [if_pos hty2]

theorem mergeGradients_dst [Add F] (sig : Signal F) (d1 d2 : Storage F) :
    sig.mergeGradients d1 = sig.mergeGradients d2 := rfl

theorem mergeGradients_of_change [Add F] (a b : Signal F) (d : Storage F)
    (h : b.change = a.change) : b.mergeGradients d = a.mergeGradients d := by
  unfold Signal.mergeGradients; rw [h]

theorem mergeGradients_isSome [Add F] (sig : Signal F) (d g : Storage F) (grest : Tensor F)
    (h : sig.change = g :: grest) : ∃ merged, sig.mergeGradients d = some merged := by
  unfold Signal.mergeGradients; rw [h]; exact ⟨_, rfl⟩

theorem eligible_of_layer {L1 L2 : NeuralLayer F σ} (d : Storage F)
    (h : L2 = { L1 with weightDifference := d }) (i : Nat) : eligible L2 i = eligible L1 i := by
  unfold eligible; rw [h]

theorem getInput_of_layer {L1 L2 : NeuralLayer F σ} (d : Storage F)
    (h : L2 = { L1 with weightDifference := d }) (i : Nat) : getInput L2 i = getInput L1 i := by
  unfold getInput; rw [h]

/-! ## The update loop -/

theorem range_succ_flatMap {β : Type} (f : Nat → List β) (k : Nat) :
    (List.range (k + 1)).flatMap f = (List.range k).flatMap f ++ f k := by
  rw [List.range_succ, List.flatMap_append]
  simp

theorem range_succ_filter (f : Nat → Bool) (k : Nat) :
    (List.range (k + 1)).filter f = (List.range k).filter f ++ (if f k then [k] else []) := by
  rw [List.range_succ, List.filter_append]
  cases h : f k <;> simp [List.filter_cons, h]

theorem updateEventOk_mono [One F] [Add F] [Mul F] [Div F] [IntCast F] (s : State F σ)
    (batch_size : Int) (k : Nat) (e : Event F) (h : UpdateEventOk s batch_size k e) :
    UpdateEventOk s batch_size (k + 1) e := by
  cases e with
  | mergeGradients i => exact ⟨Nat.lt_succ_of_lt h.1, h.2⟩
  | optimizer i dW W par => exact ⟨Nat.lt_succ_of_lt h.1, h.2⟩
  | weightInit i d a b => exact h
  | biasInit i d a b => exact h
  | clearGradients i => exact h
  | post => exact h
  | setSampleCount n => exact h
  | clearOutputGradients i => exact h
  | forwardPropagation x y => exact h

/-- What the update loop does for an eligible channel `k` whose signal is `b` in the
current state `t`, with the layer of `t` being the layer of `s` up to `weightDifference`. -/
theorem updateBody_run [One F] [Add F] [Mul F] [Div F] [IntCast F]
    (optimizer : Optimizer F σ) (batch_size : Int) (s t : State F σ) (k p : Nat)
    (a b : Signal F) (d : Storage F) (hl : t.layer = { s.layer with weightDifference := d })
    (hel : eligible s.layer k = true) (hp : getInput s.layer k = some p)
    (ha : s.heap[p]? = some a) (hb : t.heap[p]? = some b) (hab : CellFrame a b)
    (hanz : a.weight ≠ []) (hcnz : a.change ≠ []) :
    ∃ dW target rest r, expectedGradient s batch_size k = some dW ∧
      b.weight = target :: rest ∧
      r = optimizer t.env dW target (decide (512 ≤ target.length)) ∧
      updateBody optimizer (rcpBatchSize batch_size) k t = .ok
        { layer := { t.layer with weightDifference := r.2.1 },
          heap := t.heap.set p { b with weight := r.2.2 :: rest },
          env := r.1,
          log := t.log ++ [Event.mergeGradients k,
            Event.optimizer k dW target (decide (512 ≤ target.length))] } := by
  have hbw : b.weight ≠ [] := fun h => hanz (hab.2.2.2.2.2.mp h)
  obtain ⟨target, rest, htr⟩ := List.exists_cons_of_ne_nil hbw
  obtain ⟨g, grest, hg⟩ := List.exists_cons_of_ne_nil hcnz
  obtain ⟨merged, hmerged⟩ := mergeGradients_isSome a [] g grest hg
  have hmb : b.mergeGradients t.layer.weightDifference = some merged := by
    rw [mergeGradients_of_change a b _ hab.2.2.2.1, mergeGradients_dst a _ [], hmerged]
  refine ⟨merged.map (fun x => x * rcpBatchSize batch_size), target, rest, _, ?_, htr, rfl, ?_⟩
  · unfold expectedGradient
    simp only [hp, ha, hmerged]
    rfl
  · exact updateBody_eligible optimizer (rcpBatchSize batch_size) k t p b target rest merged
      (by rw [eligible_of_layer d hl]; exact hel) (by rw [getInput_of_layer d hl]; exact hp)
      hb htr hmb

theorem inputReady_nonempty {s : State F σ} {i p : Nat} {a : Signal F}
    (h : inputReady s i = true) (hp : getInput s.layer i = some p) (ha : s.heap[p]? = some a) :
    a.weight ≠ [] ∧ a.change ≠ [] := by
  obtain ⟨q, sig, w, rest, g, grest, hq, hsig, hw, hc⟩ := inputReady_unpack h
  have hqp : q = p := Option.some.inj (hq.symm.trans hp)
  subst hqp
  have : sig = a := Option.some.inj (hsig.symm.trans ha)
  subst this
  rw [hw, hc]; simp

theorem updateBody_step_weak [One F] [Add F] [Mul F] [Div F] [IntCast F]
    (optimizer : Optimizer F σ) (batch_size : Int) (s : State F σ) (hw : InputsWired s)
    (k : Nat) (t : State F σ) (hk : k < s.layer.inputChannels)
    (inv : UpdateInvWeak s batch_size k t) :
    ∃ t2, updateBody optimizer (rcpBatchSize batch_size) k t = .ok t2 ∧
      UpdateInvWeak s batch_size (k + 1) t2 := by
  obtain ⟨⟨d, hl⟩, hh, hfix, evs, hlog, hseq, hev⟩ := inv
  have hkt : k < t.layer.inputTypes.length := by
    rw [hl]; show k < s.layer.inputTypes.length; rw [hw.1]; exact hk
  cases hel : eligible s.layer k with
  | false =>
    refine ⟨t, updateBody_skip optimizer _ k t hkt (by rw [eligible_of_layer d hl]; exact hel),
      ⟨d, hl⟩, hh, hfix, evs, hlog, ?_,
      fun e he => updateEventOk_mono s batch_size k e (hev e he)⟩
    rw [range_succ_filter, hseq, hel]
    simp
  | true =>
    obtain ⟨p, a, w, rest0, g, grest, hp, ha, hwt, hc⟩ := inputReady_unpack (hw.2 k hk)
    obtain ⟨b, hb, hab⟩ := hh.2 p a ha
    obtain ⟨dW, target, rest, r, hgrad, hbw, -, hrun⟩ :=
      updateBody_run optimizer batch_size s t k p a b d hl hel hp ha hb hab
        (by rw [hwt]; simp) (by rw [hc]; simp)
    refine ⟨_, hrun, ⟨_, by rw [hl]⟩, ?_, ?_, ?_⟩
    · exact heapFrame_trans hh (heapFrame_set hb (cellFrame_head b target _ rest hbw))
    · intro hnt
      unfold eligible at hel
      rw [hnt] at hel
      simp at hel
    · refine ⟨evs ++ [Event.mergeGradients k,
        Event.optimizer k dW target (decide (512 ≤ target.length))], ?_, ?_, ?_⟩
      · show t.log ++ _ = _
        rw [hlog, List.append_assoc]
      · rw [range_succ_filter, List.filterMap_append, hseq, hel]
        simp [Event.optimizerChannel]
      · intro e he
        rcases List.mem_append.mp he with h | h
        · exact updateEventOk_mono s batch_size k e (hev e h)
        · simp only [List.mem_cons, List.mem_singleton, List.not_mem_nil, or_false] at h
          rcases h with h | h
          · subst h; exact ⟨Nat.lt_succ_self k, hel⟩
          · subst h; exact ⟨Nat.lt_succ_self k, hel, hgrad, rfl⟩

theorem updateBody_step [One F] [Add F] [Mul F] [Div F] [IntCast F]
    (optimizer : Optimizer F σ) (batch_size : Int) (s : State F σ) (hw : InputsWired s)
    (hn : NoSharedInput s.layer) (k : Nat) (t : State F σ) (hk : k < s.layer.inputChannels)
    (inv : UpdateInv s batch_size k t) :
    ∃ t2, updateBody optimizer (rcpBatchSize batch_size) k t = .ok t2 ∧
      UpdateInv s batch_size (k + 1) t2 := by
  obtain ⟨⟨d, hl⟩, hh, hlog, hlater⟩ := inv
  have hkt : k < t.layer.inputTypes.length := by
    rw [hl]; show k < s.layer.inputTypes.length; rw [hw.1]; exact hk
  cases hel : eligible s.layer k with
  | false =>
    refine ⟨t, updateBody_skip optimizer _ k t hkt (by rw [eligible_of_layer d hl]; exact hel),
      ⟨d, hl⟩, hh, ?_, fun j q hj hq => hlater j q (by omega) hq⟩
    rw [range_succ_flatMap, hlog]
    unfold expectedUpdateEvents
    simp [hel]
  | true =>
    obtain ⟨p, a, w, rest0, g, grest, hp, ha, hwt, hc⟩ := inputReady_unpack (hw.2 k hk)
    have hb : t.heap[p]? = some a := by rw [hlater k p (Nat.le_refl k) hp]; exact ha
    obtain ⟨dW, target, rest, r, hgrad, hbw, -, hrun⟩ :=
      updateBody_run optimizer batch_size s t k p a a d hl hel hp ha hb (cellFrame_refl a)
        (by rw [hwt]; simp) (by rw [hc]; simp)
    have hgw : getInputWeights s k = some target := by
      unfold getInputWeights; simp only [hp, ha, hbw]; rfl
    refine ⟨_, hrun, ⟨_, by rw [hl]⟩, ?_, ?_, ?_⟩
    · exact heapFrame_trans hh (heapFrame_set hb (cellFrame_head a target _ rest hbw))
    · show t.log ++ _ = _
      rw [range_succ_flatMap, hlog, List.append_assoc]
      congr 1
      unfold expectedUpdateEvents
      simp only [hel, hgrad, hgw, if_true]
    · intro j q hj hq
      have hne : p ≠ q := fun h => by
        subst h; have := getInput_inj hn hp hq; omega
      show (t.heap.set p _)[q]? = _
      rw [List.getElem?_set_ne hne]
      exact hlater j q (by omega) hq

/-! ## The loop of `clearGradients` -/

theorem clearGradients_idem [Zero F] (a : Signal F) :
    a.clearGradients.clearGradients = a.clearGradients := by
  unfold Signal.clearGradients
  simp [List.map_map, Function.comp_def]

theorem clearBody_step [Zero F] (s : State F σ)
    (hw : ∀ i : Nat, i < s.layer.inputChannels → inputReady s i = true) (k : Nat)
    (t : State F σ) (hk : k < s.layer.inputChannels) (inv : ClearInv s k t) :
    ∃ t2, clearBody k t = .ok t2 ∧ ClearInv s (k + 1) t2 := by
  obtain ⟨hl, henv, hlog, hcell, hother, hdone⟩ := inv
  obtain ⟨p, a, w, rest, g, grest, hp, ha, -, -⟩ := inputReady_unpack (hw k hk)
  have hc : ∃ c, t.heap[p]? = some c ∧ c.clearGradients = a.clearGradients := by
    rcases hcell p a ha with h | h
    · exact ⟨a, h, rfl⟩
    · exact ⟨a.clearGradients, h, clearGradients_idem a⟩
  obtain ⟨c, hc1, hc2⟩ := hc
  have hplt : p < t.heap.length := getElem?_lt_of_eq_some hc1
  have hrun : clearBody k t = .ok { t with
      heap := t.heap.set p c.clearGradients,
      log := t.log ++ [Event.clearGradients k] } := by
    unfold clearBody
    simp only [hl, hp, hc1]
  refine ⟨_, hrun, hl, henv, ?_, ?_, ?_, ?_⟩
  · show t.log ++ _ = _
    rw [hlog, List.range_succ, List.map_append, List.append_assoc]
    rfl
  · intro q x hx
    show (t.heap.set p _)[q]? = some x ∨ (t.heap.set p _)[q]? = some x.clearGradients
    by_cases hq : p = q
    · subst hq
      have hxa : x = a := Option.some.inj (hx.symm.trans ha)
      subst hxa
      right
      rw [List.getElem?_set_self hplt, hc2]
    · rw [List.getElem?_set_ne hq]
      exact hcell q x hx
  · intro q hq
    have hne : p ≠ q := fun h => hq k (Nat.lt_succ_self k) (by rw [hp, h])
    show (t.heap.set p _)[q]? = _
    rw [List.getElem?_set_ne hne]
    exact hother q (fun j hj => hq j (Nat.lt_succ_of_lt hj))
  · intro j q x hj hjq hx
    show (t.heap.set p _)[q]? = _
    by_cases hq : p = q
    · subst hq
      have hxa : x = a := Option.some.inj (hx.symm.trans ha)
      subst hxa
      rw [List.getElem?_set_self hplt, hc2]
    · rw [List.getElem?_set_ne hq]
      rcases Nat.lt_succ_iff_lt_or_eq.mp hj with h | h
      · exact hdone j q x h hjq hx
      · subst h
        exact absurd (Option.some.inj (hp.symm.trans hjq)) hq

/-- The method `clearGradients` returns on a wired layer; it clears the gradient
accumulator of every input signal and touches nothing else. -/
theorem clearGradients_spec [Zero F] (s : State F σ)
    (hw : ∀ i : Nat, i < s.layer.inputChannels → inputReady s i = true) :
    ∃ t, clearGradients s = .ok t ∧ ClearInv s s.layer.inputChannels t := by
  unfold clearGradients
  apply forLoop_range clearBody (ClearInv s)
  · exact ⟨rfl, rfl, by simp, fun _ _ h => Or.inl h, fun _ _ => rfl,
      fun j _ _ hj => absurd hj (Nat.not_lt_zero j)⟩
  · intro j s1 hj inv
    exact clearBody_step s hw j s1 hj inv

/-! ## `updateWeights` as a whole -/

/-- Once the update loop has returned with state `t1`, `updateWeights` returns: it clears
the gradients in `t1` and calls `post`. -/
theorem updateWeights_after_loop [Zero F] [One F] [Add F] [Mul F] [Div F] [IntCast F]
    (optimizer : Optimizer F σ) (batch_size : Int) (s t1 : State F σ) (hw : InputsWired s)
    (hloop : forLoop (updateBody optimizer (rcpBatchSize batch_size))
      (List.range s.layer.inputChannels) s = .ok t1)
    (hl : ∃ d, t1.layer = { s.layer with weightDifference := d })
    (hh : HeapFrame s.heap t1.heap) :
    ∃ t2, ClearInv t1 s.layer.inputChannels t2 ∧
      updateWeights optimizer batch_size s =
        .ok { t2 with env := t2.layer.post t2.env, log := t2.log ++ [Event.post] } := by
  obtain ⟨d, hl⟩ := hl
  have hch : t1.layer.inputChannels = s.layer.inputChannels := by rw [hl]
  have hw1 : ∀ i : Nat, i < t1.layer.inputChannels → inputReady t1 i = true := by
    intro i hi
    exact inputReady_of_frame (by rw [hl]) hh (hw.2 i (by rw [← hch]; exact hi))
  obtain ⟨t2, hclear, inv⟩ := clearGradients_spec t1 hw1
  rw [hch] at inv
  refine ⟨t2, inv, ?_⟩
  unfold updateWeights
  rw [hloop]
  simp only [andThen_ok, hclear]
  rfl

/-- On a wired layer `updateWeights` returns. The update loop reaches a state `t1` that
differs from the initial one in `weightDifference`, first value samples and the log, whose
new entries `evs` are admissible and, without shared inputs, exactly the expected calls;
then the gradients are cleared, giving `t2`, and `post` is called. -/
theorem updateWeights_master [Zero F] [One F] [Add F] [Mul F] [Div F] [IntCast F]
    (optimizer : Optimizer F σ) (batch_size : Int) (s : State F σ) (hw : InputsWired s) :
    ∃ t1 t2 evs, (∃ d, t1.layer = { s.layer with weightDifference := d }) ∧
      HeapFrame s.heap t1.heap ∧ (s.layer.trainable = false → t1 = s) ∧
      t1.log = s.log ++ evs ∧
      evs.filterMap Event.optimizerChannel =
        (List.range s.layer.inputChannels).filter (eligible s.layer) ∧
      (∀ e ∈ evs, UpdateEventOk s batch_size s.layer.inputChannels e) ∧
      (NoSharedInput s.layer →
        evs = (List.range s.layer.inputChannels).flatMap
          (expectedUpdateEvents s batch_size)) ∧
      ClearInv t1 s.layer.inputChannels t2 ∧
      updateWeights optimizer batch_size s =
        .ok { t2 with env := t2.layer.post t2.env, log := t2.log ++ [Event.post] } := by
  obtain ⟨t1, hloop, hlay, hframe, hfix, evs, hlog, hseq, hev⟩ :=
    forLoop_range (updateBody optimizer (rcpBatchSize batch_size))
      (UpdateInvWeak s batch_size) s.layer.inputChannels s
      ⟨⟨s.layer.weightDifference, rfl⟩, heapFrame_refl _, fun _ => rfl, [], by simp, by simp,
        fun e he => absurd he (List.not_mem_nil e)⟩
      (fun j s1 hj inv => updateBody_step_weak optimizer batch_size s hw j s1 hj inv)
  obtain ⟨t2, hclr, hupd⟩ :=
    updateWeights_after_loop optimizer batch_size s t1 hw hloop hlay hframe
  refine ⟨t1, t2, evs, hlay, hframe, hfix, hlog, hseq, hev, ?_, hclr, hupd⟩
  intro hn
  obtain ⟨t1b, hloopb, -, -, hlogb, -⟩ :=
    forLoop_range (updateBody optimizer (rcpBatchSize batch_size))
      (UpdateInv s batch_size) s.layer.inputChannels s
      ⟨⟨s.layer.weightDifference, rfl⟩, heapFrame_refl _, by simp, fun _ _ _ _ => rfl⟩
      (fun j s1 hj inv => updateBody_step optimizer batch_size s hw hn j s1 hj inv)
  have heq : t1b = t1 := Outcome.ok.inj (hloopb.symm.trans hloop)
  subst heq
  exact List.append_cancel_left (hlog.symm.trans hlogb)

theorem mem_expectedUpdateEvents [One F] [Add F] [Mul F] [Div F] [IntCast F]
    (s : State F σ) (batch_size : Int) (i j : Nat) (dW W : Storage F) (par : Bool)
    (h : Event.optimizer i dW W par ∈ expectedUpdateEvents s batch_size j) :
    j = i ∧ expectedGradient s batch_size i = some dW ∧ getInputWeights s i = some W ∧
      par = decide (512 ≤ W.length) := by
  unfold expectedUpdateEvents at h
  split at h
  · split at h
    · next dW0 W0 hg hwt =>
      simp only [List.mem_cons, List.mem_singleton, List.not_mem_nil, or_false] at h
      rcases h with h | h
      · exact absurd h (by simp)
      · simp only [Event.optimizer.injEq] at h
        obtain ⟨h1, h2, h3, h4⟩ := h
        subst h1; subst h2; subst h3
        exact ⟨rfl, hg, hwt, h4⟩
    · simp at h
  · simp at h

theorem eligible_iff (L : NeuralLayer F σ) (i : Nat) :
    eligible L i = true ↔
      L.trainable = true ∧ ∃ ty, L.inputTypes[i]? = some ty ∧ is_trainable_weight ty = true := by
  unfold eligible
  cases L.inputTypes[i]? with
  | none => simp
  | some ty => simp

/-- On an eligible channel of a wired layer the expected calls are one merge and one
optimizer call, with the merged and scaled gradient of the channel and its first value
sample. -/
theorem expectedUpdateEvents_eligible [One F] [Add F] [Mul F] [Div F] [IntCast F]
    (s : State F σ) (batch_size : Int) (i : Nat) (hr : inputReady s i = true)
    (hel : eligible s.layer i = true) :
    ∃ p sig merged W rest, getInput s.layer i = some p ∧ s.heap[p]? = some sig ∧
      sig.mergeGradients [] = some merged ∧ sig.weight = W :: rest ∧
      getInputWeights s i = some W ∧
      expectedGradient s batch_size i =
        some (merged.map (fun g => g * ((1 : F) / ((batch_size : Int) : F)))) ∧
      expectedUpdateEvents s batch_size i =
        [Event.mergeGradients i,
          Event.optimizer i (merged.map (fun g => g * ((1 : F) / ((batch_size : Int) : F)))) W
            (decide (512 ≤ W.length))] := by
  obtain ⟨p, sig, w, rest, g, grest, hp, hsig, hwt, hc⟩ := inputReady_unpack hr
  obtain ⟨merged, hmerged⟩ := mergeGradients_isSome sig [] g grest hc
  have hgw : getInputWeights s i = some w := by
    unfold getInputWeights; simp only [hp, hsig, hwt]; rfl
  have hgr : expectedGradient s batch_size i =
      some (merged.map (fun g => g * ((1 : F) / ((batch_size : Int) : F)))) := by
    unfold expectedGradient; simp only [hp, hsig, hmerged]; rfl
  refine ⟨p, sig, merged, w, rest, hp, hsig, hmerged, hwt, hgw, hgr, ?_⟩
  unfold expectedUpdateEvents
  simp only [hel, hgr, hgw, if_true]

/-! ## The initialisation loop, whatever is shared -/

theorem initChannel_initTag (ty : ChannelType) (i : Nat) (w : Storage F) (fanIn fanOut : Int) :
    (initTag ty i w fanIn fanOut).initChannel = some i := by
  cases ty <;> rfl

theorem initEventOk_initTag (s : State F σ) (ty : ChannelType) (func : InitFunc F σ)
    (i : Nat) (w : Storage F) (fanIn fanOut : Int) (hty : s.layer.inputTypes[i]? = some ty)
    (hcb : initCallback s.layer ty = some func) (hfi : getFanInSize s.layer = some fanIn)
    (hfo : getFanOutSize s.layer = some fanOut) :
    InitEventOk s (initTag ty i w fanIn fanOut) := by
  cases ty with
  | data => simp [initCallback] at hcb
  | weight =>
    have hcb2 : s.layer.weightInitFunc = some func := hcb
    have hset : s.layer.weightInitFunc.isSome = true := by rw [hcb2]; rfl
    exact ⟨hty, hset, hfi, hfo⟩
  | bias =>
    have hcb2 : s.layer.biasInitFunc = some func := hcb
    have hset : s.layer.biasInitFunc.isSome = true := by rw [hcb2]; rfl
    exact ⟨hty, hset, hfi, hfo⟩

theorem initBody_step_weak (s : State F σ) (hw : InputsWired s) (hf : FanDefined s.layer)
    (k : Nat) (t : State F σ) (hk : k < s.layer.inputChannels) (inv : InitInvWeak s k t) :
    ∃ t2, initBody k t = .ok t2 ∧ InitInvWeak s (k + 1) t2 := by
  obtain ⟨hl, hh, hfr, evs, hlog, hseq, hev⟩ := inv
  have hkt : k < s.layer.inputTypes.length := by rw [hw.1]; exact hk
  obtain ⟨ty, hty⟩ : ∃ ty, s.layer.inputTypes[k]? = some ty :=
    ⟨_, List.getElem?_eq_getElem hkt⟩
  have htyk : t.layer.inputTypes[k]? = some ty := by rw [hl]; exact hty
  have hact : initActive s.layer k = (initCallback s.layer ty).isSome := by
    unfold initActive; rw [hty]
  cases hcb : initCallback s.layer ty with
  | none =>
    refine ⟨t, initBody_of_none k t ty htyk (by rw [hl]; exact hcb), hl, hh,
      fun p hp => hfr p (fun j hj => hp j (Nat.lt_succ_of_lt hj)), evs, hlog, ?_, hev⟩
    rw [range_succ_filter, hseq, hact, hcb]
    simp
  | some func =>
    have hr : inputReady t k = true := inputReady_of_frame (by rw [hl]) hh (hw.2 k hk)
    obtain ⟨p, sig, w, rest, fanIn, fanOut, hp, hsig, hwt, hfi, hfo, hcall⟩ :=
      callInit_spec (initTag ty) func k t hr (by rw [hl]; exact hf)
    rw [hl] at hp hfi hfo
    have hbody : initBody k t = _ :=
      (initBody_of_some k t ty func htyk (by rw [hl]; exact hcb)).trans hcall
    refine ⟨_, hbody, hl, ?_, ?_, evs ++ [initTag ty k w fanIn fanOut], ?_, ?_, ?_⟩
    · exact heapFrame_trans hh (heapFrame_set hsig (cellFrame_head sig w _ rest hwt))
    · intro q hq
      have hne : p ≠ q := fun h =>
        hq k (Nat.lt_succ_self k) (by rw [hact, hcb]; rfl) (by rw [hp, h])
      show (t.heap.set p _)[q]? = _
      rw [List.getElem?_set_ne hne]
      exact hfr q (fun j hj => hq j (Nat.lt_succ_of_lt hj))
    · show t.log ++ _ = _
      rw [hlog, List.append_assoc]
    · rw [range_succ_filter, List.filterMap_append, hseq, hact, hcb]
      simp [initChannel_initTag]
    · intro e he
      rcases List.mem_append.mp he with h | h
      · exact hev e h
      · rw [List.mem_singleton] at h
        subst h
        exact initEventOk_initTag s ty func k w fanIn fanOut hty hcb hfi hfo

/-- On a trainable, wired layer `initializeWeights` returns. It sets `initialized`, changes
nothing but first value samples of signals held by a channel that gets initialised, and
logs one admissible invocation for each such channel, in channel order; without shared
inputs the invocations are exactly the expected ones and every input signal is what the
initialisation of its channel makes of it. -/
theorem initializeWeights_master (s : State F σ) (htr : s.layer.trainable = true)
    (hw : InputsWired s) (hf : FanDefined s.layer) :
    ∃ t evs, initializeWeights s = .ok t ∧ t.layer = { s.layer with initialized := true } ∧
      HeapFrame s.heap t.heap ∧
      (∀ p : Nat, (∀ j : Nat, j < s.layer.inputChannels → initActive s.layer j = true →
        getInput s.layer j ≠ some p) → t.heap[p]? = s.heap[p]?) ∧
      t.log = s.log ++ evs ∧
      evs.filterMap Event.initChannel =
        (List.range s.layer.inputChannels).filter (initActive s.layer) ∧
      (∀ e ∈ evs, InitEventOk s e) ∧
      (NoSharedInput s.layer →
        evs = (List.range s.layer.inputChannels).filterMap (expectedInitEvent s) ∧
        ∀ (j p : Nat) (ty : ChannelType) (a : Signal F), j < s.layer.inputChannels →
          getInput s.layer j = some p → s.layer.inputTypes[j]? = some ty →
          s.heap[p]? = some a → ∃ b, t.heap[p]? = some b ∧ InitializedCell s.layer ty a b) := by
  obtain ⟨t, hloop, hl, hh, hfr, evs, hlog, hseq, hev⟩ := forLoop_range initBody
    (InitInvWeak s) s.layer.inputChannels s
    ⟨rfl, heapFrame_refl _, fun _ _ => rfl, [], by simp, by simp,
      fun e he => absurd he (List.not_mem_nil e)⟩
    (fun j s1 hj inv => initBody_step_weak s hw hf j s1 hj inv)
  have hrun : initializeWeights s = .ok (markInitialized t) := by
    unfold initializeWeights
    rw [if_neg (by simp [htr]), hloop]
    rfl
  refine ⟨markInitialized t, evs, hrun, by simp [markInitialized, hl], hh, hfr, hlog, hseq,
    hev, ?_⟩
  intro hn
  obtain ⟨t2, hrun2, -, hlog2, hcells⟩ := initializeWeights_spec s htr hw hf hn
  have heq : t2 = markInitialized t := Outcome.ok.inj (hrun2.symm.trans hrun)
  subst heq
  refine ⟨List.append_cancel_left (hlog.symm.trans hlog2), hcells⟩

/-- When the invocations logged are one per initialised channel, every weight channel has
its invocation of the weight callback in the log, provided that callback is set. -/
theorem weightInit_mem_of_seq (s : State F σ) (evs : List (Event F)) (i : Nat)
    (hi : i < s.layer.inputChannels) (hty : s.layer.inputTypes[i]? = some .weight)
    (hset : s.layer.weightInitFunc.isSome = true)
    (hseq : evs.filterMap Event.initChannel =
      (List.range s.layer.inputChannels).filter (initActive s.layer))
    (hev : ∀ e ∈ evs, InitEventOk s e) :
    ∃ w fanIn fanOut, Event.weightInit i w fanIn fanOut ∈ evs ∧
      getFanInSize s.layer = some fanIn ∧ getFanOutSize s.layer = some fanOut := by
  have hact : initActive s.layer i = true := by
    unfold initActive; rw [hty]; exact hset
  have hmem : i ∈ evs.filterMap Event.initChannel := by
    rw [hseq]
    exact List.mem_filter.mpr ⟨List.mem_range.mpr hi, hact⟩
  obtain ⟨e, he, hch⟩ := List.mem_filterMap.mp hmem
  have hok := hev e he
  cases e with
  | weightInit j w fanIn fanOut =>
    have hj : j = i := Option.some.inj hch
    subst hj
    exact ⟨w, fanIn, fanOut, he, hok.2.2.1, hok.2.2.2⟩
  | biasInit j w fanIn fanOut =>
    have hj : j = i := Option.some.inj hch
    subst hj
    exact absurd (Option.some.inj (hty.symm.trans hok.1)) (by simp)
  | mergeGradients j => exact absurd hok id
  | optimizer j dW W par => exact absurd hok id
  | clearGradients j => exact absurd hok id
  | post => exact absurd hok id
  | setSampleCount n => exact absurd hok id
  | clearOutputGradients j => exact absurd hok id
  | forwardPropagation x y => exact absurd hok id

theorem initActive_of_layer {L1 L2 : NeuralLayer F σ}
    (h1 : L2.inputTypes = L1.inputTypes) (h2 : L2.weightInitFunc = L1.weightInitFunc)
    (h3 : L2.biasInitFunc = L1.biasInitFunc) : initActive L2 = initActive L1 := by
  funext i
  unfold initActive initCallback
  rw [h1, h2, h3]


/-! ## setSampleCount -/

theorem resizeTensor_eq (n : Nat) {t : Tensor F} (h : t ≠ []) :
    resizeTensor n t = some (resized n t) := by
  cases t with
  | nil => exact absurd rfl h
  | cons first rest => rfl

theorem resized_length (n : Nat) (t : Tensor F) : (resized n t).length = n := by
  unfold resized
  rw [List.length_append, List.length_take, List.length_replicate]
  omega

theorem resized_ne_nil {n : Nat} (hn : 1 ≤ n) (t : Tensor F) :
    resized n t ≠ [] := by
  intro h0
  have := resized_length n t
  rw [h0] at this
  simp at this
  omega

theorem resized_of_length {n : Nat} {t : Tensor F} (h : t.length = n) : resized n t = t := by
  unfold resized
  rw [h, Nat.sub_self, ← h, List.take_length]
  simp

theorem resized_idem (n : Nat) (t : Tensor F) :
    resized n (resized n t) = resized n t :=
  resized_of_length (resized_length n t)

theorem resized_grow {n : Nat} {t : Tensor F} (first : Storage F) (rest : Tensor F)
    (ht : t = first :: rest) (h : t.length ≤ n) :
    resized n t = t ++ List.replicate (n - t.length) first := by
  subst ht
  unfold resized
  rw [List.take_of_length_le h]
  rfl

theorem resized_shrink {n : Nat} {t : Tensor F} (h : n ≤ t.length) :
    resized n t = t.take n := by
  unfold resized
  rw [Nat.sub_eq_zero_of_le h]
  simp

theorem outputReady_unpack {s : State F σ} {i : Nat} (h : outputReady s i = true) :
    ∃ p sig, getOutput s.layer i = some p ∧ s.heap[p]? = some sig ∧
      sig.weight ≠ [] ∧ sig.change ≠ [] := by
  unfold outputReady at h
  cases hp : getOutput s.layer i with
  | none => simp [hp] at h
  | some p =>
    cases hs : s.heap[p]? with
    | none => simp [hp, hs] at h
    | some sig =>
      simp only [hp, hs] at h
      refine ⟨p, sig, rfl, hs, ?_, ?_⟩
      · intro h0
        simp [h0] at h
      · intro h0
        simp [h0] at h

theorem inputReady_ne_nil {s : State F σ} {i : Nat} (h : inputReady s i = true) :
    ∃ p sig, getInput s.layer i = some p ∧ s.heap[p]? = some sig ∧
      sig.weight ≠ [] ∧ sig.change ≠ [] := by
  obtain ⟨p, sig, w, rest, g, grest, hp, hs, hw, hc⟩ := inputReady_unpack h
  exact ⟨p, sig, hp, hs, by simp [hw], by simp [hc]⟩

theorem sampleRel_refl (n : Nat) (s : State F σ) :
    SampleRel n (fun _ => False) (fun _ => False) s s := by
  refine ⟨rfl, rfl, rfl, rfl, ?_⟩
  intro p a ha
  exact ⟨a, ha, rfl, rfl, rfl, fun h => h.elim, fun _ => rfl, fun h => h.elim, fun _ => rfl⟩

theorem sampleRel_congr {n : Nat} {C W C2 W2 : Nat → Prop} {s t : State F σ}
    (hC : ∀ p, C p ↔ C2 p) (hW : ∀ p, W p ↔ W2 p) (h : SampleRel n C W s t) :
    SampleRel n C2 W2 s t := by
  have hC2 : C = C2 := funext fun p => propext (hC p)
  have hW2 : W = W2 := funext fun p => propext (hW p)
  rw [← hC2, ← hW2]
  exact h

/-- One iteration of a `setSampleCount` loop on a connected channel: it returns, and the
signal of the channel joins the resized ones. -/
theorem sampleBody_step {n : Nat} (hn : 1 ≤ n) {C W : Nat → Prop} {s t : State F σ}
    (hrel : SampleRel n C W s t) {p : Nat} {a : Signal F} (ha : s.heap[p]? = some a)
    (hw : a.weight ≠ []) (hc : a.change ≠ []) (ty : ChannelType) :
    ∃ t2, sampleBody n (some ty) (some p) t = .ok t2 ∧
      SampleRel n (fun q => C q ∨ q = p)
        (fun q => W q ∨ (q = p ∧ is_trainable_weight ty = false)) s t2 := by
  obtain ⟨hlay, henv, hlog, hlen, hcells⟩ := hrel
  obtain ⟨b, hb, hbi, hbd, hbt, hbc1, hbc2, hbw1, hbw2⟩ := hcells p a ha
  have hbw : b.weight ≠ [] := by
    by_cases hW : W p
    · rw [hbw1 hW]
      exact resized_ne_nil hn _
    · rw [hbw2 hW]
      exact hw
  have hbc : b.change ≠ [] := by
    by_cases hC : C p
    · rw [hbc1 hC]
      exact resized_ne_nil hn _
    · rw [hbc2 hC]
      exact hc
  have hbcr : resized n b.change = resized n a.change := by
    by_cases hC : C p
    · rw [hbc1 hC]
      exact resized_idem n _
    · rw [hbc2 hC]
  have hbwr : resized n b.weight = resized n a.weight := by
    by_cases hW : W p
    · rw [hbw1 hW]
      exact resized_idem n _
    · rw [hbw2 hW]
  have hplt : p < t.heap.length := getElem?_lt_of_eq_some hb
  refine ⟨{ t with
      heap := t.heap.set p
        { b with
          weight := (if is_trainable_weight ty then b.weight else resized n b.weight)
          change := resized n b.change } }, ?_, ?_⟩
  · unfold sampleBody
    simp only [hb, resizeTensor_eq n hbc]
    cases is_trainable_weight ty
    · simp [resizeTensor_eq n hbw]
    · simp
  · refine ⟨hlay, henv, hlog, ?_, ?_⟩
    · show (t.heap.set p _).length = _
      rw [List.length_set]
      exact hlen
    · intro q a2 ha2
      by_cases hq : q = p
      · subst hq
        have haa : a2 = a := Option.some.inj (ha2.symm.trans ha)
        subst haa
        refine ⟨_, List.getElem?_set_self hplt, hbi, hbd, hbt, ?_, ?_, ?_, ?_⟩
        · intro _
          exact hbcr
        · intro hno
          exact absurd (Or.inr rfl) hno
        · intro hyes
          show (if is_trainable_weight ty then b.weight else resized n b.weight) = _
          cases hty : is_trainable_weight ty
          · simpa using hbwr
          · rcases hyes with hW | ⟨_, hf⟩
            · simpa using hbw1 hW
            · rw [hty] at hf
              cases hf
        · intro hno
          show (if is_trainable_weight ty then b.weight else resized n b.weight) = _
          cases hty : is_trainable_weight ty
          · exact absurd (Or.inr ⟨rfl, hty⟩) hno
          · simpa using hbw2 (fun hW => hno (Or.inl hW))
      · obtain ⟨b2, hb2, hi2, hd2, ht2, hc1, hc2, hw1, hw2⟩ := hcells q a2 ha2
        refine ⟨b2, ?_, hi2, hd2, ht2, ?_, ?_, ?_, ?_⟩
        · show (t.heap.set p _)[q]? = _
          rw [List.getElem?_set_ne (fun h => hq h.symm)]
          exact hb2
        · intro hyes
          rcases hyes with hC | hqp
          · exact hc1 hC
          · exact absurd hqp hq
        · intro hno
          exact hc2 (fun hC => hno (Or.inl hC))
        · intro hyes
          rcases hyes with hW | ⟨hqp, _⟩
          · exact hw1 hW
          · exact absurd hqp hq
        · intro hno
          exact hw2 (fun hW => hno (Or.inl hW))

theorem heldBelow_zero (slot : Nat → Option Nat) (p : Nat) : ¬ heldBelow slot 0 p := by
  rintro ⟨j, hj, _⟩
  omega

theorem dataBelow_zero (slot : Nat → Option Nat) (kind : Nat → Option ChannelType) (p : Nat) :
    ¬ dataBelow slot kind 0 p := by
  rintro ⟨j, hj, _⟩
  omega

theorem heldBelow_succ (slot : Nat → Option Nat) (k p : Nat) :
    heldBelow slot (k + 1) p ↔ heldBelow slot k p ∨ slot k = some p := by
  constructor
  · rintro ⟨j, hj, h⟩
    by_cases hjk : j = k
    · subst hjk
      exact Or.inr h
    · exact Or.inl ⟨j, by omega, h⟩
  · rintro (⟨j, hj, h⟩ | h)
    · exact ⟨j, by omega, h⟩
    · exact ⟨k, by omega, h⟩

theorem dataBelow_succ (slot : Nat → Option Nat) (kind : Nat → Option ChannelType)
    (k p : Nat) :
    dataBelow slot kind (k + 1) p ↔ dataBelow slot kind k p ∨
      (slot k = some p ∧ ∃ ty, kind k = some ty ∧ is_trainable_weight ty = false) := by
  constructor
  · rintro ⟨j, hj, h⟩
    by_cases hjk : j = k
    · subst hjk
      exact Or.inr h
    · exact Or.inl ⟨j, by omega, h⟩
  · rintro (⟨j, hj, h⟩ | h)
    · exact ⟨j, by omega, h⟩
    · exact ⟨k, by omega, h⟩

/-- One loop of `setSampleCount` over `m` connected channels returns, and the signals of
these channels join the resized ones. -/
theorem sampleLoop_spec {n : Nat} (hn : 1 ≤ n) (slot : Nat → Option Nat)
    (kind : Nat → Option ChannelType) (body : Nat → State F σ → Outcome (State F σ))
    (s : State F σ) (m : Nat)
    (hbody : ∀ j u, u.layer = s.layer → body j u = sampleBody n (kind j) (slot j) u)
    (hready : ∀ j, j < m → ∃ p a ty, slot j = some p ∧ kind j = some ty ∧
      s.heap[p]? = some a ∧ a.weight ≠ [] ∧ a.change ≠ [])
    {C0 W0 : Nat → Prop} {t0 : State F σ} (h0 : SampleRel n C0 W0 s t0) :
    ∃ t, forLoop body (List.range m) t0 = .ok t ∧
      SampleRel n (fun p => C0 p ∨ heldBelow slot m p)
        (fun p => W0 p ∨ dataBelow slot kind m p) s t := by
  refine forLoop_range body
    (fun k u => SampleRel n (fun p => C0 p ∨ heldBelow slot k p)
      (fun p => W0 p ∨ dataBelow slot kind k p) s u) m t0 ?_ ?_
  · refine sampleRel_congr ?_ ?_ h0
    · intro p
      exact ⟨Or.inl, fun h => h.elim id (fun h2 => absurd h2 (heldBelow_zero slot p))⟩
    · intro p
      exact ⟨Or.inl, fun h => h.elim id (fun h2 => absurd h2 (dataBelow_zero slot kind p))⟩
  · intro j u hj hinv
    obtain ⟨p, a, ty, hslot, hkind, ha, hw, hc⟩ := hready j hj
    obtain ⟨t2, h2, hrel2⟩ := sampleBody_step hn hinv ha hw hc ty
    refine ⟨t2, ?_, sampleRel_congr ?_ ?_ hrel2⟩
    · rw [hbody j u hinv.1, hslot, hkind]
      exact h2
    · intro q
      rw [heldBelow_succ, hslot]
      constructor
      · rintro ((h | h) | h)
        · exact Or.inl h
        · exact Or.inr (Or.inl h)
        · exact Or.inr (Or.inr (by rw [h]))
      · rintro (h | h | h)
        · exact Or.inl (Or.inl h)
        · exact Or.inl (Or.inr h)
        · exact Or.inr (Option.some.inj h).symm
    · intro q
      rw [dataBelow_succ, hslot, hkind]
      constructor
      · rintro ((h | h) | ⟨h, hty⟩)
        · exact Or.inl h
        · exact Or.inr (Or.inl h)
        · exact Or.inr (Or.inr ⟨by rw [h], ty, rfl, hty⟩)
      · rintro (h | h | ⟨h, ty2, hty2, hf⟩)
        · exact Or.inl (Or.inl h)
        · exact Or.inl (Or.inr h)
        · refine Or.inr ⟨(Option.some.inj h).symm, ?_⟩
          rw [Option.some.inj hty2]
          exact hf

/-- The method `setSampleCount(n)` with `n ≥ 1` on a layer whose channels are all connected
returns, and relates the final state to the initial one by `SampleRel`. -/
theorem setSampleCount_spec {n : Nat} (hn : 1 ≤ n) (s : State F σ) (hin : InputsWired s)
    (hout : OutputsWired s) :
    ∃ t, setSampleCount n s = .ok t ∧
      SampleRel n (SignalHeld s.layer) (DataHeld s.layer) s t := by
  have hready1 : ∀ j, j < s.layer.inputChannels → ∃ p a ty,
      getInput s.layer j = some p ∧ s.layer.inputTypes[j]? = some ty ∧
      s.heap[p]? = some a ∧ a.weight ≠ [] ∧ a.change ≠ [] := by
    intro j hj
    obtain ⟨p, a, hp, ha, hw, hc⟩ := inputReady_ne_nil (hin.2 j hj)
    have hlt : j < s.layer.inputTypes.length := by rw [hin.1]; exact hj
    exact ⟨p, a, s.layer.inputTypes[j], hp, List.getElem?_eq_getElem hlt, ha, hw, hc⟩
  have hready2 : ∀ j, j < s.layer.outputChannels → ∃ p a ty,
      getOutput s.layer j = some p ∧ s.layer.outputTypes[j]? = some ty ∧
      s.heap[p]? = some a ∧ a.weight ≠ [] ∧ a.change ≠ [] := by
    intro j hj
    obtain ⟨p, a, hp, ha, hw, hc⟩ := outputReady_unpack (hout.2 j hj)
    have hlt : j < s.layer.outputTypes.length := by rw [hout.1]; exact hj
    exact ⟨p, a, s.layer.outputTypes[j], hp, List.getElem?_eq_getElem hlt, ha, hw, hc⟩
  obtain ⟨t1, ht1, hrel1⟩ := sampleLoop_spec hn (getInput s.layer)
    (fun j => s.layer.inputTypes[j]?) (sampleInBody n) s s.layer.inputChannels
    (fun j u hu => by unfold sampleInBody; rw [hu]) hready1 (sampleRel_refl n s)
  obtain ⟨t2, ht2, hrel2⟩ := sampleLoop_spec hn (getOutput s.layer)
    (fun j => s.layer.outputTypes[j]?) (sampleOutBody n) s s.layer.outputChannels
    (fun j u hu => by unfold sampleOutBody; rw [hu]) hready2 hrel1
  refine ⟨t2, ?_, sampleRel_congr ?_ ?_ hrel2⟩
  · unfold setSampleCount
    rw [ht1, andThen_ok, hrel1.1]
    exact ht2
  · intro p
    unfold SignalHeld
    constructor
    · rintro ((h | h) | h)
      · exact h.elim
      · exact Or.inl h
      · exact Or.inr h
    · rintro (h | h)
      · exact Or.inl (Or.inr h)
      · exact Or.inr h
  · intro p
    unfold DataHeld
    constructor
    · rintro ((h | h) | h)
      · exact h.elim
      · exact Or.inl h
      · exact Or.inr h
    · rintro (h | h)
      · exact Or.inl (Or.inr h)
      · exact Or.inr h

theorem grownFrom_resized (n : Nat) (t : Tensor F) : GrownFrom n t (resized n t) := by
  intro first rest ht hlt
  have hg := resized_grow first rest ht (Nat.le_of_lt hlt)
  refine ⟨resized_length n t, ?_, ?_⟩
  · rw [hg, List.take_left']
    rfl
  · intro k hk hkn
    rw [hg, List.getElem?_append_right hk, List.getElem?_replicate]
    rw [if_pos (by omega)]

/-! ## forward -/

/-- Partial-correctness rule for the counting loop: an invariant carried by every
iteration that returns holds after a loop that returns. -/
theorem forLoop_range_from_partial {α : Type} (body : Nat → α → Outcome α)
    (Inv : Nat → α → Prop) (m k : Nat) (s : α) (h0 : Inv k s)
    (step : ∀ j s1 s2, k ≤ j → j < k + m → Inv j s1 → body j s1 = .ok s2 → Inv (j + 1) s2)
    (t : α) (hrun : forLoop body (List.range' k m) s = .ok t) : Inv (k + m) t := by
  induction m generalizing k s with
  | zero =>
    simp only [List.range'_zero, forLoop_nil] at hrun
    cases hrun
    simpa using h0
  | succ m ih =>
    rw [List.range'_succ, forLoop_cons] at hrun
    cases hb : body k s with
    | ok s2 =>
      rw [hb, andThen_ok] at hrun
      have h2 := ih (k + 1) s2 (step k s s2 (Nat.le_refl k) (by omega) h0 hb)
        (fun j u v h1 h2 h3 h4 => step j u v (by omega) (by omega) h3 h4) hrun
      have hkm : k + (m + 1) = k + 1 + m := by omega
      rw [hkm]
      exact h2
    | threw e u =>
      rw [hb] at hrun
      cases hrun
    | fault =>
      rw [hb] at hrun
      cases hrun

theorem forLoop_range_partial {α : Type} (body : Nat → α → Outcome α)
    (Inv : Nat → α → Prop) (n : Nat) (s : α) (h0 : Inv 0 s)
    (step : ∀ j s1 s2, j < n → Inv j s1 → body j s1 = .ok s2 → Inv (j + 1) s2)
    (t : α) (hrun : forLoop body (List.range n) s = .ok t) : Inv n t := by
  have h := forLoop_range_from_partial body Inv n 0 s h0
    (fun j u v _ h2 h3 h4 => step j u v (by omega) h3 h4) t
    (by simpa [List.range_eq_range'] using hrun)
  simpa using h

/-- The pointers gathered from `n` slots that all hold one: as many as slots, in slot
order. -/
theorem filterMap_range_of_some (f : Nat → Option Nat) (n : Nat)
    (h : ∀ j, j < n → ∃ p, f j = some p) :
    ((List.range n).filterMap f).length = n ∧
      ∀ i, i < n → ((List.range n).filterMap f)[i]? = f i := by
  induction n with
  | zero => exact ⟨rfl, fun i hi => absurd hi (Nat.not_lt_zero i)⟩
  | succ n ih =>
    obtain ⟨hlen, hget⟩ := ih (fun j hj => h j (by omega))
    obtain ⟨p, hp⟩ := h n (by omega)
    rw [range_succ_filterMap, hp]
    refine ⟨by simp [hlen], ?_⟩
    intro i hi
    by_cases hin : i < n
    · rw [List.getElem?_append_left (by rw [hlen]; exact hin)]
      exact hget i hin
    · have hi2 : i = n := by omega
      subst hi2
      rw [List.getElem?_append_right (by rw [hlen]), hlen, hp]
      simp

/-- The first loop of `forward` on connected inputs returns the input pointers in slot
order and leaves the state alone. -/
theorem gather_spec (s : State F σ)
    (h : ∀ j, j < s.layer.inputChannels → ∃ p a, getInput s.layer j = some p ∧
      s.heap[p]? = some a) :
    forLoop gatherBody (List.range s.layer.inputChannels) (s, []) =
      .ok (s, (List.range s.layer.inputChannels).filterMap (getInput s.layer)) := by
  obtain ⟨acc, hacc, h1, h2⟩ := forLoop_range gatherBody
    (fun k (acc : State F σ × List Nat) =>
      acc.1 = s ∧ acc.2 = (List.range k).filterMap (getInput s.layer))
    s.layer.inputChannels (s, []) ⟨rfl, rfl⟩ (by
      intro j acc hj hinv
      obtain ⟨p, a, hp, ha⟩ := h j hj
      refine ⟨(acc.1, acc.2 ++ [p]), ?_, hinv.1, ?_⟩
      · unfold gatherBody
        rw [hinv.1, hp]
        simp only [ha]
      · rw [range_succ_filterMap, hp, hinv.2]
        rfl)
  rw [hacc]
  congr 1
  exact Prod.ext h1 h2

/-- The second loop of `forward` on connected outputs returns and establishes
`ClearOutInv`. -/
theorem clearOut_spec [Zero F] (s : State F σ)
    (h : ∀ j, j < s.layer.outputChannels → ∃ p a, getOutput s.layer j = some p ∧
      s.heap[p]? = some a) :
    ∃ tk, forLoop clearOutBody (List.range s.layer.outputChannels) (s, []) =
        .ok (tk, (List.range s.layer.outputChannels).filterMap (getOutput s.layer)) ∧
      ClearOutInv s s.layer.outputChannels
        (tk, (List.range s.layer.outputChannels).filterMap (getOutput s.layer)) := by
  obtain ⟨acc, hacc, hinv⟩ := forLoop_range clearOutBody (ClearOutInv s)
    s.layer.outputChannels (s, []) (by
      refine ⟨rfl, rfl, by simp, rfl, ?_⟩
      intro p a ha
      exact ⟨a, ha, fun hh => absurd hh (heldBelow_zero _ p), fun _ => rfl⟩) (by
      intro j acc hj hinv
      obtain ⟨hlay, henv, hlog, hptr, hcells⟩ := hinv
      obtain ⟨p, a, hp, ha⟩ := h j hj
      obtain ⟨b, hb, hb1, hb2⟩ := hcells p a ha
      have hbc : b.clearGradients = a.clearGradients := by
        by_cases hh : heldBelow (getOutput s.layer) j p
        · rw [hb1 hh]
          exact clearGradients_idem a
        · rw [hb2 hh]
      have hplt : p < acc.1.heap.length := getElem?_lt_of_eq_some hb
      refine ⟨({ acc.1 with
          heap := acc.1.heap.set p b.clearGradients
          log := acc.1.log ++ [Event.clearOutputGradients j] }, acc.2 ++ [p]), ?_, ?_⟩
      · unfold clearOutBody
        rw [hlay, hp]
        simp only [hb]
      · refine ⟨hlay, henv, ?_, ?_, ?_⟩
        · show acc.1.log ++ _ = _
          rw [hlog, List.range_succ, List.map_append, List.append_assoc]
          rfl
        · show acc.2 ++ [p] = _
          rw [range_succ_filterMap, hp, hptr]
          rfl
        · intro q a2 ha2
          by_cases hq : q = p
          · subst hq
            have haa : a2 = a := Option.some.inj (ha2.symm.trans ha)
            subst haa
            refine ⟨b.clearGradients, List.getElem?_set_self hplt, fun _ => hbc, ?_⟩
            intro hno
            exact absurd ((heldBelow_succ _ j q).2 (Or.inr hp)) hno
          · obtain ⟨b2, hb2q, hq1, hq2⟩ := hcells q a2 ha2
            refine ⟨b2, ?_, ?_, ?_⟩
            · show (acc.1.heap.set p _)[q]? = _
              rw [List.getElem?_set_ne (fun hh => hq hh.symm)]
              exact hb2q
            · intro hyes
              rcases (heldBelow_succ _ j q).1 hyes with hh | hh
              · exact hq1 hh
              · exact absurd (Option.some.inj (hp.symm.trans hh)).symm hq
            · intro hno
              exact hq2 (fun hh => hno ((heldBelow_succ _ j q).2 (Or.inl hh))))
  have h2 : acc.2 = (List.range s.layer.outputChannels).filterMap (getOutput s.layer) :=
    hinv.2.2.2.1
  refine ⟨acc.1, ?_, ?_⟩
  · rw [hacc, ← h2]
  · rw [← h2]
    exact hinv

/-- The whole of `forward` on a layer with at least one input whose channels are all
connected: the state `t1` after `setSampleCount`, the state `tk` the kernel is called in,
and the result for every kernel. -/
theorem forward_master [Zero F] (s : State F σ) (hpos : 1 ≤ s.layer.inputChannels)
    (hin : InputsWired s) (hout : OutputsWired s) :
    ∃ t1 tk p0 first,
      getInput s.layer 0 = some p0 ∧ s.heap[p0]? = some first ∧ first.weight ≠ [] ∧
      SampleRel first.weight.length (SignalHeld s.layer) (DataHeld s.layer)
        { s with log := s.log ++ [Event.setSampleCount first.weight.length] } t1 ∧
      ClearOutInv t1 s.layer.outputChannels
        (tk, (List.range s.layer.outputChannels).filterMap (getOutput s.layer)) ∧
      ∀ kernel : Kernel F σ, forward kernel s = .ok { tk with
        env := (kernel tk.env tk.heap
          ((List.range s.layer.inputChannels).filterMap (getInput s.layer))
          ((List.range s.layer.outputChannels).filterMap (getOutput s.layer))).1
        heap := (kernel tk.env tk.heap
          ((List.range s.layer.inputChannels).filterMap (getInput s.layer))
          ((List.range s.layer.outputChannels).filterMap (getOutput s.layer))).2
        log := tk.log ++ [Event.forwardPropagation
          ((List.range s.layer.inputChannels).filterMap (getInput s.layer))
          ((List.range s.layer.outputChannels).filterMap (getOutput s.layer))] } := by
  obtain ⟨p0, first, hp0, hfirst, hw0, _⟩ := inputReady_ne_nil (hin.2 0 hpos)
  have hsome : ∀ j, j < s.layer.inputChannels → ∃ p, getInput s.layer j = some p := by
    intro j hj
    obtain ⟨p, a, hp, _⟩ := inputReady_ne_nil (hin.2 j hj)
    exact ⟨p, hp⟩
  have hg := gather_spec s (fun j hj => by
    obtain ⟨p, a, hp, ha, _⟩ := inputReady_ne_nil (hin.2 j hj)
    exact ⟨p, a, hp, ha⟩)
  have hins0 : ((List.range s.layer.inputChannels).filterMap (getInput s.layer))[0]? =
      some p0 := by
    rw [(filterMap_range_of_some _ _ hsome).2 0 hpos]
    exact hp0
  have hn : 1 ≤ first.weight.length := by
    cases hfw : first.weight with
    | nil => exact absurd hfw hw0
    | cons x rest => simp
  obtain ⟨t1, ht1, hrel⟩ := setSampleCount_spec hn
    { s with log := s.log ++ [Event.setSampleCount first.weight.length] } hin hout
  have hlay : t1.layer = s.layer := hrel.1
  have hready : ∀ j, j < t1.layer.outputChannels → ∃ p a, getOutput t1.layer j = some p ∧
      t1.heap[p]? = some a := by
    intro j hj
    rw [hlay] at hj
    obtain ⟨p, a, hp, ha, _⟩ := outputReady_unpack (hout.2 j hj)
    obtain ⟨b, hb, _⟩ := hrel.2.2.2.2 p a ha
    exact ⟨p, b, by rw [hlay]; exact hp, hb⟩
  obtain ⟨tk, htk, hinv⟩ := clearOut_spec t1 hready
  rw [hlay] at htk hinv
  refine ⟨t1, tk, p0, first, hp0, hfirst, hw0, hrel, hinv, ?_⟩
  intro kernel
  unfold forward
  rw [hg]
  simp only [hins0, hfirst, ht1, hlay, htk]

theorem clearGradients_zero [Zero F] (a : Signal F) :
    ∀ row ∈ a.clearGradients.change, ∀ x ∈ row, x = (0 : F) := by
  intro row hrow x hx
  unfold Signal.clearGradients at hrow
  simp only [List.mem_map] at hrow
  obtain ⟨r, _, hr⟩ := hrow
  rw [← hr] at hx
  simp only [List.mem_map] at hx
  obtain ⟨_, _, hy⟩ := hx
  exact hy.symm

theorem dataHeld_signalHeld {L : NeuralLayer F σ} {p : Nat} (h : DataHeld L p) :
    SignalHeld L p := by
  rcases h with ⟨j, hj, hp, _⟩ | ⟨j, hj, hp, _⟩
  · exact Or.inl ⟨j, hj, hp⟩
  · exact Or.inr ⟨j, hj, hp⟩

/-- A signal connected to a channel of a layer whose channels are all connected lives in
the heap and holds at least one sample in both buffers. -/
theorem signalHeld_cell {s : State F σ} (hin : InputsWired s) (hout : OutputsWired s)
    {p : Nat} (h : SignalHeld s.layer p) :
    ∃ a, s.heap[p]? = some a ∧ a.weight ≠ [] ∧ a.change ≠ [] := by
  rcases h with ⟨j, hj, hp⟩ | ⟨j, hj, hp⟩
  · obtain ⟨q, a, hq, ha, hw, hc⟩ := inputReady_ne_nil (hin.2 j hj)
    have hqp : q = p := Option.some.inj (hq.symm.trans hp)
    subst hqp
    exact ⟨a, ha, hw, hc⟩
  · obtain ⟨q, a, hq, ha, hw, hc⟩ := outputReady_unpack (hout.2 j hj)
    have hqp : q = p := Option.some.inj (hq.symm.trans hp)
    subst hqp
    exact ⟨a, ha, hw, hc⟩

/-- What the second loop of `forward` leaves of a signal: the value buffer, and the number
of samples of the gradient buffer. -/
theorem clearOutInv_cell [Zero F] {t1 tk : State F σ} {k : Nat} {outs : List Nat}
    (hinv : ClearOutInv t1 k (tk, outs)) {p : Nat} {b1 : Signal F}
    (hb1 : t1.heap[p]? = some b1) :
    ∃ b, tk.heap[p]? = some b ∧ b.weight = b1.weight ∧
      b.change.length = b1.change.length := by
  obtain ⟨b, hb, hyes, hno⟩ := hinv.2.2.2.2 p b1 hb1
  refine ⟨b, hb, ?_⟩
  by_cases hh : heldBelow (getOutput t1.layer) k p
  · rw [hyes hh]
    exact ⟨rfl, by simp [Signal.clearGradients]⟩
  · rw [hno hh]
    exact ⟨rfl, rfl⟩

/-! ## forward on an empty batch -/

theorem sampleBody_no_throw (n : Nat) (kind : Option ChannelType) (slot : Option Nat)
    (u : State F σ) (e : LayerError) (v : State F σ) :
    sampleBody n kind slot u ≠ .threw e v := by
  unfold sampleBody
  intro h
  split at h
  · cases h
  · split at h
    · cases h
    · split at h
      · cases h
      · split at h
        · cases h
        · split at h <;> cases h

/-- An iteration of a `setSampleCount` loop that returns keeps the layer and leaves an
empty value buffer empty. -/
theorem sampleBody_ok_inv {n : Nat} {kind : Option ChannelType} {slot : Option Nat}
    {u v : State F σ} (h : sampleBody n kind slot u = .ok v) :
    v.layer = u.layer ∧ ∀ (p : Nat) (b : Signal F), u.heap[p]? = some b → b.weight = [] →
      ∃ b2, v.heap[p]? = some b2 ∧ b2.weight = [] := by
  unfold sampleBody at h
  split at h
  · cases h
  · rename_i ty
    split at h
    · cases h
    · rename_i q
      split at h
      · cases h
      · rename_i sig hsig
        split at h
        · cases h
        · rename_i w hw
          split at h
          · cases h
          · rename_i c hc
            cases h
            refine ⟨rfl, ?_⟩
            intro p b hb hbw
            by_cases hpq : p = q
            · subst hpq
              have hsb : sig = b := Option.some.inj (hsig.symm.trans hb)
              subst hsb
              have hplt : p < u.heap.length := getElem?_lt_of_eq_some hb
              refine ⟨_, List.getElem?_set_self hplt, ?_⟩
              show w = []
              cases hty : is_trainable_weight ty
              · rw [hty, hbw] at hw
                simp [resizeTensor] at hw
              · rw [hty] at hw
                simp only [if_true] at hw
                rw [← Option.some.inj hw]
                exact hbw
            · refine ⟨b, ?_, hbw⟩
              show (u.heap.set q _)[p]? = _
              rw [List.getElem?_set_ne (fun hh => hpq hh.symm)]
              exact hb

/-- An iteration of a `setSampleCount` loop on a data channel whose value buffer is empty
reads element 0 of the empty buffer. -/
theorem sampleBody_fault_of_empty (n : Nat) {ty : ChannelType} {p : Nat} {u : State F σ}
    {b : Signal F} (hty : is_trainable_weight ty = false) (hb : u.heap[p]? = some b)
    (hbw : b.weight = []) : sampleBody n (some ty) (some p) u = .fault := by
  unfold sampleBody
  simp only [hb, hty, hbw]
  simp [resizeTensor]

/-- The method `setSampleCount` faults, whatever the count, when the value buffer of the
signal of a data input channel is empty. -/
theorem setSampleCount_fault_of_empty (n : Nat) (s : State F σ) {i p : Nat}
    {ty : ChannelType} {a : Signal F} (hi : i < s.layer.inputChannels)
    (hkind : s.layer.inputTypes[i]? = some ty) (hty : is_trainable_weight ty = false)
    (hp : getInput s.layer i = some p) (ha : s.heap[p]? = some a) (haw : a.weight = []) :
    setSampleCount n s = .fault := by
  unfold setSampleCount
  cases hrun : forLoop (sampleInBody n) (List.range s.layer.inputChannels) s with
  | fault => rfl
  | threw e u =>
    exact absurd hrun (forLoop_no_throw _
      (fun j u e v => sampleBody_no_throw n _ _ u e v) _ s e u)
  | ok t =>
    have hinv := forLoop_range_partial (sampleInBody n)
      (fun k (u : State F σ) => k ≤ i ∧ u.layer = s.layer ∧
        ∃ b, u.heap[p]? = some b ∧ b.weight = [])
      s.layer.inputChannels s ⟨Nat.zero_le i, rfl, a, ha, haw⟩ (by
        intro j u v hj hinv hbody
        obtain ⟨hji, hlay, b, hb, hbw⟩ := hinv
        unfold sampleInBody at hbody
        by_cases hjeq : j = i
        · subst hjeq
          rw [hlay, hkind, hp, sampleBody_fault_of_empty n hty hb hbw] at hbody
          cases hbody
        · obtain ⟨hl2, hcell⟩ := sampleBody_ok_inv hbody
          exact ⟨by omega, hl2.trans hlay, hcell p b hb hbw⟩) t hrun
    omega

theorem gatherBody_no_throw (j : Nat) (acc : State F σ × List Nat) (e : LayerError)
    (v : State F σ × List Nat) : gatherBody j acc ≠ .threw e v := by
  unfold gatherBody
  intro h
  split at h
  · cases h
  · split at h <;> cases h

theorem gatherBody_ok_inv {j : Nat} {acc v : State F σ × List Nat}
    (h : gatherBody j acc = .ok v) : v.1 = acc.1 := by
  unfold gatherBody at h
  split at h
  · cases h
  · split at h
    · cases h
    · cases h
      rfl

/-- The method `forward` faults when the value buffer of the signal of a data input
channel is empty. -/
theorem forward_fault_of_empty [Zero F] (kernel : Kernel F σ) (s : State F σ) {i p : Nat}
    {ty : ChannelType} {a : Signal F} (hi : i < s.layer.inputChannels)
    (hkind : s.layer.inputTypes[i]? = some ty) (hty : is_trainable_weight ty = false)
    (hp : getInput s.layer i = some p) (ha : s.heap[p]? = some a) (haw : a.weight = []) :
    forward kernel s = .fault := by
  unfold forward
  cases hg : forLoop gatherBody (List.range s.layer.inputChannels) (s, []) with
  | fault => rfl
  | threw e u =>
    exact absurd hg (forLoop_no_throw _ gatherBody_no_throw _ _ e u)
  | ok acc =>
    have hacc : acc.1 = s := forLoop_range_partial gatherBody
      (fun _ (v : State F σ × List Nat) => v.1 = s) s.layer.inputChannels (s, []) rfl
      (fun j u v _ hu hv => (gatherBody_ok_inv hv).trans hu) acc hg
    obtain ⟨s0, ins⟩ := acc
    simp only at hacc
    subst hacc
    simp only
    cases ins[0]? with
    | none => rfl
    | some p0 =>
      simp only
      cases s0.heap[p0]? with
      | none => rfl
      | some first =>
        simp only
        rw [setSampleCount_fault_of_empty first.weight.length
          { s0 with log := s0.log ++ [Event.setSampleCount first.weight.length] }
          hi hkind hty hp ha haw]

/-! ## setInputData -/

theorem dataIndex_succ (L : NeuralLayer F σ) (k : Nat) :
    dataIndex L (k + 1) =
      dataIndex L k + (if L.inputTypes[k]? = some ChannelType.data then 1 else 0) := by
  unfold dataIndex
  rw [range_succ_filter, List.length_append]
  by_cases h : L.inputTypes[k]? = some ChannelType.data
  · simp [h]
  · simp [h]

/-- What an iteration of the loop of `setInputData` that returns has done. -/
theorem inputDataBody_ok_inv {data : List (Tensor F)} {j : Nat} {u v : State F σ × Nat}
    (h : inputDataBody data j u = .ok v) :
    ∃ ty, u.1.layer.inputTypes[j]? = some ty ∧
      ((ty ≠ ChannelType.data ∧ v = u) ∨
        (ty = ChannelType.data ∧ ∃ q sig storage, getInput u.1.layer j = some q ∧
          u.1.heap[q]? = some sig ∧ data[u.2]? = some storage ∧
          v = ({ u.1 with heap := u.1.heap.set q { sig with weight := storage } },
               u.2 + 1))) := by
  unfold inputDataBody at h
  split at h
  · cases h
  · rename_i ty hty
    refine ⟨ty, hty, ?_⟩
    split at h
    · rename_i hne
      cases h
      exact Or.inl ⟨hne, rfl⟩
    · rename_i heq
      split at h
      · cases h
      · rename_i q hq
        split at h
        · cases h
        · rename_i sig hsig
          split at h
          · cases h
          · rename_i storage hst
            cases h
            exact Or.inr ⟨not_not.1 heq, q, sig, storage, hq, hsig, hst, rfl⟩

/-- After `setInputData(data)` has returned on a layer without shared inputs, every data
input channel has a signal, whose value buffer holds the batch handed to the channel. -/
theorem setInputData_cells {data : List (Tensor F)} {s t : State F σ}
    (hrun : setInputData data s = .ok t) (hns : NoSharedInput s.layer) :
    t.layer = s.layer ∧ ∀ j, j < s.layer.inputChannels →
      s.layer.inputTypes[j]? = some ChannelType.data →
      ∃ p b, getInput s.layer j = some p ∧ t.heap[p]? = some b ∧
        data[dataIndex s.layer j]? = some b.weight := by
  unfold setInputData at hrun
  cases hl : forLoop (inputDataBody data) (List.range s.layer.inputChannels) (s, 0) with
  | fault =>
    rw [hl] at hrun
    cases hrun
  | threw e u =>
    rw [hl] at hrun
    cases hrun
  | ok acc =>
    rw [hl] at hrun
    have hinv := forLoop_range_partial (inputDataBody data)
      (fun k (u : State F σ × Nat) => u.1.layer = s.layer ∧ u.2 = dataIndex s.layer k ∧
        ∀ j, j < k → s.layer.inputTypes[j]? = some ChannelType.data →
          ∃ p b, getInput s.layer j = some p ∧ u.1.heap[p]? = some b ∧
            data[dataIndex s.layer j]? = some b.weight)
      s.layer.inputChannels (s, 0) ⟨rfl, rfl, fun j hj => absurd hj (Nat.not_lt_zero j)⟩
      (by
        intro k u v hk hu hbody
        obtain ⟨hlay, hcnt, hcells⟩ := hu
        obtain ⟨ty, hty, hcase⟩ := inputDataBody_ok_inv hbody
        rw [hlay] at hty
        rcases hcase with ⟨hne, hv⟩ | ⟨heq, q, sig, storage, hq, hsig, hst, hv⟩
        · subst hv
          refine ⟨hlay, ?_, ?_⟩
          · rw [dataIndex_succ, hty, hcnt]
            simp [hne]
          · intro j hj hjt
            by_cases hjk : j = k
            · subst hjk
              rw [hty] at hjt
              exact absurd (Option.some.inj hjt) hne
            · exact hcells j (by omega) hjt
        · subst hv
          subst heq
          rw [hlay] at hq
          have hqlt : q < u.1.heap.length := getElem?_lt_of_eq_some hsig
          refine ⟨hlay, ?_, ?_⟩
          · show u.2 + 1 = _
            rw [dataIndex_succ, hty, hcnt]
            simp
          · intro j hj hjt
            by_cases hjk : j = k
            · subst hjk
              refine ⟨q, _, hq, List.getElem?_set_self hqlt, ?_⟩
              rw [← hcnt]
              exact hst
            · obtain ⟨p, b, hjp, hb, hbd⟩ := hcells j (by omega) hjt
              have hpq : q ≠ p := fun hh => hjk (getInput_inj hns (hh ▸ hjp) hq)
              refine ⟨p, b, hjp, ?_, hbd⟩
              show (u.1.heap.set q _)[p]? = _
              rw [List.getElem?_set_ne hpq]
              exact hb) acc hl
    obtain ⟨t2, n⟩ := acc
    simp only at hrun
    cases hrun
    exact ⟨hinv.1, hinv.2.2⟩

/-! ## getOutput(out) -/

/-- Counting the entries of a list that satisfy a test, by index. -/
theorem filter_length_by_index {β : Type} (l : List β) (P : β → Bool) :
    (l.filter P).length =
      ((List.range l.length).filter (fun i => (l[i]?.map P).getD false)).length := by
  induction l using List.reverseRecOn with
  | nil => rfl
  | append_singleton l x ih =>
    rw [List.length_append, List.length_singleton, range_succ_filter, List.filter_append,
      List.length_append, List.length_append, ih]
    congr 1
    · congr 1
      apply List.filter_congr
      intro i hi
      rw [List.mem_range] at hi
      rw [List.getElem?_append_left hi]
    · rw [List.getElem?_append_right (Nat.le_refl _)]
      cases hP : P x <;> simp [hP]

theorem getOutput_eq_some_iff (L : NeuralLayer F σ) (i p : Nat) :
    getOutput L i = some p ↔ L.outputs[i]? = some (some p) := by
  unfold getOutput
  cases L.outputs[i]? with
  | none => simp
  | some o => cases o <;> simp

/-- The method `getOutput(out)` on a layer whose output channels are all connected returns
the pointers held by the data slots, in slot order. -/
theorem getOutput_out_spec (s : State F σ) (out : List Nat) (hout : OutputsWired s) :
    ∃ res, getOutput_out s out = .ok res ∧
      res.map some = (dataOutputSlots s.layer).map (getOutput s.layer) := by
  unfold getOutput_out dataOutputSlots
  refine forLoop_range (outputBody s)
    (fun k res => res.map some = ((List.range k).filter
      (fun i => decide (s.layer.outputTypes[i]? = some .data))).map (getOutput s.layer))
    s.layer.outputChannels [] rfl ?_
  intro k res hk hinv
  obtain ⟨p, a, hp, ha, _⟩ := outputReady_unpack (hout.2 k hk)
  have hlt : k < s.layer.outputTypes.length := by rw [hout.1]; exact hk
  have hty : s.layer.outputTypes[k]? = some s.layer.outputTypes[k] :=
    List.getElem?_eq_getElem hlt
  by_cases hdata : s.layer.outputTypes[k] = ChannelType.data
  · refine ⟨res ++ [p], ?_, ?_⟩
    · unfold outputBody
      rw [hty]
      simp only [hdata, if_true, hp, ha]
    · show (res ++ [p]).map some = _
      rw [range_succ_filter, hty, hdata]
      simp [hinv, hp]
  · refine ⟨res, ?_, ?_⟩
    · unfold outputBody
      rw [hty]
      simp only [hdata, if_false]
    · show res.map some = _
      rw [range_succ_filter, hty]
      simp [hinv, hdata]

/-! ## The layer graph -/

/-- The loop of `visitedDependencies` over valid pointers returns whether all the layers
pointed to are visited. -/
theorem visitedLoop_spec (net : List (NeuralLayer F σ)) (l : List Nat)
    (hvalid : ∀ d ∈ l, d < net.length) :
    visitedLoop net l = some (l.all (visitedAt net)) := by
  induction l with
  | nil => rfl
  | cons d rest ih =>
    have hd : d < net.length := hvalid d (List.mem_cons_self d rest)
    have hrest := ih (fun x hx => hvalid x (List.mem_cons_of_mem d hx))
    unfold visitedLoop
    rw [List.all_cons]
    have hvis : visitedAt net d = net[d].visited := by
      unfold visitedAt
      rw [List.getElem?_eq_getElem hd]
    rw [hvis, List.getElem?_eq_getElem hd]
    cases hv : net[d].visited
    · simp [hv]
    · simpa [hv] using hrest

theorem visitedAt_eq_true_iff (net : List (NeuralLayer F σ)) (d : Nat) :
    visitedAt net d = true ↔ ∃ D, net[d]? = some D ∧ D.visited = true := by
  unfold visitedAt
  cases net[d]? with
  | none => simp
  | some layer => simp

/-- What `head.addChild(tail)` does to the store, for two existing layers. -/
theorem addChild_spec (net : List (NeuralLayer F σ)) (head tail : Nat)
    (H T : NeuralLayer F σ) (hH : net[head]? = some H) (hT : net[tail]? = some T) :
    ∃ net2 H2 T2, addChild net head tail = some net2 ∧ net2.length = net.length ∧
      net2[head]? = some H2 ∧ net2[tail]? = some T2 ∧
      H2.children = H.children ++ [tail] ∧ H2.visited = H.visited ∧
      T2.dependencies = T.dependencies ++ [head] ∧ T2.visited = T.visited := by
  have hhl : head < net.length := getElem?_lt_of_eq_some hH
  have htl : tail < net.length := getElem?_lt_of_eq_some hT
  by_cases hht : head = tail
  · subst hht
    have hTH : T = H := Option.some.inj (hT.symm.trans hH)
    subst hTH
    have h1 : (net.set head { T with children := T.children ++ [head] })[head]? =
        some { T with children := T.children ++ [head] } := List.getElem?_set_self hhl
    refine ⟨(net.set head { T with children := T.children ++ [head] }).set head
      { T with
        children := T.children ++ [head]
        dependencies := T.dependencies ++ [head] }, { T with
        children := T.children ++ [head]
        dependencies := T.dependencies ++ [head] }, { T with
        children := T.children ++ [head]
        dependencies := T.dependencies ++ [head] }, ?_, ?_, ?_, ?_, rfl, rfl, rfl, rfl⟩
    · unfold addChild
      rw [hH]
      simp only
      rw [h1]
    · simp
    · exact List.getElem?_set_self (by simpa using hhl)
    · exact List.getElem?_set_self (by simpa using hhl)
  · have h1 : (net.set head { H with children := H.children ++ [tail] })[tail]? =
        some T := by
      rw [List.getElem?_set_ne hht]
      exact hT
    refine ⟨(net.set head { H with children := H.children ++ [tail] }).set tail
      { T with dependencies := T.dependencies ++ [head] },
      { H with children := H.children ++ [tail] },
      { T with dependencies := T.dependencies ++ [head] }, ?_, ?_, ?_, ?_,
      rfl, rfl, rfl, rfl⟩
    · unfold addChild
      rw [hH]
      simp only
      rw [h1]
    · simp
    · rw [List.getElem?_set_ne (fun hh => hht hh.symm)]
      exact List.getElem?_set_self hhl
    · exact List.getElem?_set_self (by simpa using htl)

/-! ## hasSameWeights -/

section compare

variable [Sub F] [LT F] [DecidableRel (fun x y : F => x < y)]

/-- The inner loop of `hasSameWeights` over in-range indices returns, and returns true
exactly when no visited pair of elements differs by more than `eps`. -/
theorem sameElements_spec (fabs : F → F) (eps : F) (a b : Storage F) (l : List Nat)
    (h : ∀ j ∈ l, j < a.length ∧ j < b.length) :
    ∃ r, sameElements fabs eps a b l = some r ∧
      (r = true ↔ ∀ j ∈ l, ∀ x y, a[j]? = some x → b[j]? = some y →
        ¬ eps < fabs (x - y)) := by
  induction l with
  | nil => exact ⟨true, rfl, by simp⟩
  | cons j rest ih =>
    obtain ⟨hja, hjb⟩ := h j (List.mem_cons_self j rest)
    obtain ⟨r, hr, hiff⟩ := ih (fun k hk => h k (List.mem_cons_of_mem j hk))
    have ha : a[j]? = some a[j] := List.getElem?_eq_getElem hja
    have hb : b[j]? = some b[j] := List.getElem?_eq_getElem hjb
    by_cases hgt : eps < fabs (a[j] - b[j])
    · refine ⟨false, ?_, ?_⟩
      · unfold sameElements
        rw [ha, hb]
        simp only [hgt, if_true]
      · constructor
        · intro hf
          cases hf
        · intro hall
          exact absurd hgt (hall j (List.mem_cons_self j rest) _ _ ha hb)
    · refine ⟨r, ?_, ?_⟩
      · unfold sameElements
        rw [ha, hb]
        simp only [hgt, if_false]
        exact hr
      · rw [hiff]
        constructor
        · intro hall k hk x y hx hy
          rcases List.mem_cons.1 hk with hkj | hkr
          · subst hkj
            rw [ha] at hx
            rw [hb] at hy
            rw [← Option.some.inj hx, ← Option.some.inj hy]
            exact hgt
          · exact hall k hkr x y hx hy
        · intro hall k hk
          exact hall k (List.mem_cons_of_mem j hk)

/-- The outer loop of `hasSameWeights` over in-range slots holding buffers returns, and
returns true exactly when every visited pair of buffers has equal sizes and no pair of
elements differing by more than `eps`. -/
theorem sameBuffers_spec (fabs : F → F) (eps : F) (w1 w2 : List (Storage F)) (l : List Nat)
    (h : ∀ i ∈ l, i < w1.length ∧ i < w2.length) :
    ∃ r, sameBuffers fabs eps (w1.map some) (w2.map some) l = some r ∧
      (r = true ↔ ∀ i ∈ l, ∀ a b, w1[i]? = some a → w2[i]? = some b →
        a.length = b.length ∧
          ∀ (j : Nat) (x y : F), a[j]? = some x → b[j]? = some y →
            ¬ eps < fabs (x - y)) := by
  induction l with
  | nil => exact ⟨true, rfl, by simp⟩
  | cons i rest ih =>
    obtain ⟨hi1, hi2⟩ := h i (List.mem_cons_self i rest)
    obtain ⟨r, hr, hiff⟩ := ih (fun k hk => h k (List.mem_cons_of_mem i hk))
    have h1 : w1[i]? = some w1[i] := List.getElem?_eq_getElem hi1
    have h2 : w2[i]? = some w2[i] := List.getElem?_eq_getElem hi2
    have hm1 : (w1.map some)[i]? = some (some w1[i]) := by
      rw [List.getElem?_map, h1]
      rfl
    have hm2 : (w2.map some)[i]? = some (some w2[i]) := by
      rw [List.getElem?_map, h2]
      rfl
    by_cases hlen : w1[i].length = w2[i].length
    · obtain ⟨r1, hr1, hiff1⟩ := sameElements_spec fabs eps w1[i] w2[i]
        (List.range w1[i].length) (fun j hj => by
          rw [List.mem_range] at hj
          exact ⟨hj, by rw [← hlen]; exact hj⟩)
      have hinner : r1 = true ↔ ∀ (j : Nat) (x y : F), w1[i][j]? = some x →
          w2[i][j]? = some y → ¬ eps < fabs (x - y) := by
        rw [hiff1]
        constructor
        · intro hall j x y hx hy
          exact hall j (List.mem_range.2 (getElem?_lt_of_eq_some hx)) x y hx hy
        · intro hall j _ x y hx hy
          exact hall j x y hx hy
      cases r1 with
      | false =>
        refine ⟨false, ?_, ?_⟩
        · unfold sameBuffers
          rw [hm1, hm2]
          dsimp only
          rw [if_neg (not_not.2 hlen), hr1]
        · constructor
          · intro hf
            cases hf
          · intro hall
            have := (hall i (List.mem_cons_self i rest) _ _ h1 h2).2
            exact (hinner.2 this)
      | true =>
        refine ⟨r, ?_, ?_⟩
        · unfold sameBuffers
          rw [hm1, hm2]
          dsimp only
          rw [if_neg (not_not.2 hlen), hr1]
          exact hr
        · rw [hiff]
          constructor
          · intro hall k hk a b hka hkb
            rcases List.mem_cons.1 hk with hki | hkr
            · subst hki
              rw [h1] at hka
              rw [h2] at hkb
              rw [← Option.some.inj hka, ← Option.some.inj hkb]
              exact ⟨hlen, hinner.1 rfl⟩
            · exact hall k hkr a b hka hkb
          · intro hall k hk
            exact hall k (List.mem_cons_of_mem i hk)
    · refine ⟨false, ?_, ?_⟩
      · unfold sameBuffers
        rw [hm1, hm2]
        simp only [ne_eq, hlen, not_false_eq_true, if_true]
      · constructor
        · intro hf
          cases hf
        · intro hall
          exact absurd (hall i (List.mem_cons_self i rest) _ _ h1 h2).1 hlen

end compare

/-- What slot `k` of a connected layer adds to `paramBuffers`. -/
theorem paramBuffers_slot (s : State F σ) (hin : InputsWired s) (k : Nat)
    (hk : k < s.layer.inputChannels) :
    ∃ ty p sig w rest, s.layer.inputTypes[k]? = some ty ∧ getInput s.layer k = some p ∧
      s.heap[p]? = some sig ∧ sig.weight = w :: rest ∧
      (match s.layer.inputTypes[k]? with
        | some ty => if is_trainable_weight ty then getInputWeights s k else none
        | none => none) = (if is_trainable_weight ty then some w else none) := by
  obtain ⟨p, sig, w, rest, g, grest, hp, hs, hw, _⟩ := inputReady_unpack (hin.2 k hk)
  have hlt : k < s.layer.inputTypes.length := by rw [hin.1]; exact hk
  have hty : s.layer.inputTypes[k]? = some s.layer.inputTypes[k] :=
    List.getElem?_eq_getElem hlt
  refine ⟨s.layer.inputTypes[k], p, sig, w, rest, hty, hp, hs, hw, ?_⟩
  rw [hty]
  have hgw : getInputWeights s k = some w := by
    unfold getInputWeights
    rw [hp]
    simp only [hs, hw, List.head?_cons]
  simp only [hgw]

/-- The method `getInputWeights()` on a layer whose inputs are all connected returns
pointers to the parameter buffers, none of them dangling. -/
theorem getInputWeights_vec_spec (s : State F σ) (hin : InputsWired s) :
    getInputWeights_vec s = .ok ((paramBuffers s).map some) := by
  unfold getInputWeights_vec paramBuffers
  obtain ⟨v, hv, hinv⟩ := forLoop_range (weightsBody s)
    (fun k v => v = ((List.range k).filterMap (fun i =>
      match s.layer.inputTypes[i]? with
      | some ty => if is_trainable_weight ty then getInputWeights s i else none
      | none => none)).map some)
    s.layer.inputChannels [] rfl (by
      intro k v hk hinv
      obtain ⟨ty, p, sig, w, rest, hty, hp, hs, hw, hslot⟩ := paramBuffers_slot s hin k hk
      cases htw : is_trainable_weight ty
      · refine ⟨v, ?_, ?_⟩
        · unfold weightsBody
          rw [hty]
          simp only [htw, Bool.false_eq_true, if_false]
        · show v = _
          rw [range_succ_filterMap, hslot, htw]
          simpa using hinv
      · refine ⟨v ++ [some w], ?_, ?_⟩
        · unfold weightsBody
          rw [hty]
          simp only [htw, if_true, hp, hs, hw, List.head?_cons]
        · show v ++ [some w] = _
          rw [range_succ_filterMap, hslot, htw]
          simp [hinv])
  rw [hv, hinv]

/-- A connected layer has one parameter buffer per input channel of kind weight or bias. -/
theorem paramBuffers_length (s : State F σ) (hin : InputsWired s) :
    (paramBuffers s).length = (s.layer.inputTypes.filter is_trainable_weight).length := by
  rw [filter_length_by_index, hin.1]
  unfold paramBuffers
  have hgen : ∀ k, k ≤ s.layer.inputChannels →
      ((List.range k).filterMap (fun i =>
        match s.layer.inputTypes[i]? with
        | some ty => if is_trainable_weight ty then getInputWeights s i else none
        | none => none)).length =
      ((List.range k).filter (fun i =>
        (s.layer.inputTypes[i]?.map is_trainable_weight).getD false)).length := by
    intro k
    induction k with
    | zero => intro _; rfl
    | succ k ih =>
      intro hk
      obtain ⟨ty, p, sig, w, rest, hty, hp, hs, hw, hslot⟩ :=
        paramBuffers_slot s hin k (by omega)
      rw [range_succ_filterMap, range_succ_filter, List.length_append, List.length_append,
        ih (by omega), hslot, hty]
      cases htw : is_trainable_weight ty <;> simp [htw]
  exact hgen _ (Nat.le_refl _)

/-! ## DeconvolutionLayer -/

/-- A row copy inside both vectors returns; the result has the length of `dst`, holds the
copied elements of `src` at the `n` positions from `dst_at`, and those of `dst` elsewhere. -/
theorem copyRow_spec (src dst : Storage F) (src_at dst_at n : Nat)
    (hsrc : src_at + n ≤ src.length) (hdst : dst_at + n ≤ dst.length) :
    ∃ r, copyRow src dst src_at dst_at n = .ok r ∧ r.length = dst.length ∧
      ∀ i, r[i]? = if dst_at ≤ i ∧ i < dst_at + n then src[src_at + (i - dst_at)]?
        else dst[i]? := by
  by_cases hn : n = 0
  · refine ⟨dst, ?_, rfl, ?_⟩
    · unfold copyRow
      rw [if_pos hn]
    · intro i
      rw [if_neg (by omega)]
  · refine ⟨dst.take dst_at ++ ((src.drop src_at).take n ++ dst.drop (dst_at + n)), ?_, ?_, ?_⟩
    · unfold copyRow
      rw [if_neg hn, if_pos ⟨hsrc, hdst⟩]
    · simp only [List.length_append, List.length_take, List.length_drop]
      omega
    · intro i
      have hl1 : (dst.take dst_at).length = dst_at := by
        rw [List.length_take]
        omega
      have hl2 : ((src.drop src_at).take n).length = n := by
        rw [List.length_take, List.length_drop]
        omega
      by_cases h1 : i < dst_at
      · rw [if_neg (by omega), List.getElem?_append_left (by omega),
          List.getElem?_take_of_lt h1]
      · by_cases h2 : i < dst_at + n
        · rw [if_pos ⟨by omega, h2⟩, List.getElem?_append_right (by omega), hl1,
            List.getElem?_append_left (by omega),
            List.getElem?_take_of_lt (by omega), List.getElem?_drop]
        · rw [if_neg (by omega), List.getElem?_append_right (by omega), hl1,
            List.getElem?_append_right (by omega), hl2, List.getElem?_drop]
          congr 1
          omega

theorem row_source_in_range (ow oh uw uh wh hh c k depth : Nat) (h1 : wh + uw ≤ ow)
    (h2 : hh + uh ≤ oh) (hk : k < uh) (hc : c < depth) :
    (oh * c + hh) * ow + wh + k * ow + uw ≤ ow * oh * depth := by
  have hb : oh * c + hh + k + 1 ≤ oh * (c + 1) := by
    rw [Nat.mul_succ]
    omega
  have hd : oh * (c + 1) ≤ oh * depth := Nat.mul_le_mul_left _ hc
  have he : (oh * c + hh + k + 1) * ow ≤ (oh * depth) * ow :=
    Nat.mul_le_mul_right _ (hb.trans hd)
  have hf : (oh * c + hh + k + 1) * ow = (oh * c + hh) * ow + k * ow + ow := by ring
  have hg : oh * depth * ow = ow * oh * depth := by ring
  omega

theorem row_target_in_range (uw uh c k depth : Nat) (hk : k < uh) (hc : c < depth) :
    (uh * c + 0) * uw + 0 + k * uw + uw ≤ uw * uh * depth := by
  have h := row_source_in_range uw uh uw uh 0 0 c k depth (by omega) (by omega) hk hc
  simpa using h

/-- Row `(c, k)` of the crop: the copy stays inside both vectors and extends the rows done
by one. -/
theorem unpadRow_step (P : deconv_params) (src : Storage F) (hgeom : UnpadGeometry P)
    (hsrc : src.length = P.out.size) (c k : Nat) (hc : c < P.out_unpadded.depth_)
    (hk : k < P.out_unpadded.height_) (dst : Storage F)
    (hinv : UnpadInv P src (P.out_unpadded.height_ * c + k) dst) :
    ∃ dst2, unpadRowBody P src c k dst = .ok dst2 ∧
      UnpadInv P src (P.out_unpadded.height_ * c + k + 1) dst2 := by
  obtain ⟨hg1, hg2, hg3⟩ := hgeom
  obtain ⟨hlen, hrows⟩ := hinv
  have hin1 := row_source_in_range P.out.width_ P.out.height_ P.out_unpadded.width_
    P.out_unpadded.height_ (P.weight.width_ / 2) (P.weight.height_ / 2) c k P.out.depth_
    hg1 hg2 hk (by omega)
  have hin2 := row_target_in_range P.out_unpadded.width_ P.out_unpadded.height_ c k
    P.out_unpadded.depth_ hk hc
  obtain ⟨r, hr, hrlen, hrget⟩ := copyRow_spec src dst
    (P.out.get_index (P.weight.width_ / 2) (P.weight.height_ / 2) c + k * P.out.width_)
    (P.out_unpadded.get_index 0 0 c + k * P.out_unpadded.width_) P.out_unpadded.width_
    (by rw [hsrc]; exact hin1) (by rw [hlen]; exact hin2)
  refine ⟨r, hr, hrlen.trans hlen, ?_⟩
  intro c2 y2 x hy2 hx hlt
  rw [hrget]
  have hat : P.out_unpadded.get_index 0 0 c + k * P.out_unpadded.width_ =
      (P.out_unpadded.height_ * c + k) * P.out_unpadded.width_ := by
    unfold shape3d.get_index
    ring
  have hidx : P.out_unpadded.get_index x y2 c2 =
      (P.out_unpadded.height_ * c2 + y2) * P.out_unpadded.width_ + x := rfl
  by_cases hold : P.out_unpadded.height_ * c2 + y2 < P.out_unpadded.height_ * c + k
  · have hmul : (P.out_unpadded.height_ * c2 + y2 + 1) * P.out_unpadded.width_ ≤
        (P.out_unpadded.height_ * c + k) * P.out_unpadded.width_ :=
      Nat.mul_le_mul_right _ hold
    rw [Nat.add_mul, Nat.one_mul] at hmul
    rw [if_neg (by rw [hat, hidx]; omega)]
    exact hrows c2 y2 x hy2 hx hold
  · have hrow : P.out_unpadded.height_ * c2 + y2 = P.out_unpadded.height_ * c + k := by
      omega
    have hcc : c2 = c := by
      rcases Nat.lt_trichotomy c2 c with hlt2 | heq | hgt2
      · have hm : P.out_unpadded.height_ * (c2 + 1) ≤ P.out_unpadded.height_ * c :=
          Nat.mul_le_mul_left _ hlt2
        rw [Nat.mul_succ] at hm
        omega
      · exact heq
      · have hm : P.out_unpadded.height_ * (c + 1) ≤ P.out_unpadded.height_ * c2 :=
          Nat.mul_le_mul_left _ hgt2
        rw [Nat.mul_succ] at hm
        omega
    subst hcc
    have hyk : y2 = k := by omega
    subst hyk
    rw [if_pos (by rw [hat, hidx]; omega)]
    congr 1
    rw [hat, hidx]
    unfold shape3d.get_index
    have hsub : (P.out_unpadded.height_ * c2 + y2) * P.out_unpadded.width_ + x -
        (P.out_unpadded.height_ * c2 + y2) * P.out_unpadded.width_ = x := by omega
    rw [hsub]
    ring

/-- The loop over the rows of channel `c` returns and extends the rows done by a whole
channel. -/
theorem unpadChannel_step (P : deconv_params) (src : Storage F) (hgeom : UnpadGeometry P)
    (hsrc : src.length = P.out.size) (c : Nat) (hc : c < P.out_unpadded.depth_)
    (dst : Storage F) (hinv : UnpadInv P src (P.out_unpadded.height_ * c) dst) :
    ∃ dst2, unpadChannelBody P src c dst = .ok dst2 ∧
      UnpadInv P src (P.out_unpadded.height_ * (c + 1)) dst2 := by
  unfold unpadChannelBody
  rw [Nat.mul_succ]
  exact forLoop_range (unpadRowBody P src c)
    (fun k d => UnpadInv P src (P.out_unpadded.height_ * c + k) d)
    P.out_unpadded.height_ dst hinv
    (fun k d hk hd => unpadRow_step P src hgeom hsrc c k hc hk d hd)

/-- The loops over the channels and rows of one sample return the cropped sample. -/
theorem unpadSample_spec (P : deconv_params) (src : Storage F) (hgeom : UnpadGeometry P)
    (hsrc : src.length = P.out.size) (dst : Storage F)
    (hdst : dst.length = P.out_unpadded.size) :
    ∃ dst2, forLoop (unpadChannelBody P src) (List.range P.out_unpadded.depth_) dst =
        .ok dst2 ∧
      UnpadInv P src (P.out_unpadded.height_ * P.out_unpadded.depth_) dst2 :=
  forLoop_range (unpadChannelBody P src)
    (fun c d => UnpadInv P src (P.out_unpadded.height_ * c) d)
    P.out_unpadded.depth_ dst
    ⟨hdst, fun c y x _ _ hlt => absurd hlt (by omega)⟩
    (fun c d hc hd => unpadChannel_step P src hgeom hsrc c hc d hd)

/-- The crop for `same` padding: one cropped sample per sample of `out`. -/
theorem unpad_spec [Zero F] (P : deconv_params) (out : Tensor F) (hgeom : UnpadGeometry P)
    (hpad : P.pad_type = padding.same) (hout : ∀ src ∈ out, src.length = P.out.size) :
    ∃ buf, copy_and_unpad_output P out = .ok buf ∧ buf.length = out.length ∧
      ∀ (s : Nat) (src : Storage F), out[s]? = some src →
        ∃ dst, buf[s]? = some dst ∧
          UnpadInv P src (P.out_unpadded.height_ * P.out_unpadded.depth_) dst := by
  unfold copy_and_unpad_output
  rw [if_neg (by rw [hpad]; decide)]
  obtain ⟨buf, hbuf, hlen, hdone, _⟩ := forLoop_range (unpadSampleBody P out)
    (fun k (buf : Tensor F) => buf.length = out.length ∧
      (∀ (s : Nat) (src : Storage F), s < k → out[s]? = some src →
        ∃ dst, buf[s]? = some dst ∧
          UnpadInv P src (P.out_unpadded.height_ * P.out_unpadded.depth_) dst) ∧
      (∀ s, k ≤ s → s < out.length →
        buf[s]? = some (List.replicate P.out_unpadded.size (0 : F))))
    out.length (List.replicate out.length (List.replicate P.out_unpadded.size 0))
    ⟨List.length_replicate _ _, fun s src hs => absurd hs (Nat.not_lt_zero s),
      fun s _ hs => by rw [List.getElem?_replicate, if_pos hs]⟩ (by
      intro k buf hk hinv
      obtain ⟨hlen, hdone, htodo⟩ := hinv
      have hsrc : out[k]? = some out[k] := List.getElem?_eq_getElem hk
      have hdst := htodo k (Nat.le_refl k) hk
      obtain ⟨dst2, hrun, hinv2⟩ := unpadSample_spec P out[k] hgeom
        (hout _ (List.getElem_mem hk)) (List.replicate P.out_unpadded.size (0 : F))
        (List.length_replicate _ _)
      refine ⟨buf.set k dst2, ?_, ?_, ?_, ?_⟩
      · unfold unpadSampleBody
        rw [hsrc, hdst]
        simp only [hrun]
      · rw [List.length_set]
        exact hlen
      · intro s src hs hsome
        by_cases hsk : s = k
        · subst hsk
          have hsrc2 : src = out[s] := Option.some.inj (hsome.symm.trans hsrc)
          subst hsrc2
          exact ⟨dst2, List.getElem?_set_self (by rw [hlen]; exact hk), hinv2⟩
        · obtain ⟨dst, hd, hdinv⟩ := hdone s src (by omega) hsome
          refine ⟨dst, ?_, hdinv⟩
          rw [List.getElem?_set_ne (fun hh => hsk hh.symm)]
          exact hd
      · intro s hks hs
        rw [List.getElem?_set_ne (by omega)]
        exact htodo s (by omega) hs)
  refine ⟨buf, hbuf, hlen, ?_⟩
  intro s src hsome
  exact hdone s src (getElem?_lt_of_eq_some hsome) hsome

/-! ## AveragePoolFilter -/

/-- A loop that appends `g j` to a log in iteration `j`, each iteration returning. -/
theorem forLoop_append_log {ε : Type} (body : Nat → List ε → Outcome (List ε))
    (g : Nat → List ε) (n : Nat) (log : List ε)
    (h : ∀ j l, j < n → body j l = .ok (l ++ g j)) :
    forLoop body (List.range n) log = .ok (log ++ (List.range n).flatMap g) := by
  obtain ⟨t, ht, hinv⟩ := forLoop_range body
    (fun k l => l = log ++ (List.range k).flatMap g) n log (by simp) (by
      intro j l hj hl
      refine ⟨l ++ g j, h j l hj, ?_⟩
      show l ++ g j = log ++ (List.range (j + 1)).flatMap g
      rw [range_succ_flatMap, hl, List.append_assoc])
  rw [ht, hinv]

theorem pool_index_lt {w ks i ii : Nat} (hi : i < w / ks) (hii : ii < ks) :
    i * ks + ii < w := by
  have h1 : (i + 1) * ks ≤ (w / ks) * ks := Nat.mul_le_mul_right _ hi
  have h2 : (w / ks) * ks ≤ w := Nat.div_mul_le_self w ks
  rw [Nat.add_mul, Nat.one_mul] at h1
  omega

/-- The two loops over the window of output neuron `(i, j)` return and make the calls of
`windowEvents`. -/
theorem poolWindow_spec (L : GridLayer) (ks i j : Nat) (sig : PoolSignal)
    (hi : i < L.width / ks) (hj : j < L.height / ks) (log : List PoolEvent) :
    forLoop (poolWindowBody L ks i j sig) (List.range ks) log =
      .ok (log ++ windowEvents L ks i j sig) := by
  unfold windowEvents
  refine forLoop_append_log _ _ ks log ?_
  intro jj l hjj
  unfold poolWindowBody
  have hmap : (List.range ks).map (fun ii =>
      PoolEvent.addOutput L.ref (i * ks + ii) (j * ks + jj) sig) =
      (List.range ks).flatMap (fun ii =>
        [PoolEvent.addOutput L.ref (i * ks + ii) (j * ks + jj) sig]) := by
    induction (List.range ks) with
    | nil => rfl
    | cons a rest ih => simp [List.flatMap_cons, ih]
  rw [hmap]
  refine forLoop_append_log _ _ ks l ?_
  intro ii l2 hii
  unfold poolSourceBody
  rw [if_pos ⟨pool_index_lt hi hii, pool_index_lt hj hjj⟩]

theorem poolCell_spec (L : GridLayer) (ks k j i : Nat) (hi : i < L.width / ks)
    (hj : j < L.height / ks) (log : List PoolEvent) :
    poolCellBody L ⟨.created k, L.width / ks, L.height / ks⟩ ks k j i log =
      .ok (log ++ cellEvents L ks k j i) := by
  unfold poolCellBody
  rw [if_pos ⟨hi, hj⟩, poolWindow_spec L ks i j ⟨k, i, j⟩ hi hj]
  unfold cellEvents
  rw [List.append_assoc]

/-- The loops over the rows and cells of the output layer of iteration `k` return and make
the calls of `rowEvents`, row by row. -/
theorem poolRows_spec (L : GridLayer) (ks k : Nat) (log : List PoolEvent) :
    forLoop (poolRowBody L ⟨.created k, L.width / ks, L.height / ks⟩ ks k)
        (List.range (L.height / ks)) log =
      .ok (log ++ (List.range (L.height / ks)).flatMap (rowEvents L ks k)) := by
  refine forLoop_append_log _ _ _ log ?_
  intro j l hj
  unfold poolRowBody rowEvents
  refine forLoop_append_log _ _ _ l ?_
  intro i l2 hi
  exact poolCell_spec L ks k j i hi hj l2

/-- The method `initialize` on a filter with a positive kernel size returns; it has made the
calls of `expectedCalls` and holds one new output layer per input layer. -/
theorem initialize_spec (f : AveragePoolFilter) (hks : 1 ≤ f.kernelSize) :
    ∃ g, f.initialize = .ok (g, expectedCalls f) ∧ g.inputLayers = f.inputLayers ∧
      g.kernelSize = f.kernelSize ∧ g.outputLayers.length = f.inputLayers.length ∧
      ∀ (k : Nat) (L : GridLayer), f.inputLayers[k]? = some L →
        g.outputLayers[k]? =
          some (some ⟨.created k, L.width / f.kernelSize, L.height / f.kernelSize⟩) := by
  unfold AveragePoolFilter.initialize expectedCalls
  obtain ⟨acc, hacc, hin, hk, hlen, hlog, hlayers⟩ := forLoop_range poolLayerBody
    (fun k (acc : AveragePoolFilter × List PoolEvent) =>
      acc.1.inputLayers = f.inputLayers ∧ acc.1.kernelSize = f.kernelSize ∧
      acc.1.outputLayers.length = f.inputLayers.length ∧
      acc.2 = (List.range k).flatMap (fun k2 =>
        match f.inputLayers[k2]? with
        | some inputLayer => layerEvents inputLayer f.kernelSize k2
        | none => []) ∧
      ∀ (k2 : Nat) (L : GridLayer), k2 < k → f.inputLayers[k2]? = some L →
        acc.1.outputLayers[k2]? =
          some (some ⟨.created k2, L.width / f.kernelSize, L.height / f.kernelSize⟩))
    f.inputLayers.length
    ({ f with
      outputLayers := f.outputLayers.take f.inputLayers.length ++
        List.replicate (f.inputLayers.length - f.outputLayers.length) none }, [])
    (by
      refine ⟨rfl, rfl, ?_, rfl, fun k2 L hk2 => absurd hk2 (Nat.not_lt_zero k2)⟩
      simp only [List.length_append, List.length_take, List.length_replicate]
      omega)
    (by
      intro k acc hk hinv
      obtain ⟨hin, hks2, hlen, hlog, hlayers⟩ := hinv
      have hL : f.inputLayers[k]? = some f.inputLayers[k] := List.getElem?_eq_getElem hk
      refine ⟨({ acc.1 with
        outputLayers := acc.1.outputLayers.set k
          (some ⟨.created k, f.inputLayers[k].width / f.kernelSize,
            f.inputLayers[k].height / f.kernelSize⟩) },
        acc.2 ++ layerEvents f.inputLayers[k] f.kernelSize k), ?_, hin, hks2, ?_, ?_, ?_⟩
      · unfold poolLayerBody
        rw [hin, hL, hks2]
        simp only
        rw [if_neg (by omega), poolRows_spec]
        unfold layerEvents
        rw [List.append_assoc]
      · show (acc.1.outputLayers.set k _).length = _
        rw [List.length_set]
        exact hlen
      · show acc.2 ++ _ = _
        rw [range_succ_flatMap, hL, hlog]
      · intro k2 L hk2 hL2
        show (acc.1.outputLayers.set k _)[k2]? = _
        by_cases hkk : k2 = k
        · subst hkk
          rw [List.getElem?_set_self (by rw [hlen]; exact hk)]
          rw [hL] at hL2
          rw [← Option.some.inj hL2]
        · rw [List.getElem?_set_ne (fun hh => hkk hh.symm)]
          exact hlayers k2 L (by omega) hL2)
  refine ⟨acc.1, ?_, hin, hk, hlen, ?_⟩
  · rw [hacc, ← hlog]
  · intro k L hL
    exact hlayers k L (getElem?_lt_of_eq_some hL) hL

/-- Filtering the concatenation of `n` blocks when only block `j0` can pass the test. -/
theorem filter_flatMap_range_single {β : Type} (p : β → Bool) (g : Nat → List β)
    (n j0 : Nat) (hj0 : j0 < n)
    (h : ∀ j, j < n → j ≠ j0 → ∀ e ∈ g j, p e = false) :
    ((List.range n).flatMap g).filter p = (g j0).filter p := by
  induction n with
  | zero => exact absurd hj0 (Nat.not_lt_zero j0)
  | succ n ih =>
    rw [range_succ_flatMap, List.filter_append]
    by_cases hlast : j0 = n
    · subst hlast
      have hnil : ((List.range j0).flatMap g).filter p = [] := by
        rw [List.filter_eq_nil_iff]
        intro e he
        rw [List.mem_flatMap] at he
        obtain ⟨j, hj, hej⟩ := he
        rw [List.mem_range] at hj
        rw [h j (by omega) (by omega) e hej]
        exact Bool.false_ne_true
      rw [hnil, List.nil_append]
    · have hnil : (g n).filter p = [] := by
        rw [List.filter_eq_nil_iff]
        intro e he
        rw [h n (by omega) (fun hh => hlast hh.symm) e he]
        exact Bool.false_ne_true
      rw [hnil, List.append_nil]
      exact ih (by omega) (fun j hj hne e he => h j (by omega) hne e he)

theorem pool_div {ks i ii : Nat} (hii : ii < ks) : (i * ks + ii) / ks = i := by
  rw [Nat.add_comm, Nat.add_mul_div_right _ _ (by omega), Nat.div_eq_of_lt hii, Nat.zero_add]

theorem pool_mod {ks i ii : Nat} (hii : ii < ks) : (i * ks + ii) % ks = ii := by
  rw [Nat.add_comm, Nat.add_mul_mod_self_right, Nat.mod_eq_of_lt hii]

theorem mem_windowEvents {L : GridLayer} {ks i j : Nat} {sig : PoolSignal} {e : PoolEvent}
    (he : e ∈ windowEvents L ks i j sig) :
    ∃ jj ii, jj < ks ∧ ii < ks ∧
      e = PoolEvent.addOutput L.ref (i * ks + ii) (j * ks + jj) sig := by
  unfold windowEvents at he
  rw [List.mem_flatMap] at he
  obtain ⟨jj, hjj, he2⟩ := he
  rw [List.mem_map] at he2
  obtain ⟨ii, hii, he3⟩ := he2
  exact ⟨jj, ii, List.mem_range.1 hjj, List.mem_range.1 hii, he3.symm⟩

theorem mem_cellEvents {L : GridLayer} {ks k j i : Nat} {e : PoolEvent}
    (he : e ∈ cellEvents L ks k j i) :
    e = PoolEvent.addInput (.created k) i j ⟨k, i, j⟩ ∨ e = PoolEvent.addSignal ⟨k, i, j⟩ ∨
      ∃ jj ii, jj < ks ∧ ii < ks ∧
        e = PoolEvent.addOutput L.ref (i * ks + ii) (j * ks + jj) ⟨k, i, j⟩ := by
  unfold cellEvents at he
  rw [List.mem_append] at he
  rcases he with he | he
  · simp only [List.mem_cons, List.mem_singleton, List.not_mem_nil, or_false] at he
    rcases he with he | he
    · exact Or.inl he
    · exact Or.inr (Or.inl he)
  · exact Or.inr (Or.inr (mem_windowEvents he))

/-- Filtering the calls of `initialize` with a test that only events of the cell
`(k, j, i)` can pass leaves the filtered calls of that cell. -/
theorem filter_expectedCalls_cell (f : AveragePoolFilter) (p : PoolEvent → Bool)
    (k j i : Nat) (L : GridLayer) (hL : f.inputLayers[k]? = some L)
    (hj : j < L.height / f.kernelSize) (hi : i < L.width / f.kernelSize)
    (hc : ∀ k2 w h, p (PoolEvent.construct k2 w h) = false)
    (hb : ∀ k2, p (PoolEvent.addBiasSignals k2) = false)
    (hother : ∀ k2 L2 j2 i2, f.inputLayers[k2]? = some L2 → ¬ (k2 = k ∧ j2 = j ∧ i2 = i) →
      ∀ e ∈ cellEvents L2 f.kernelSize k2 j2 i2, p e = false) :
    (expectedCalls f).filter p = (cellEvents L f.kernelSize k j i).filter p := by
  have hlayer : ∀ k2 L2, f.inputLayers[k2]? = some L2 → k2 ≠ k →
      ∀ e ∈ layerEvents L2 f.kernelSize k2, p e = false := by
    intro k2 L2 hL2 hne e he
    unfold layerEvents at he
    rw [List.mem_append] at he
    rcases he with he | he
    · simp only [List.mem_cons, List.mem_singleton, List.not_mem_nil, or_false] at he
      rcases he with he | he
      · rw [he]
        exact hc _ _ _
      · rw [he]
        exact hb _
    · rw [List.mem_flatMap] at he
      obtain ⟨j2, _, he2⟩ := he
      unfold rowEvents at he2
      rw [List.mem_flatMap] at he2
      obtain ⟨i2, _, he3⟩ := he2
      exact hother k2 L2 j2 i2 hL2 (fun hh => hne hh.1) e he3
  unfold expectedCalls
  rw [filter_flatMap_range_single p _ _ k (getElem?_lt_of_eq_some hL) (by
    intro k2 _ hne e he
    cases hL2 : f.inputLayers[k2]? with
    | none =>
      rw [hL2] at he
      simp at he
    | some L2 =>
      rw [hL2] at he
      exact hlayer k2 L2 hL2 hne e he)]
  rw [hL]
  simp only
  unfold layerEvents
  rw [List.filter_append]
  have hhead : [PoolEvent.construct k (L.width / f.kernelSize) (L.height / f.kernelSize),
      PoolEvent.addBiasSignals k].filter p = [] := by
    simp [List.filter_cons, hc, hb]
  rw [hhead, List.nil_append]
  rw [filter_flatMap_range_single p _ _ j hj (by
    intro j2 _ hne e he
    unfold rowEvents at he
    rw [List.mem_flatMap] at he
    obtain ⟨i2, _, he3⟩ := he
    exact hother k L j2 i2 hL (fun hh => hne hh.2.1) e he3)]
  unfold rowEvents
  exact filter_flatMap_range_single p _ _ i hi (by
    intro i2 _ hne e he
    exact hother k L j i2 hL (fun hh => hne hh.2.2) e he)

theorem map_range_eq_flatMap {β : Type} (g : Nat → β) (l : List Nat) :
    l.map g = l.flatMap (fun a => [g a]) := by
  induction l with
  | nil => rfl
  | cons a rest ih => simp [List.flatMap_cons, ih]

/-- The constructor's loop on a positive kernel size returns whether every layer has a
width and a height divisible by the kernel size. -/
theorem checkLayers_spec {ks : Nat} (hks : 1 ≤ ks) (l : List GridLayer) :
    (checkLayers ks l = some true ↔ ∀ L ∈ l, L.width % ks = 0 ∧ L.height % ks = 0) ∧
    (checkLayers ks l = some true ∨ checkLayers ks l = some false) := by
  induction l with
  | nil => exact ⟨by simp [checkLayers], Or.inl rfl⟩
  | cons L rest ih =>
    unfold checkLayers
    rw [if_neg (by omega)]
    by_cases hdiv : L.width % ks ≠ 0 ∨ L.height % ks ≠ 0
    · rw [if_pos hdiv]
      refine ⟨?_, Or.inr rfl⟩
      constructor
      · intro hf
        cases hf
      · intro hall
        have := hall L (List.mem_cons_self L rest)
        omega
    · rw [if_neg hdiv]
      refine ⟨?_, ih.2⟩
      rw [ih.1]
      constructor
      · intro hall L2 hL2
        rcases List.mem_cons.1 hL2 with heq | hmem
        · rw [heq]
          omega
        · exact hall L2 hmem
      · intro hall L2 hL2
        exact hall L2 (List.mem_cons_of_mem L hL2)

/-- The window of a pooled signal: `ks * ks` calls on pairwise different neurons. -/
theorem windowEvents_card (L : GridLayer) (ks i j : Nat) (sig : PoolSignal) :
    (windowEvents L ks i j sig).length = ks * ks ∧ (windowEvents L ks i j sig).Nodup ∧
    ((windowEvents L ks i j sig).filterMap PoolEvent.source).Nodup ∧
    ((windowEvents L ks i j sig).filterMap PoolEvent.source).length = ks * ks := by
  have hprod : windowEvents L ks i j sig =
      (List.product (List.range ks) (List.range ks)).map (fun q =>
        PoolEvent.addOutput L.ref (i * ks + q.2) (j * ks + q.1) sig) := by
    unfold windowEvents List.product
    rw [List.map_flatMap]
    congr 1
    funext jj
    rw [List.map_map]
    rfl
  have hsrc : (windowEvents L ks i j sig).filterMap PoolEvent.source =
      (List.product (List.range ks) (List.range ks)).map (fun q =>
        (L.ref, i * ks + q.2, j * ks + q.1)) := by
    rw [hprod, List.filterMap_map]
    rw [← List.filterMap_eq_map]
    rfl
  have hnd : (List.product (List.range ks) (List.range ks)).Nodup :=
    List.Nodup.product (List.nodup_range ks) (List.nodup_range ks)
  have hlen : (List.product (List.range ks) (List.range ks)).length = ks * ks := by
    exact (List.length_product (List.range ks) (List.range ks)).trans
      (by rw [List.length_range])
  refine ⟨by rw [hprod, List.length_map, hlen], ?_, ?_, by rw [hsrc, List.length_map, hlen]⟩
  · rw [hprod]
    refine List.Nodup.map_on ?_ hnd
    intro a _ b _ hab
    simp only [PoolEvent.addOutput.injEq] at hab
    exact Prod.ext (by omega) (by omega)
  · rw [hsrc]
    refine List.Nodup.map_on ?_ hnd
    intro a _ b _ hab
    simp only [Prod.mk.injEq] at hab
    exact Prod.ext (by omega) (by omega)

/-- Output neuron `(i, j)` of the output layer of iteration `k` gets exactly one input
signal, the pooled signal created for it. -/
theorem filter_drives (f : AveragePoolFilter) (k j i : Nat) (L : GridLayer)
    (hL : f.inputLayers[k]? = some L) (hj : j < L.height / f.kernelSize)
    (hi : i < L.width / f.kernelSize) :
    (expectedCalls f).filter (PoolEvent.drives (.created k) i j) =
      [PoolEvent.addInput (.created k) i j ⟨k, i, j⟩] := by
  rw [filter_expectedCalls_cell f _ k j i L hL hj hi (fun _ _ _ => rfl) (fun _ => rfl) (by
    intro k2 L2 j2 i2 _ hne e he
    rcases mem_cellEvents he with h | h | ⟨jj, ii, _, _, h⟩
    · rw [h]
      unfold PoolEvent.drives
      rw [decide_eq_false_iff_not]
      intro hh
      exact hne ⟨LayerRef.created.inj hh.1, hh.2.2, hh.2.1⟩
    · rw [h]
      rfl
    · rw [h]
      rfl)]
  unfold cellEvents
  rw [List.filter_append]
  have hwin : (windowEvents L f.kernelSize i j ⟨k, i, j⟩).filter
      (PoolEvent.drives (.created k) i j) = [] := by
    rw [List.filter_eq_nil_iff]
    intro e he
    obtain ⟨jj, ii, _, _, h⟩ := mem_windowEvents he
    rw [h]
    exact Bool.false_ne_true
  rw [hwin, List.append_nil]
  simp [List.filter_cons, PoolEvent.drives]

/-- The calls that attach a source to the pooled signal of output neuron `(i, j)` are the
calls of its window. -/
theorem filter_feeds (f : AveragePoolFilter) (k j i : Nat) (L : GridLayer)
    (hL : f.inputLayers[k]? = some L) (hj : j < L.height / f.kernelSize)
    (hi : i < L.width / f.kernelSize) :
    (expectedCalls f).filter (PoolEvent.feeds ⟨k, i, j⟩) =
      windowEvents L f.kernelSize i j ⟨k, i, j⟩ := by
  rw [filter_expectedCalls_cell f _ k j i L hL hj hi (fun _ _ _ => rfl) (fun _ => rfl) (by
    intro k2 L2 j2 i2 _ hne e he
    rcases mem_cellEvents he with h | h | ⟨jj, ii, _, _, h⟩
    · rw [h]
      rfl
    · rw [h]
      rfl
    · rw [h]
      unfold PoolEvent.feeds
      rw [decide_eq_false_iff_not]
      intro hh
      have h1 := congrArg PoolSignal.layer hh
      have h2 := congrArg PoolSignal.i hh
      have h3 := congrArg PoolSignal.j hh
      exact hne ⟨h1, h3, h2⟩)]
  unfold cellEvents
  rw [List.filter_append]
  have hwin : (windowEvents L f.kernelSize i j ⟨k, i, j⟩).filter
      (PoolEvent.feeds ⟨k, i, j⟩) = windowEvents L f.kernelSize i j ⟨k, i, j⟩ := by
    rw [List.filter_eq_self]
    intro e he
    obtain ⟨jj, ii, _, _, h⟩ := mem_windowEvents he
    rw [h]
    simp [PoolEvent.feeds]
  rw [hwin]
  simp [List.filter_cons, PoolEvent.feeds]

theorem pool_div_mod (x ks : Nat) : x / ks * ks + x % ks = x := by
  rw [Nat.mul_comm]
  exact Nat.div_add_mod x ks

/-- Filtering the calls of `initialize` with a test that only `addOutput` calls on neuron
`(x, y)` with a signal of iteration `k` can pass leaves the single call that attaches the
neuron to the pooled signal of output neuron `(x / ks, y / ks)`. -/
theorem filter_attach (f : AveragePoolFilter) (p : PoolEvent → Bool) (k x y : Nat)
    (L : GridLayer) (hL : f.inputLayers[k]? = some L) (hks : 1 ≤ f.kernelSize)
    (hx : x / f.kernelSize < L.width / f.kernelSize)
    (hy : y / f.kernelSize < L.height / f.kernelSize)
    (hc : ∀ k2 w h, p (PoolEvent.construct k2 w h) = false)
    (hb : ∀ k2, p (PoolEvent.addBiasSignals k2) = false)
    (hin : ∀ l i j s, p (PoolEvent.addInput l i j s) = false)
    (hsig : ∀ s, p (PoolEvent.addSignal s) = false)
    (hpos : ∀ l x2 y2 s, p (PoolEvent.addOutput l x2 y2 s) = true → x2 = x ∧ y2 = y)
    (hk : ∀ k2 L2 x2 y2 i2 j2, f.inputLayers[k2]? = some L2 →
      p (PoolEvent.addOutput L2.ref x2 y2 ⟨k2, i2, j2⟩) = true → k2 = k)
    (htrue : p (PoolEvent.addOutput L.ref x y
      ⟨k, x / f.kernelSize, y / f.kernelSize⟩) = true) :
    (expectedCalls f).filter p =
      [PoolEvent.addOutput L.ref x y ⟨k, x / f.kernelSize, y / f.kernelSize⟩] := by
  rw [filter_expectedCalls_cell f p k (y / f.kernelSize) (x / f.kernelSize) L hL hy hx hc hb
    (by
      intro k2 L2 j2 i2 hL2 hne e he
      rcases mem_cellEvents he with h | h | ⟨jj, ii, hjj, hii, h⟩
      · rw [h]
        exact hin _ _ _ _
      · rw [h]
        exact hsig _
      · rw [h]
        cases hp : p (PoolEvent.addOutput L2.ref (i2 * f.kernelSize + ii)
            (j2 * f.kernelSize + jj) ⟨k2, i2, j2⟩) with
        | false => rfl
        | true =>
          obtain ⟨hxx, hyy⟩ := hpos _ _ _ _ hp
          have hkk := hk k2 L2 _ _ _ _ hL2 hp
          have hi2 : i2 = x / f.kernelSize := by rw [← hxx, pool_div hii]
          have hj2 : j2 = y / f.kernelSize := by rw [← hyy, pool_div hjj]
          exact absurd ⟨hkk, hj2, hi2⟩ hne)]
  unfold cellEvents
  rw [List.filter_append]
  have hhead : [PoolEvent.addInput (.created k) (x / f.kernelSize) (y / f.kernelSize)
      ⟨k, x / f.kernelSize, y / f.kernelSize⟩,
      PoolEvent.addSignal ⟨k, x / f.kernelSize, y / f.kernelSize⟩].filter p = [] := by
    simp [List.filter_cons, hin, hsig]
  rw [hhead, List.nil_append]
  unfold windowEvents
  rw [filter_flatMap_range_single p _ _ (y % f.kernelSize) (Nat.mod_lt _ (by omega)) (by
    intro jj hjj hne e he
    rw [List.mem_map] at he
    obtain ⟨ii, _, he2⟩ := he
    rw [← he2]
    cases hp : p (PoolEvent.addOutput L.ref (x / f.kernelSize * f.kernelSize + ii)
        (y / f.kernelSize * f.kernelSize + jj) ⟨k, x / f.kernelSize, y / f.kernelSize⟩) with
    | false => rfl
    | true =>
      obtain ⟨_, hyy⟩ := hpos _ _ _ _ hp
      have hmod : jj = y % f.kernelSize := by rw [← hyy, pool_mod hjj]
      exact absurd hmod hne)]
  rw [map_range_eq_flatMap]
  rw [filter_flatMap_range_single p _ _ (x % f.kernelSize) (Nat.mod_lt _ (by omega)) (by
    intro ii hii hne e he
    rw [List.mem_singleton] at he
    rw [he]
    cases hp : p (PoolEvent.addOutput L.ref (x / f.kernelSize * f.kernelSize + ii)
        (y / f.kernelSize * f.kernelSize + y % f.kernelSize)
        ⟨k, x / f.kernelSize, y / f.kernelSize⟩) with
    | false => rfl
    | true =>
      obtain ⟨hxx, _⟩ := hpos _ _ _ _ hp
      have hmod : ii = x % f.kernelSize := by rw [← hxx, pool_mod hii]
      exact absurd hmod hne)]
  rw [pool_div_mod, pool_div_mod]
  simp [List.filter_cons, htrue]

/-! ## DeconvolutionLayer: lengths computed in `float` -/

theorem log2_of_bounds {n k : Nat} (h1 : 2 ^ k ≤ n) (h2 : n < 2 ^ (k + 1)) :
    Nat.log2 n = k := by
  have hn : n ≠ 0 := by
    intro h0
    rw [h0] at h1
    have := Nat.two_pow_pos k
    omega
  have ha : k ≤ Nat.log2 n := (Nat.le_log2 hn).2 h1
  have hb : Nat.log2 n < k + 1 := (Nat.log2_lt hn).2 h2
  omega

/-- A natural number up to 2^24 is a `float`. -/
theorem roundF32_of_le {n : Nat} (h : n ≤ 16777216) : roundF32 n = n := by
  unfold roundF32
  by_cases hlt : n < 16777216
  · rw [if_pos hlt]
  · have hn : n = 16777216 := by omega
    subst hn
    have hlog : Nat.log2 16777216 = 24 := log2_of_bounds (by norm_num) (by norm_num)
    rw [if_neg hlt, hlog]
    norm_num

/-- The number 2^24 + 1 is not a `float`; it is a tie and rounds down to 2^24. -/
theorem roundF32_tie : roundF32 16777217 = 16777216 := by
  unfold roundF32
  have hlog : Nat.log2 16777217 = 24 := log2_of_bounds (by norm_num) (by norm_num)
  rw [hlog]
  norm_num

theorem roundF32_even : roundF32 16777218 = 16777218 := by
  unfold roundF32
  have hlog : Nat.log2 16777218 = 24 := log2_of_bounds (by norm_num) (by norm_num)
  rw [hlog]
  norm_num

/-- A product up to 2^24 is computed exactly. -/
theorem roundF32_mul_exact {a b : Nat} (h : a * b ≤ 16777216) :
    roundF32 (roundF32 a * roundF32 b) = a * b := by
  have hzero : roundF32 0 = 0 := roundF32_of_le (by omega)
  by_cases ha : a = 0
  · subst ha
    rw [hzero, Nat.zero_mul, Nat.zero_mul, hzero]
  · by_cases hb : b = 0
    · subst hb
      rw [hzero, Nat.mul_zero, Nat.mul_zero, hzero]
    · have h1 : a ≤ a * b := Nat.le_mul_of_pos_right a (Nat.pos_of_ne_zero hb)
      have h2 : b ≤ a * b := Nat.le_mul_of_pos_left b (Nat.pos_of_ne_zero ha)
      rw [roundF32_of_le (h1.trans h), roundF32_of_le (h2.trans h), roundF32_of_le h]

/-- The function `deconv_out_length` is exact while `in_length * stride + window_size` is
at most 2^24. -/
theorem deconv_out_length_exact {in_length window_size stride : Nat}
    (h : in_length * stride + window_size ≤ 16777216) :
    deconv_out_length in_length window_size stride =
      in_length * stride + window_size - 1 := by
  unfold deconv_out_length
  rw [roundF32_mul_exact (by omega), roundF32_of_le (by omega : window_size ≤ 16777216),
    roundF32_of_le h, roundF32_of_le (by omega : 1 ≤ 16777216), roundF32_of_le (by omega)]

theorem deconv_out_unpadded_length_same_exact (in_length window_size stride : Nat)
    (h : in_length * stride ≤ 16777216) :
    deconv_out_unpadded_length in_length window_size stride padding.same =
      in_length * stride := by
  unfold deconv_out_unpadded_length
  rw [if_pos rfl, roundF32_mul_exact h]

/-- With `same` padding the crop faults on the first row of the first sample when the row
to copy does not fit into the sample. -/
theorem unpad_fault_first_row [Zero F] (P : deconv_params) (src : Storage F)
    (rest : Tensor F) (d h : Nat) (hpad : P.pad_type = padding.same)
    (hd : P.out_unpadded.depth_ = d + 1) (hh : P.out_unpadded.height_ = h + 1)
    (hw : P.out_unpadded.width_ ≠ 0)
    (hover : ¬ (P.out.get_index (P.weight.width_ / 2) (P.weight.height_ / 2) 0 +
      0 * P.out.width_ + P.out_unpadded.width_ ≤ src.length ∧
      P.out_unpadded.get_index 0 0 0 + 0 * P.out_unpadded.width_ + P.out_unpadded.width_ ≤
        (List.replicate P.out_unpadded.size (0 : F)).length)) :
    copy_and_unpad_output P (src :: rest) = .fault := by
  have hrow : unpadRowBody P src 0 0 (List.replicate P.out_unpadded.size (0 : F)) =
      .fault := by
    unfold unpadRowBody copyRow
    rw [if_neg hw, if_neg hover]
  have hchan : unpadChannelBody P src 0 (List.replicate P.out_unpadded.size (0 : F)) =
      .fault := by
    unfold unpadChannelBody
    rw [hh, List.range_succ_eq_map, forLoop_cons, hrow, andThen_fault]
  have hsample : unpadSampleBody P (src :: rest) 0
      (List.replicate (rest.length + 1) (List.replicate P.out_unpadded.size (0 : F))) =
      .fault := by
    unfold unpadSampleBody
    have h1 : (src :: rest)[0]? = some src := List.getElem?_cons_zero
    have h2 : (List.replicate (rest.length + 1)
        (List.replicate P.out_unpadded.size (0 : F)))[0]? =
        some (List.replicate P.out_unpadded.size (0 : F)) := by
      rw [List.getElem?_replicate, if_pos (by omega)]
    rw [h1, h2]
    simp only
    rw [hd, List.range_succ_eq_map, forLoop_cons, hchan, andThen_fault]
  unfold copy_and_unpad_output
  rw [if_neg (by rw [hpad]; decide), List.length_cons, List.range_succ_eq_map, forLoop_cons,
    hsample, andThen_fault]
/-! ## The claims -/

/-- C1. For every layer and every `reset_weight`, `setup` throws the connection-mismatch
error (the spec's `ShapeMismatch`) if and only if the number of declared input dimensions
differs from `inputChannels` or the number of declared output dimensions differs from
`outputChannels`; otherwise, on a layer whose slot lists have the constructor's sizes, whose
inputs are wired and whose fan sizes are defined, it returns normally. -/
theorem setup_throws_iff_mismatch [Zero F] (self : Nat) (reset_weight : Bool)
    (s : State F σ) :
    ((∃ t, setup self reset_weight s = .threw .shapeMismatch t) ↔
      (s.layer.getInputDimensions.length ≠ s.layer.inputChannels ∨
        s.layer.getOutputDimensions.length ≠ s.layer.outputChannels)) ∧
    (¬ (s.layer.getInputDimensions.length ≠ s.layer.inputChannels ∨
        s.layer.getOutputDimensions.length ≠ s.layer.outputChannels) →
      OutputsSized s.layer → InputsWired s → FanDefined s.layer →
      ∃ t, setup self reset_weight s = .ok t) := by
  constructor
  · constructor
    · rintro ⟨t, ht⟩
      by_contra hn
      exact setup_no_throw_of_match self reset_weight s
        ((connectionMismatch_false_iff _).mpr hn) _ _ ht
    · intro h
      exact ⟨s, setup_of_mismatch self reset_weight s ((connectionMismatch_iff _).mpr h)⟩
  · intro hn hs hw hf
    have hd : s.layer.getOutputDimensions.length = s.layer.outputChannels := by
      by_contra h; exact hn (Or.inr h)
    obtain ⟨t1, ht1, inv⟩ := allocLoop_spec self s hs hd
    obtain ⟨hw1, hf1⟩ := wired_after_alloc inv hw hf
    rw [setup_of_match self reset_weight s ((connectionMismatch_false_iff _).mpr hn), ht1]
    simp only [andThen_ok]
    by_cases hc : (reset_weight || !t1.layer.initialized) = true
    · rw [if_pos hc]
      obtain ⟨t2, ht2, -⟩ := initializeWeights_frame t1 hw1 hf1
      exact ⟨t2, ht2⟩
    · rw [if_neg hc]
      exact ⟨t1, rfl⟩

/-- C1, instantiated: the wired example layer matches and `setup(true)` returns. -/
theorem setup_throws_iff_mismatch_witness :
    ∃ t, setup 0 true exampleState = .ok t :=
  (setup_throws_iff_mismatch 0 true exampleState).2 (by decide) (by decide) (by decide)
    (by decide)

/-- C2. Whenever `setup` throws, the error is the connection mismatch and the state it
leaves behind is the state before the call: no output slot was filled, no signal was added
to the heap, `initialized` is unchanged and the log of callback invocations is unchanged. -/
theorem setup_throw_leaves_state [Zero F] (self : Nat) (reset_weight : Bool)
    (s t : State F σ) (e : LayerError) (h : setup self reset_weight s = .threw e t) :
    e = .shapeMismatch ∧ t = s ∧ t.layer.outputs = s.layer.outputs ∧ t.heap = s.heap ∧
      t.layer.initialized = s.layer.initialized ∧ t.log = s.log := by
  cases hm : connectionMismatch s.layer with
  | false => exact absurd h (setup_no_throw_of_match self reset_weight s hm e t)
  | true =>
    rw [setup_of_mismatch self reset_weight s hm] at h
    simp only [Outcome.threw.injEq] at h
    obtain ⟨h1, h2⟩ := h
    subst h2
    cases e
    exact ⟨rfl, rfl, rfl, rfl, rfl, rfl⟩

/-- C2, instantiated: the layer that declares two input shapes for one channel throws and
is left as it was, its output slot still null. -/
theorem setup_throw_leaves_state_witness :
    setup 0 true mismatchState = .threw .shapeMismatch mismatchState ∧
      mismatchState.layer.outputs = [none] ∧
      (LayerError.shapeMismatch = .shapeMismatch ∧ mismatchState = mismatchState ∧
        mismatchState.layer.outputs = mismatchState.layer.outputs ∧
        mismatchState.heap = mismatchState.heap ∧
        mismatchState.layer.initialized = mismatchState.layer.initialized ∧
        mismatchState.log = mismatchState.log) :=
  ⟨rfl, rfl, setup_throw_leaves_state 0 true mismatchState mismatchState .shapeMismatch rfl⟩

/-- C3. On a layer whose declared dimension counts match its channel counts (with slot
lists of the constructor's sizes, wired inputs and defined fan sizes) `setup` returns, and
afterwards every output slot is non-null: a slot that was non-null holds the same signal,
and a slot `i` that was null holds a signal that did not exist before, is held by no other
slot that was null, and is the signal constructed for this layer with the shape
`getOutputDimensions(i)` and the kind `outputTypes[i]`. -/
theorem setup_allocates_outputs [Zero F] (self : Nat) (reset_weight : Bool) (s : State F σ)
    (hm : s.layer.getInputDimensions.length = s.layer.inputChannels ∧
      s.layer.getOutputDimensions.length = s.layer.outputChannels)
    (hs : OutputsSized s.layer) (hw : InputsWired s) (hf : FanDefined s.layer) :
    ∃ t, setup self reset_weight s = .ok t ∧
      (∀ i : Nat, i < s.layer.outputChannels → outputAllocated t.layer i = true) ∧
      (∀ i p : Nat, s.layer.outputs[i]? = some (some p) →
        t.layer.outputs[i]? = some (some p)) ∧
      (∀ i : Nat, i < s.layer.outputChannels → s.layer.outputs[i]? = some none →
        ∃ p sig, t.layer.outputs[i]? = some (some p) ∧ s.heap.length ≤ p ∧
          t.heap[p]? = some sig ∧ sig.input = some self ∧
          s.layer.getOutputDimensions[i]? = some sig.dimensions ∧
          s.layer.outputTypes[i]? = some sig.type ∧
          sig = Signal.new self sig.dimensions sig.type) ∧
      (∀ i j : Nat, i < j → j < s.layer.outputChannels → s.layer.outputs[i]? = some none →
        s.layer.outputs[j]? = some none → t.layer.outputs[i]? ≠ t.layer.outputs[j]?) := by
  have hm0 : connectionMismatch s.layer = false :=
    (connectionMismatch_false_iff _).mpr (by rw [hm.1, hm.2]; simp)
  obtain ⟨t1, t, inv, hset, hout, hheap⟩ := setup_spec self reset_weight s hm0 hs hw hf
  obtain ⟨-, -, -, -, -, -, -, hsome, hnew, hdist⟩ := inv
  have hnew2 : ∀ i : Nat, i < s.layer.outputChannels → s.layer.outputs[i]? = some none →
      ∃ p sig, t.layer.outputs[i]? = some (some p) ∧ s.heap.length ≤ p ∧
        t.heap[p]? = some sig ∧ sig.input = some self ∧
        s.layer.getOutputDimensions[i]? = some sig.dimensions ∧
        s.layer.outputTypes[i]? = some sig.type ∧
        sig = Signal.new self sig.dimensions sig.type := by
    intro i hi hn
    obtain ⟨p, d, ty, h1, h2, h3, h4, h5⟩ := hnew i hi hn
    exact ⟨p, Signal.new self d ty, by rw [hout]; exact h1, h2,
      by rw [hheap p h2]; exact h5, rfl, h3, h4, rfl⟩
  refine ⟨t, hset, ?_, ?_, hnew2, ?_⟩
  · intro i hi
    have hil : i < s.layer.outputs.length := by rw [hs.1]; exact hi
    unfold outputAllocated
    cases hx : s.layer.outputs[i] with
    | some p =>
      have := hsome i p (by rw [List.getElem?_eq_getElem hil, hx])
      rw [hout, this]
    | none =>
      obtain ⟨p, sig, h1, -⟩ := hnew2 i hi (by rw [List.getElem?_eq_getElem hil, hx])
      rw [h1]
  · intro i p hip
    rw [hout]; exact hsome i p hip
  · intro i j hij hj hni hnj
    rw [hout]; exact hdist i j hij hj hni hnj

/-- C3, instantiated: `setup(true)` on the example layer fills its null output slot. -/
theorem setup_allocates_outputs_witness :
    exampleState.layer.outputs = [none] ∧
    ∃ t, setup 7 true exampleState = .ok t ∧
      (∀ i : Nat, i < exampleState.layer.outputChannels → outputAllocated t.layer i = true) ∧
      (∀ i p : Nat, exampleState.layer.outputs[i]? = some (some p) →
        t.layer.outputs[i]? = some (some p)) ∧
      (∀ i : Nat, i < exampleState.layer.outputChannels →
        exampleState.layer.outputs[i]? = some none →
        ∃ p sig, t.layer.outputs[i]? = some (some p) ∧ exampleState.heap.length ≤ p ∧
          t.heap[p]? = some sig ∧ sig.input = some 7 ∧
          exampleState.layer.getOutputDimensions[i]? = some sig.dimensions ∧
          exampleState.layer.outputTypes[i]? = some sig.type ∧
          sig = Signal.new 7 sig.dimensions sig.type) ∧
      (∀ i j : Nat, i < j → j < exampleState.layer.outputChannels →
        exampleState.layer.outputs[i]? = some none →
        exampleState.layer.outputs[j]? = some none →
        t.layer.outputs[i]? ≠ t.layer.outputs[j]?) :=
  ⟨rfl, setup_allocates_outputs 7 true exampleState (by decide) (by decide) (by decide)
    (by decide)⟩

/-- C4. On a layer that is initialized and whose output slots are all allocated,
`setup(false)` changes nothing at all: when the dimension counts match it returns with the
state it was called in (same output signals, same buffers, no callback logged), once or
twice in a row, and when they do not match it throws with that same state. -/
theorem setup_false_idempotent [Zero F] (self : Nat) (s : State F σ)
    (hi : s.layer.initialized = true)
    (ho : ∀ i : Nat, i < s.layer.outputChannels → outputAllocated s.layer i = true) :
    (connectionMismatch s.layer = false →
      setup self false s = .ok s ∧
        (setup self false s).andThen (setup self false) = .ok s) ∧
    (connectionMismatch s.layer = true → setup self false s = .threw .shapeMismatch s) := by
  refine ⟨fun hm => ?_, fun hm => setup_of_mismatch self false s hm⟩
  have hloop : forLoop (allocBody self) (List.range s.layer.outputChannels) s = .ok s := by
    obtain ⟨t, ht, hts⟩ := forLoop_range (allocBody self) (fun _ t => t = s)
      s.layer.outputChannels s rfl (by
        intro j s1 hj h1
        subst h1
        refine ⟨s1, ?_, rfl⟩
        have := ho j hj
        unfold outputAllocated at this
        unfold allocBody
        split at this
        · next p hp => rw [hp]
        · simp at this)
    rw [ht, hts]
  have h1 : setup self false s = .ok s := by
    rw [setup_of_match self false s hm, hloop]
    simp [hi]
  exact ⟨h1, by rw [h1]; exact h1⟩

/-- C4, instantiated: the layer that went through a first `setup` is left as it is. -/
theorem setup_false_idempotent_witness :
    setup 0 false settledState = .ok settledState ∧
      (setup 0 false settledState).andThen (setup 0 false) = .ok settledState :=
  (setup_false_idempotent 0 settledState rfl (by decide)).1 rfl

/-- C5. On a trainable layer with a weight callback whose output `g` does not depend on
the captured state (matching dimension counts, wired inputs, defined fan sizes), `setup`
with `reset_weight` set, also when the layer is initialized, and `setup` on a layer that is
not initialized run `initializeWeights`: `setup` returns with `initialized` set and the log
gains one invocation per channel that gets initialised, in channel order, among them the
weight callback for every weight channel. When no signal is wired into two input slots,
the first value sample of every weight input is afterwards `g` applied to the sample it
held before, with the fan sizes of the layer, and the other samples are untouched. -/
theorem setup_reset_reinitializes [Zero F] (self : Nat) (reset_weight : Bool)
    (s : State F σ) (func : InitFunc F σ) (g : Storage F → Int → Int → Storage F)
    (htr : s.layer.trainable = true)
    (hfun : s.layer.weightInitFunc = some func)
    (hdet : ∀ e data fanIn fanOut, (func e data fanIn fanOut).2 = g data fanIn fanOut)
    (hrun : reset_weight = true ∨ s.layer.initialized = false)
    (hm : s.layer.getInputDimensions.length = s.layer.inputChannels ∧
      s.layer.getOutputDimensions.length = s.layer.outputChannels)
    (hs : OutputsSized s.layer) (hw : InputsWired s) (hf : FanDefined s.layer) :
    ∃ t evs fanIn fanOut, setup self reset_weight s = .ok t ∧
      getFanInSize s.layer = some fanIn ∧ getFanOutSize s.layer = some fanOut ∧
      t.layer.initialized = true ∧ t.log = s.log ++ evs ∧
      evs.filterMap Event.initChannel =
        (List.range s.layer.inputChannels).filter (initActive s.layer) ∧
      (∀ i : Nat, i < s.layer.inputChannels → s.layer.inputTypes[i]? = some .weight →
        ∃ w, Event.weightInit i w fanIn fanOut ∈ evs) ∧
      (NoSharedInput s.layer →
        evs = (List.range s.layer.inputChannels).filterMap (expectedInitEvent s) ∧
        ∀ (i p : Nat) (a : Signal F) (w : Storage F) (rest : Tensor F),
          i < s.layer.inputChannels → s.layer.inputTypes[i]? = some .weight →
          getInput s.layer i = some p → s.heap[p]? = some a → a.weight = w :: rest →
          t.heap[p]? = some { a with weight := g w fanIn fanOut :: rest } ∧
            getInputWeights t i = some (g w fanIn fanOut)) := by
  have hm0 : connectionMismatch s.layer = false :=
    (connectionMismatch_false_iff _).mpr (by rw [hm.1, hm.2]; simp)
  obtain ⟨t1, inv, hset⟩ := setup_runs_init self reset_weight s hm0 hs hrun
  obtain ⟨hw1, hf1⟩ := wired_after_alloc inv hw hf
  have hinv := inv
  obtain ⟨-, hlog1, ⟨outs, hl⟩, -, -, hhp, -⟩ := inv
  obtain ⟨t, evs, hinit, htl, -, -, htlog, hseq, hev, hexact⟩ :=
    initializeWeights_master t1 (by rw [hl]; exact htr) hw1 hf1
  obtain ⟨fanIn, hfanIn⟩ := Option.isSome_iff_exists.mp hf.1
  obtain ⟨fanOut, hfanOut⟩ := Option.isSome_iff_exists.mp hf.2
  have hch : t1.layer.inputChannels = s.layer.inputChannels := by rw [hl]
  have hfi1 : getFanInSize t1.layer = getFanInSize s.layer := by
    unfold getFanInSize; rw [hl]
  have hfo1 : getFanOutSize t1.layer = getFanOutSize s.layer := by
    unfold getFanOutSize; rw [hl]
  have hact : initActive t1.layer = initActive s.layer :=
    initActive_of_layer (by rw [hl]) (by rw [hl]) (by rw [hl])
  rw [hch, hact] at hseq
  refine ⟨t, evs, fanIn, fanOut, hset.trans hinit, hfanIn, hfanOut, by rw [htl],
    by rw [htlog, hlog1], hseq, ?_, ?_⟩
  · intro i hi hty
    obtain ⟨w, fi, fo, hmem, h1, h2⟩ := weightInit_mem_of_seq t1 evs i
      (by rw [hch]; exact hi) (by rw [hl]; exact hty)
      (by rw [hl]; show s.layer.weightInitFunc.isSome = true; rw [hfun]; rfl)
      (by rw [hch, hact]; exact hseq) hev
    have hfi : fi = fanIn := Option.some.inj (h1.symm.trans (hfi1.trans hfanIn))
    have hfo : fo = fanOut := Option.some.inj (h2.symm.trans (hfo1.trans hfanOut))
    subst hfi; subst hfo
    exact ⟨w, hmem⟩
  · intro hn
    have hn1 : NoSharedInput t1.layer := by
      unfold NoSharedInput at hn ⊢; rw [hl]; exact hn
    obtain ⟨hevs, hcells⟩ := hexact hn1
    constructor
    · rw [hevs, hch]
      apply List.filterMap_congr
      intro i hi
      exact expectedInitEvent_after_alloc hinv hw i (List.mem_range.mp hi)
    · intro i p a w rest hi hty hp ha hwt
      have hp1 : getInput t1.layer i = some p := by
        unfold getInput at hp ⊢; rw [hl]; exact hp
      obtain ⟨b, hb, hcell⟩ := hcells i p .weight a (by rw [hl]; exact hi) hp1
        (by rw [hl]; exact hty) (by rw [hhp p (getElem?_lt_of_eq_some ha)]; exact ha)
      have hcb : initCallback t1.layer .weight = some func := by
        unfold initCallback; rw [hl]; exact hfun
      unfold InitializedCell at hcell
      rw [hcb] at hcell
      obtain ⟨e, w2, rest2, fi, fo, h1, h2, h3, h4⟩ := hcell
      have hfi : fi = fanIn := Option.some.inj (h2.symm.trans (hfi1.trans hfanIn))
      have hfo : fo = fanOut := Option.some.inj (h3.symm.trans (hfo1.trans hfanOut))
      rw [hwt] at h1
      obtain ⟨hw2, hrest2⟩ := List.cons.inj h1
      subst hfi; subst hfo; subst hw2; subst hrest2
      rw [hdet] at h4
      have hb2 : t.heap[p]? = some { a with weight := g w fi fo :: rest } := by
        rw [hb, h4]
      refine ⟨hb2, ?_⟩
      have hpt : getInput t.layer i = some p := by
        unfold getInput at hp ⊢; rw [htl, hl]; exact hp
      unfold getInputWeights
      simp only [hpt, hb2]
      rfl

/-- C5, instantiated: `setup(true)` on the initialized example layer, whose callback
fills with the constant 7, invokes the callback on the weight buffer `[40, 41]` and turns
it into `[7, 7]`. -/
theorem setup_reset_reinitializes_witness :
    trainedState.layer.initialized = true ∧
    getInputWeights trainedState 0 = some [40, 41] ∧
    ∃ t, setup 0 true trainedState = .ok t ∧ t.layer.initialized = true ∧
      t.log = [Event.weightInit 0 [40, 41] 2 3] ∧
      getInputWeights t 0 = some [7, 7] := by
  obtain ⟨t, evs, fanIn, fanOut, h1, -, -, h4, h5, -, -, h8⟩ :=
    setup_reset_reinitializes 0 true trainedState exampleInit
      (fun d _ _ => d.map (fun _ => 7)) rfl rfl (fun _ _ _ _ => rfl) (Or.inl rfl)
      (by decide) (by decide) (by decide) (by decide)
  obtain ⟨h9, h10⟩ := h8 (by decide)
  refine ⟨rfl, rfl, t, h1, h4, ?_, ?_⟩
  · rw [h5, h9]; decide
  · exact (h10 0 0 _ [40, 41] [] (by decide) rfl rfl rfl rfl).2

/-- C6. On a layer that is not trainable, `initializeWeights` returns with `initialized`
set and nothing else changed: the log gains no callback invocation, whatever callbacks are
configured, and the heap, hence every input buffer, is the one before the call. -/
theorem initializeWeights_not_trainable (s : State F σ) (h : s.layer.trainable = false) :
    ∃ t, initializeWeights s = .ok t ∧ t.layer.initialized = true ∧ t.log = s.log ∧
      t.heap = s.heap ∧ t.env = s.env ∧ t.layer = { s.layer with initialized := true } := by
  refine ⟨markInitialized s, ?_, rfl, rfl, rfl, rfl, rfl⟩
  unfold initializeWeights
  rw [if_pos h]

/-- C6, instantiated: a frozen layer with both callbacks configured. -/
theorem initializeWeights_not_trainable_witness :
    frozenState.layer.weightInitFunc.isSome = true ∧
    frozenState.layer.biasInitFunc.isSome = true ∧
    ∃ t, initializeWeights frozenState = .ok t ∧ t.layer.initialized = true ∧
      t.log = frozenState.log ∧ t.heap = frozenState.heap ∧ t.env = frozenState.env ∧
      t.layer = { frozenState.layer with initialized := true } :=
  ⟨rfl, rfl, initializeWeights_not_trainable frozenState rfl⟩

/-- C7. On a trainable layer (wired inputs, defined fan sizes) `initializeWeights` returns
with `initialized` set, whether or not a callback is configured. The log gains exactly one
invocation for every channel that has a callback for its kind, in channel order: the weight
callback for a weight channel, the bias callback for a bias channel, each with
`getFanInSize()` and `getFanOutSize()`; a signal that no such channel holds is unchanged.
When no signal is wired into two input slots, each invocation is on the first value sample
its channel held before the call, the signal of a data channel or of a channel whose
callback is not set is unchanged, and the signal of any other channel differs only in its
first value sample, which is the output of the callback. -/
theorem initializeWeights_invokes_callbacks (s : State F σ)
    (htr : s.layer.trainable = true) (hw : InputsWired s) (hf : FanDefined s.layer) :
    ∃ t evs, initializeWeights s = .ok t ∧ t.layer.initialized = true ∧
      t.layer = { s.layer with initialized := true } ∧
      t.log = s.log ++ evs ∧
      evs.filterMap Event.initChannel =
        (List.range s.layer.inputChannels).filter (initActive s.layer) ∧
      (∀ e ∈ evs, InitEventOk s e) ∧
      (∀ p : Nat, (∀ j : Nat, j < s.layer.inputChannels → initActive s.layer j = true →
        getInput s.layer j ≠ some p) → t.heap[p]? = s.heap[p]?) ∧
      (NoSharedInput s.layer →
        evs = (List.range s.layer.inputChannels).filterMap (expectedInitEvent s) ∧
        (∀ (i p : Nat) (ty : ChannelType), i < s.layer.inputChannels →
          getInput s.layer i = some p → s.layer.inputTypes[i]? = some ty →
          initCallback s.layer ty = none → t.heap[p]? = s.heap[p]?) ∧
        (∀ (i p : Nat) (ty : ChannelType) (a : Signal F), i < s.layer.inputChannels →
          getInput s.layer i = some p → s.layer.inputTypes[i]? = some ty →
          s.heap[p]? = some a →
          ∃ b, t.heap[p]? = some b ∧ InitializedCell s.layer ty a b)) := by
  obtain ⟨t, evs, hinit, htl, -, hfr, hlog, hseq, hev, hexact⟩ :=
    initializeWeights_master s htr hw hf
  refine ⟨t, evs, hinit, by rw [htl], htl, hlog, hseq, hev, hfr, ?_⟩
  intro hn
  obtain ⟨hevs, hcells⟩ := hexact hn
  refine ⟨hevs, ?_, hcells⟩
  intro i p ty hi hp hty hcb
  obtain ⟨q, sig, w, rest, g, grest, hq, hsig, -, -⟩ := inputReady_unpack (hw.2 i hi)
  have hqp : q = p := Option.some.inj (hq.symm.trans hp)
  subst hqp
  obtain ⟨b, hb, hcell⟩ := hcells i q ty sig hi hp hty hsig
  unfold InitializedCell at hcell
  rw [hcb] at hcell
  rw [hb, hcell, hsig]

/-- C7, instantiated: on a layer with a weight, a bias and a data input where only the
weight callback is set, the single invocation is the one for channel 0, and the signals of
the bias and the data channel are unchanged. -/
theorem initializeWeights_invokes_callbacks_witness :
    ∃ t, initializeWeights mixedState = .ok t ∧ t.layer.initialized = true ∧
      t.log = [Event.weightInit 0 [1, 2] 2 3] ∧
      t.heap[1]? = mixedState.heap[1]? ∧ t.heap[2]? = mixedState.heap[2]? := by
  obtain ⟨t, evs, h1, h2, -, h4, -, -, -, h8⟩ :=
    initializeWeights_invokes_callbacks mixedState rfl (by decide) (by decide)
  obtain ⟨h9, h10, -⟩ := h8 (by decide)
  refine ⟨t, h1, h2, ?_, h10 1 1 .bias (by decide) rfl rfl rfl,
    h10 2 2 .data (by decide) rfl rfl rfl⟩
  rw [h4, h9]
  decide

/-- C8. On a wired layer `updateWeights` returns; it calls the optimizer once for every
weight or bias channel of a trainable layer, in channel order, and for no other channel,
and every such call carries the hint `true` if and only if the buffer it is handed as
weights has at least 512 elements: `false` at 511 and `true` at 512. When no signal is
wired into two input slots, the buffer handed over for a channel is the first value sample
the channel held before the call. -/
theorem updateWeights_parallel_hint [Zero F] [One F] [Add F] [Mul F] [Div F] [IntCast F]
    (optimizer : Optimizer F σ) (batch_size : Int) (s : State F σ) (hw : InputsWired s) :
    ∃ t evs, updateWeights optimizer batch_size s = .ok t ∧
      t.log = s.log ++ evs ++ (List.range s.layer.inputChannels).map Event.clearGradients
        ++ [Event.post] ∧
      evs.filterMap Event.optimizerChannel =
        (List.range s.layer.inputChannels).filter (eligible s.layer) ∧
      (∀ (i : Nat) (dW W : Storage F) (par : Bool), Event.optimizer i dW W par ∈ evs →
        (par = true ↔ 512 ≤ W.length) ∧ (W.length = 511 → par = false) ∧
          (W.length = 512 → par = true)) ∧
      (NoSharedInput s.layer → s.layer.trainable = true →
        ∀ (i : Nat) (ty : ChannelType), i < s.layer.inputChannels →
          s.layer.inputTypes[i]? = some ty → is_trainable_weight ty = true →
          ∃ dW W, getInputWeights s i = some W ∧
            Event.optimizer i dW W (decide (512 ≤ W.length)) ∈ evs ∧
            ∀ (dW2 W2 : Storage F) (par : Bool), Event.optimizer i dW2 W2 par ∈ evs →
              W2 = W ∧ par = decide (512 ≤ W.length)) := by
  obtain ⟨t1, t2, evs, -, -, -, hlog, hseq, hev, hexact, hclr, hupd⟩ :=
    updateWeights_master optimizer batch_size s hw
  refine ⟨_, evs, hupd, ?_, hseq, ?_, ?_⟩
  · show t2.log ++ _ = _
    rw [hclr.2.2.1, hlog]
  · intro i dW W par he
    obtain ⟨-, -, -, hpar⟩ := hev _ he
    subst hpar
    refine ⟨by simp, fun h => by simp [h], fun h => by simp [h]⟩
  · intro hn htr i ty hi hty hkind
    have hel : eligible s.layer i = true := (eligible_iff _ _).mpr ⟨htr, ty, hty, hkind⟩
    obtain ⟨p, sig, merged, W, rest, -, -, -, -, hgw, -, hexp⟩ :=
      expectedUpdateEvents_eligible s batch_size i (hw.2 i hi) hel
    rw [hexact hn]
    refine ⟨merged.map (fun g => g * ((1 : F) / ((batch_size : Int) : F))), W, hgw, ?_, ?_⟩
    · exact List.mem_flatMap.mpr ⟨i, List.mem_range.mpr hi, by rw [hexp]; simp⟩
    · intro dW2 W2 par he
      obtain ⟨j, -, hj⟩ := List.mem_flatMap.mp he
      obtain ⟨-, -, h3, h4⟩ := mem_expectedUpdateEvents s batch_size i j dW2 W2 par hj
      have hW : W2 = W := Option.some.inj (h3.symm.trans hgw)
      subst hW
      exact ⟨rfl, h4⟩

/-- C8, instantiated: with a weight buffer of 512 elements the optimizer is called with the
hint `true`, with 511 elements with the hint `false`. -/
theorem updateWeights_parallel_hint_witness :
    (∃ t evs dW, updateWeights exampleOptimizer 1 (sizedState 512) = .ok t ∧
      (∃ rest, t.log = (sizedState 512).log ++ evs ++ rest) ∧
      Event.optimizer 0 dW (List.replicate 512 1) true ∈ evs) ∧
    (∃ t evs dW, updateWeights exampleOptimizer 1 (sizedState 511) = .ok t ∧
      (∃ rest, t.log = (sizedState 511).log ++ evs ++ rest) ∧
      Event.optimizer 0 dW (List.replicate 511 1) false ∈ evs) := by
  constructor
  · obtain ⟨t, evs, h1, h2, -, -, h4⟩ :=
      updateWeights_parallel_hint exampleOptimizer 1 (sizedState 512) (by decide)
    obtain ⟨dW, W, hW, hmem, -⟩ := h4 (by decide) rfl 0 .weight (by decide) rfl rfl
    have hW2 : W = List.replicate 512 1 := (Option.some.inj hW).symm
    subst hW2
    have hlen : decide (512 ≤ (List.replicate 512 (1 : Int)).length) = true := by
      rw [List.length_replicate]; rfl
    rw [hlen] at hmem
    exact ⟨t, evs, dW, h1, ⟨_, by rw [h2, List.append_assoc]⟩, hmem⟩
  · obtain ⟨t, evs, h1, h2, -, -, h4⟩ :=
      updateWeights_parallel_hint exampleOptimizer 1 (sizedState 511) (by decide)
    obtain ⟨dW, W, hW, hmem, -⟩ := h4 (by decide) rfl 0 .weight (by decide) rfl rfl
    have hW2 : W = List.replicate 511 1 := (Option.some.inj hW).symm
    subst hW2
    have hlen : decide (512 ≤ (List.replicate 511 (1 : Int)).length) = false := by
      rw [List.length_replicate]; rfl
    rw [hlen] at hmem
    exact ⟨t, evs, dW, h1, ⟨_, by rw [h2, List.append_assoc]⟩, hmem⟩

/-- C9. On a wired layer `updateWeights` returns, for every `batch_size`. It calls the
optimizer once for every weight or bias channel of a trainable layer, in channel order, and
for no other channel, and the gradient of every such call is the merged gradient
accumulator of the input signal of that channel with every element multiplied by
`1 / batch_size`, whatever the optimizer left in the buffer at the previous call. When no
signal is wired into two input slots, the calls are exactly one merge and one optimizer
call per such channel, with that gradient and with the first value sample of the signal of
the channel as weights. -/
theorem updateWeights_optimizer_calls [Zero F] [One F] [Add F] [Mul F] [Div F] [IntCast F]
    (optimizer : Optimizer F σ) (batch_size : Int) (s : State F σ) (hw : InputsWired s) :
    ∃ t evs, updateWeights optimizer batch_size s = .ok t ∧
      t.log = s.log ++ evs ++ (List.range s.layer.inputChannels).map Event.clearGradients
        ++ [Event.post] ∧
      evs.filterMap Event.optimizerChannel =
        (List.range s.layer.inputChannels).filter (eligible s.layer) ∧
      (∀ (i : Nat) (dW W : Storage F) (par : Bool), Event.optimizer i dW W par ∈ evs →
        expectedGradient s batch_size i = some dW) ∧
      (NoSharedInput s.layer →
        evs = (List.range s.layer.inputChannels).flatMap
          (expectedUpdateEvents s batch_size) ∧
        (s.layer.trainable = true →
          ∀ (i : Nat) (ty : ChannelType), i < s.layer.inputChannels →
            s.layer.inputTypes[i]? = some ty → is_trainable_weight ty = true →
            ∃ p sig g grest W rest, getInput s.layer i = some p ∧ s.heap[p]? = some sig ∧
              sig.change = g :: grest ∧ sig.weight = W :: rest ∧
              expectedUpdateEvents s batch_size i =
                [Event.mergeGradients i,
                  Event.optimizer i
                    ((grest.foldl (fun acc row => List.zipWith (fun a b => a + b) acc row)
                      g).map (fun x => x * ((1 : F) / ((batch_size : Int) : F))))
                    W (decide (512 ≤ W.length))])) := by
  obtain ⟨t1, t2, evs, -, -, -, hlog, hseq, hev, hexact, hclr, hupd⟩ :=
    updateWeights_master optimizer batch_size s hw
  refine ⟨_, evs, hupd, ?_, hseq, ?_, ?_⟩
  · show t2.log ++ _ = _
    rw [hclr.2.2.1, hlog]
  · intro i dW W par he
    exact (hev _ he).2.2.1
  · intro hn
    refine ⟨hexact hn, ?_⟩
    intro htr i ty hi hty hkind
    have hel : eligible s.layer i = true := (eligible_iff _ _).mpr ⟨htr, ty, hty, hkind⟩
    obtain ⟨p, sig, merged, W, rest, hp, hsig, hmerged, hwt, -, -, hexp⟩ :=
      expectedUpdateEvents_eligible s batch_size i (hw.2 i hi) hel
    obtain ⟨p2, sig2, w2, rest2, g, grest, hp2, hsig2, -, hc⟩ :=
      inputReady_unpack (hw.2 i hi)
    have hpp : p2 = p := Option.some.inj (hp2.symm.trans hp)
    subst hpp
    have hss : sig2 = sig := Option.some.inj (hsig2.symm.trans hsig)
    subst hss
    refine ⟨p2, sig2, g, grest, W, rest, hp, hsig, hc, hwt, ?_⟩
    have hm : merged = grest.foldl (fun acc row => List.zipWith (fun a b => a + b) acc row)
        g := by
      unfold Signal.mergeGradients at hmerged
      rw [hc] at hmerged
      exact (Option.some.inj hmerged).symm
    rw [hexp, hm]

/-- C9, instantiated: two accumulated rows are summed for the weight channel, and the
gradient for the bias channel that follows holds nothing of the junk the optimizer left in
the buffer; the data channel gets no call. -/
theorem updateWeights_optimizer_calls_witness :
    ∃ t, updateWeights exampleOptimizer 1 mixedState = .ok t ∧
      t.log = [Event.mergeGradients 0, Event.optimizer 0 [8, 10] [1, 2] false,
        Event.mergeGradients 1, Event.optimizer 1 [3] [5] false,
        Event.clearGradients 0, Event.clearGradients 1, Event.clearGradients 2,
        Event.post] := by
  obtain ⟨t, evs, h1, h2, -, -, h4⟩ :=
    updateWeights_optimizer_calls exampleOptimizer 1 mixedState (by decide)
  refine ⟨t, h1, ?_⟩
  rw [h2, (h4 (by decide)).1]
  decide

/-- C10, refuted as stated: on a layer that is not trainable, with a single data input,
`updateWeights` does clear the gradient accumulator of that input, which held
`[[3, 4], [5, 6]]` before the call and holds zeros after it. -/
theorem updateWeights_clears_data_gradient :
    frozenDataState.layer.trainable = false ∧
    frozenDataState.layer.inputTypes = [ChannelType.data] ∧
    ∃ t, updateWeights exampleOptimizer 2 frozenDataState = .ok t ∧
      Event.clearGradients 0 ∈ t.log ∧
      (frozenDataState.heap[0]?).map Signal.change = some [[3, 4], [5, 6]] ∧
      (t.heap[0]?).map Signal.change = some [[0, 0], [0, 0]] ∧
      (t.heap[0]?).map Signal.change ≠ (frozenDataState.heap[0]?).map Signal.change :=
  ⟨rfl, rfl, _, rfl, by decide, rfl, rfl, by decide⟩

/-- C10, amended. On a wired layer `updateWeights` returns. The calls `evs` of its update
loop are merges and optimizer calls only, and none of them is for a channel of a layer that
is not trainable or for a data channel; on a layer that is not trainable there is no such
call at all and the layer object and every value buffer are unchanged. But the gradient
accumulator of every input signal, data channels and layers that are not trainable
included, is cleared: one `clearGradients` is logged per input channel, and afterwards the
accumulator holds zeros in the shape it had. -/
theorem updateWeights_skips_update_but_clears [Zero F] [One F] [Add F] [Mul F] [Div F]
    [IntCast F] (optimizer : Optimizer F σ) (batch_size : Int) (s : State F σ)
    (hw : InputsWired s) :
    ∃ t evs, updateWeights optimizer batch_size s = .ok t ∧
      t.log = s.log ++ evs ++ (List.range s.layer.inputChannels).map Event.clearGradients
        ++ [Event.post] ∧
      (∀ e ∈ evs, (∃ i, e = Event.mergeGradients i) ∨
        (∃ i dW W par, e = Event.optimizer i dW W par)) ∧
      (∀ i : Nat, (s.layer.trainable = false ∨ s.layer.inputTypes[i]? = some .data) →
        Event.mergeGradients i ∉ evs ∧
          ∀ (dW W : Storage F) (par : Bool), Event.optimizer i dW W par ∉ evs) ∧
      (s.layer.trainable = false → evs = [] ∧ t.layer = s.layer ∧
        ∀ (p : Nat) (a : Signal F), s.heap[p]? = some a →
          ∃ b, t.heap[p]? = some b ∧ b.weight = a.weight) ∧
      (∀ (i p : Nat) (a : Signal F), i < s.layer.inputChannels →
        getInput s.layer i = some p → s.heap[p]? = some a →
        ∃ b, t.heap[p]? = some b ∧
          b.change = a.change.map (fun row => row.map (fun _ => (0 : F)))) := by
  obtain ⟨t1, t2, evs, ⟨d, hlay⟩, hframe, hfix, hlog, -, hev, -, hclr, hupd⟩ :=
    updateWeights_master optimizer batch_size s hw
  obtain ⟨hl2, -, hlog2, hcell2, -, hdone2⟩ := hclr
  have hnot : ∀ i : Nat, (s.layer.trainable = false ∨ s.layer.inputTypes[i]? = some .data) →
      eligible s.layer i ≠ true := by
    intro i h hel
    obtain ⟨htr, ty, hty, hkind⟩ := (eligible_iff _ _).mp hel
    rcases h with h | h
    · rw [h] at htr; exact absurd htr (by simp)
    · rw [h] at hty
      have : ty = .data := (Option.some.inj hty).symm
      subst this
      exact absurd hkind (by simp [is_trainable_weight])
  refine ⟨_, evs, hupd, ?_, ?_, ?_, ?_, ?_⟩
  · show t2.log ++ _ = _
    rw [hlog2, hlog]
  · intro e he
    have := hev e he
    cases e with
    | mergeGradients i => exact Or.inl ⟨i, rfl⟩
    | optimizer i dW W par => exact Or.inr ⟨i, dW, W, par, rfl⟩
    | weightInit i x a b => exact absurd this id
    | biasInit i x a b => exact absurd this id
    | clearGradients i => exact absurd this id
    | post => exact absurd this id
    | setSampleCount n => exact absurd this id
    | clearOutputGradients i => exact absurd this id
    | forwardPropagation x y => exact absurd this id
  · intro i h
    refine ⟨fun he => hnot i h (hev _ he).2, fun dW W par he => hnot i h (hev _ he).2.1⟩
  · intro hnt
    have h1 : t1 = s := hfix hnt
    subst h1
    refine ⟨?_, hl2, ?_⟩
    · apply List.eq_nil_iff_forall_not_mem.mpr
      intro e he
      have hok := hev e he
      cases e with
      | mergeGradients i => exact hnot i (Or.inl hnt) hok.2
      | optimizer i dW W par => exact hnot i (Or.inl hnt) hok.2.1
      | weightInit i x a b => exact hok
      | biasInit i x a b => exact hok
      | clearGradients i => exact hok
      | post => exact hok
      | setSampleCount n => exact hok
      | clearOutputGradients i => exact hok
      | forwardPropagation x y => exact hok
    · intro p a ha
      rcases hcell2 p a ha with h | h
      · exact ⟨a, h, rfl⟩
      · exact ⟨a.clearGradients, h, rfl⟩
  · intro i p a hi hp ha
    obtain ⟨b1, hb1, hab⟩ := hframe.2 p a ha
    have hp1 : getInput t1.layer i = some p := by
      rw [getInput_of_layer d hlay]; exact hp
    refine ⟨b1.clearGradients, hdone2 i p b1 hi hp1 hb1, ?_⟩
    show b1.change.map _ = _
    rw [hab.2.2.2.1]

/-- C10 as amended, instantiated: on the layer that is not trainable nothing is merged and
no optimizer is called, and the accumulator of its data input is cleared. -/
theorem updateWeights_skips_update_but_clears_witness :
    ∃ t, updateWeights exampleOptimizer 2 frozenDataState = .ok t ∧
      t.log = [Event.clearGradients 0, Event.post] ∧
      ∃ b, t.heap[0]? = some b ∧ b.change = [[0, 0], [0, 0]] := by
  obtain ⟨t, evs, h1, h2, -, -, h5, h6⟩ :=
    updateWeights_skips_update_but_clears exampleOptimizer 2 frozenDataState (by decide)
  obtain ⟨b, hb, hbc⟩ := h6 0 0 _ (by decide) rfl rfl
  refine ⟨t, h1, ?_, b, hb, hbc⟩
  rw [h2, (h5 rfl).1]
  rfl

/-- C12. For two layers whose input channels are all connected to signals with at least
one sample, and every `eps`, `hasSameWeights(rhs, eps)` returns, and returns true exactly when
the two layers have as many parameter buffers (one per input channel of kind weight or
bias), the buffers have slot by slot as many elements, and no pair of corresponding elements
has `std::abs(x - y) > eps`. Hence two layers with equal parameter buffers compare equal
whenever `std::abs(x - x) > eps` never holds (as for `eps = 1e-6`), and the result is false
as soon as one pair of corresponding elements differs by more than `eps` (as after adding
`2 * eps` to one element). -/
theorem hasSameWeights_iff [Sub F] [LT F] [DecidableRel (fun x y : F => x < y)]
    (fabs : F → F) (eps : F) (s rhs : State F σ) (hs : InputsWired s)
    (hr : InputsWired rhs) :
    ∃ r, hasSameWeights fabs s rhs eps = some r ∧
      (r = true ↔ SameWeights fabs eps (paramBuffers s) (paramBuffers rhs)) ∧
      (paramBuffers s).length = (s.layer.inputTypes.filter is_trainable_weight).length ∧
      (paramBuffers rhs).length =
        (rhs.layer.inputTypes.filter is_trainable_weight).length ∧
      (paramBuffers s = paramBuffers rhs → (∀ x, ¬ eps < fabs (x - x)) → r = true) ∧
      (∀ (i j : Nat) (a b : Storage F) (x y : F), (paramBuffers s)[i]? = some a →
        (paramBuffers rhs)[i]? = some b → a[j]? = some x → b[j]? = some y →
        eps < fabs (x - y) → r = false) := by
  have hmain : ∃ r, hasSameWeights fabs s rhs eps = some r ∧
      (r = true ↔ SameWeights fabs eps (paramBuffers s) (paramBuffers rhs)) := by
    unfold hasSameWeights SameWeights
    rw [getInputWeights_vec_spec s hs, getInputWeights_vec_spec rhs hr]
    simp only [List.length_map]
    by_cases hlen : (paramBuffers s).length = (paramBuffers rhs).length
    · obtain ⟨r, hrun, hiff⟩ := sameBuffers_spec fabs eps (paramBuffers s) (paramBuffers rhs)
        (List.range (paramBuffers s).length) (fun i hi => by
          rw [List.mem_range] at hi
          exact ⟨hi, by rw [← hlen]; exact hi⟩)
      refine ⟨r, ?_, ?_⟩
      · rw [if_neg (not_not.2 hlen)]
        exact hrun
      · rw [hiff]
        constructor
        · intro hall
          exact ⟨hlen, fun i a b ha hb =>
            hall i (List.mem_range.2 (getElem?_lt_of_eq_some ha)) a b ha hb⟩
        · intro hall i _ a b ha hb
          exact hall.2 i a b ha hb
    · refine ⟨false, by rw [if_pos hlen], ?_⟩
      constructor
      · intro hf
        cases hf
      · intro hall
        exact absurd hall.1 hlen
  obtain ⟨r, hrun, hiff⟩ := hmain
  refine ⟨r, hrun, hiff, paramBuffers_length s hs, paramBuffers_length rhs hr, ?_, ?_⟩
  · intro hsame hself
    rw [hiff, ← hsame]
    refine ⟨rfl, ?_⟩
    intro i a b ha hb
    have hab : a = b := Option.some.inj (ha.symm.trans hb)
    subst hab
    refine ⟨rfl, ?_⟩
    intro j x y hx hy
    have hxy : x = y := Option.some.inj (hx.symm.trans hy)
    subst hxy
    exact hself x
  · intro i j a b x y ha hb hx hy hgt
    cases hrt : r with
    | false => rfl
    | true =>
      have hall := hiff.1 hrt
      exact absurd hgt ((hall.2 i a b ha hb).2 j x y hx hy)

theorem hasSameWeights_iff_witness :
    hasSameWeights absInt mixedState mixedState 1 = some true ∧
    hasSameWeights absInt mixedState perturbedState 1 = some false ∧
    ∃ r, hasSameWeights absInt mixedState perturbedState 1 = some r ∧
      (r = true ↔ SameWeights absInt 1 (paramBuffers mixedState)
        (paramBuffers perturbedState)) ∧
      (paramBuffers mixedState).length =
        (mixedState.layer.inputTypes.filter is_trainable_weight).length ∧
      (paramBuffers perturbedState).length =
        (perturbedState.layer.inputTypes.filter is_trainable_weight).length ∧
      (paramBuffers mixedState = paramBuffers perturbedState →
        (∀ x, ¬ (1 : Int) < absInt (x - x)) → r = true) ∧
      (∀ (i j : Nat) (a b : Storage Int) (x y : Int), (paramBuffers mixedState)[i]? = some a →
        (paramBuffers perturbedState)[i]? = some b → a[j]? = some x → b[j]? = some y →
        1 < absInt (x - y) → r = false) :=
  ⟨by decide, by decide,
    hasSameWeights_iff absInt 1 mixedState perturbedState (by decide) (by decide)⟩

/-- C13. `setSampleCount` does shrink a batch: on the layer `batchState`, whose data
input holds three samples in its value buffer and three in its gradient buffer,
`setSampleCount(1)` returns and leaves one sample in each of the two buffers, because
`std::vector::resize` drops the samples beyond the requested count. -/
theorem setSampleCount_shrinks_batch :
    ∃ t b, setSampleCount 1 batchState = .ok t ∧
      getInput batchState.layer 0 = some 0 ∧
      batchState.heap[0]? = some batchSignal ∧
      batchSignal.weight.length = 3 ∧ batchSignal.change.length = 3 ∧
      t.heap[0]? = some b ∧ b.weight.length = 1 ∧ b.change.length = 1 :=
  ⟨_, _, rfl, rfl, rfl, rfl, rfl, rfl, rfl, rfl⟩

/-- C14, counterexample. On the layer `batchState`, input channel 1 is of kind weight and
its signal holds one sample in both buffers; after `setSampleCount(4)` its value buffer
still holds one sample while its gradient buffer holds four: the value buffer of a
weight channel is not resized. -/
theorem setSampleCount_weight_channel_lengths_differ :
    ∃ t a b, setSampleCount 4 batchState = .ok t ∧
      getInput batchState.layer 1 = some 1 ∧
      batchState.layer.inputTypes[1]? = some ChannelType.weight ∧
      batchState.heap[1]? = some a ∧ a.weight.length = 1 ∧ a.change.length = 1 ∧
      t.heap[1]? = some b ∧ b.weight.length = 1 ∧ b.change.length = 4 :=
  ⟨_, _, _, rfl, rfl, rfl, rfl, rfl, rfl, rfl, rfl, rfl⟩

/-- C14, amended. For a layer whose input and output channels are all connected to signals
with at least one sample in both buffers, and `n ≥ 1`, `setSampleCount(n)` returns; after it
the gradient buffer of every connected signal holds `n` samples; the value buffer holds `n`
samples as well when the signal is connected through a channel that is neither of kind
weight nor of kind bias; otherwise the value buffer is the one from before the call. -/
theorem setSampleCount_sample_lengths {n : Nat} (hn : 1 ≤ n) (s : State F σ)
    (hin : InputsWired s) (hout : OutputsWired s) :
    ∃ t, setSampleCount n s = .ok t ∧
      ∀ (p : Nat) (a : Signal F), s.heap[p]? = some a → SignalHeld s.layer p →
        ∃ b, t.heap[p]? = some b ∧ b.change.length = n ∧
          (DataHeld s.layer p → b.weight.length = n ∧ b.weight.length = b.change.length) ∧
          (¬ DataHeld s.layer p → b.weight = a.weight) := by
  obtain ⟨t, ht, hrel⟩ := setSampleCount_spec hn s hin hout
  refine ⟨t, ht, ?_⟩
  intro p a ha hheld
  obtain ⟨b, hb, _, _, _, hc1, _, hw1, hw2⟩ := hrel.2.2.2.2 p a ha
  have hc : b.change.length = n := by
    rw [hc1 hheld]
    exact resized_length n _
  refine ⟨b, hb, hc, ?_, hw2⟩
  intro hdata
  have hw : b.weight.length = n := by
    rw [hw1 hdata]
    exact resized_length n _
  exact ⟨hw, hw.trans hc.symm⟩

theorem setSampleCount_sample_lengths_witness :
    InputsWired batchState ∧ OutputsWired batchState ∧
    ∃ t, setSampleCount 4 batchState = .ok t ∧
      ∀ (p : Nat) (a : Signal Int), batchState.heap[p]? = some a →
        SignalHeld batchState.layer p →
        ∃ b, t.heap[p]? = some b ∧ b.change.length = 4 ∧
          (DataHeld batchState.layer p →
            b.weight.length = 4 ∧ b.weight.length = b.change.length) ∧
          (¬ DataHeld batchState.layer p → b.weight = a.weight) :=
  ⟨by decide, by decide,
    setSampleCount_sample_lengths (by decide) batchState (by decide) (by decide)⟩

/-- C15. For a layer whose output channels are all connected, `getOutput(out)` returns,
whatever `out` held before, the list `res` whose entries are the value buffers (named by
their signals) of the output slots of kind data, in increasing slot order: entry `k` of
`res` is what the `k`-th data slot holds. Hence `res` has as many entries as `outputTypes`
has entries of kind data, every entry comes from a data slot, and `res` is free of
duplicates when no signal sits in two output slots. -/
theorem getOutput_returns_data_outputs (s : State F σ) (out : List Nat)
    (hout : OutputsWired s) :
    ∃ res, getOutput_out s out = .ok res ∧
      res.map some = (dataOutputSlots s.layer).map (getOutput s.layer) ∧
      res.length =
        (s.layer.outputTypes.filter (fun ty => decide (ty = ChannelType.data))).length ∧
      (∀ p ∈ res, ∃ i, i < s.layer.outputChannels ∧
        s.layer.outputTypes[i]? = some ChannelType.data ∧ getOutput s.layer i = some p) ∧
      (s.layer.outputs.Nodup → res.Nodup) := by
  obtain ⟨res, hres, hmap⟩ := getOutput_out_spec s out hout
  have hmem : ∀ i, i ∈ dataOutputSlots s.layer → i < s.layer.outputChannels ∧
      s.layer.outputTypes[i]? = some ChannelType.data := by
    intro i hi
    unfold dataOutputSlots at hi
    rw [List.mem_filter, List.mem_range] at hi
    exact ⟨hi.1, of_decide_eq_true hi.2⟩
  refine ⟨res, hres, hmap, ?_, ?_, ?_⟩
  · have h1 : res.length = (dataOutputSlots s.layer).length := by
      rw [← List.length_map res some, hmap, List.length_map]
    rw [h1, filter_length_by_index, hout.1]
    unfold dataOutputSlots
    congr 1
    apply List.filter_congr
    intro i _
    cases s.layer.outputTypes[i]? with
    | none => simp
    | some ty => simp
  · intro p hp
    have hp2 : some p ∈ res.map some := List.mem_map_of_mem some hp
    rw [hmap, List.mem_map] at hp2
    obtain ⟨i, hi, hpi⟩ := hp2
    exact ⟨i, (hmem i hi).1, (hmem i hi).2, hpi⟩
  · intro hnd
    have hslots : (dataOutputSlots s.layer).Nodup :=
      List.Nodup.filter _ (List.nodup_range _)
    have hmapnd : ((dataOutputSlots s.layer).map (getOutput s.layer)).Nodup := by
      refine List.Nodup.map_on ?_ hslots
      intro i hi j hj hij
      obtain ⟨p, a, hp, _⟩ := outputReady_unpack (hout.2 i (hmem i hi).1)
      have hq : getOutput s.layer j = some p := hij.symm.trans hp
      rw [getOutput_eq_some_iff] at hp hq
      exact List.getElem?_inj (getElem?_lt_of_eq_some hp) hnd (hp.trans hq.symm)
    rw [← hmap] at hmapnd
    exact List.Nodup.of_map some hmapnd

theorem getOutput_returns_data_outputs_witness :
    OutputsWired fanoutState ∧ getOutput_out fanoutState [7, 7, 7] = .ok [2, 1] ∧
    ∃ res, getOutput_out fanoutState [7, 7, 7] = .ok res ∧
      res.map some = (dataOutputSlots fanoutState.layer).map (getOutput fanoutState.layer) ∧
      res.length =
        (fanoutState.layer.outputTypes.filter
          (fun ty => decide (ty = ChannelType.data))).length ∧
      (∀ p ∈ res, ∃ i, i < fanoutState.layer.outputChannels ∧
        fanoutState.layer.outputTypes[i]? = some ChannelType.data ∧
        getOutput fanoutState.layer i = some p) ∧
      (fanoutState.layer.outputs.Nodup → res.Nodup) :=
  ⟨by decide, rfl, getOutput_returns_data_outputs fanoutState [7, 7, 7] (by decide)⟩

/-- C16. In a store `net` of layers: (a) for a layer whose dependency pointers all lead to
layers, `visitedDependencies()` returns, and returns true exactly when every layer in its
`dependencies` has its visited flag set; in particular it returns true for a layer without
dependencies; (b) for two existing layers, `head.addChild(tail)` returns a store in which
`tail` is the last entry of `head.children` and `head` is the last entry of
`tail.dependencies`, flags kept, and in which `tail.visitedDependencies()` returns false if
`head` is unvisited (the earlier dependency pointers of `tail` leading to layers). -/
theorem visitedDependencies_iff_all_visited (net : List (NeuralLayer F σ)) :
    (∀ (self : Nat) (L : NeuralLayer F σ), net[self]? = some L →
      (∀ d ∈ L.dependencies, d < net.length) →
      ∃ r, visitedDependencies net self = some r ∧
        (r = true ↔ ∀ d ∈ L.dependencies, ∃ D, net[d]? = some D ∧ D.visited = true) ∧
        (L.dependencies = [] → r = true)) ∧
    (∀ (head tail : Nat) (H T : NeuralLayer F σ), net[head]? = some H →
      net[tail]? = some T →
      ∃ net2 H2 T2, addChild net head tail = some net2 ∧
        net2[head]? = some H2 ∧ net2[tail]? = some T2 ∧
        tail ∈ H2.children ∧ H2.children = H.children ++ [tail] ∧
        head ∈ T2.dependencies ∧ T2.dependencies = T.dependencies ++ [head] ∧
        H2.visited = H.visited ∧ T2.visited = T.visited ∧
        ((∀ d ∈ T.dependencies, d < net.length) → H.visited = false →
          visitedDependencies net2 tail = some false)) := by
  constructor
  · intro self L hL hvalid
    refine ⟨L.dependencies.all (visitedAt net), ?_, ?_, ?_⟩
    · unfold visitedDependencies
      rw [hL]
      exact visitedLoop_spec net L.dependencies hvalid
    · rw [List.all_eq_true]
      constructor
      · intro h d hd
        exact (visitedAt_eq_true_iff net d).1 (h d hd)
      · intro h d hd
        exact (visitedAt_eq_true_iff net d).2 (h d hd)
    · intro hnil
      rw [hnil]
      rfl
  · intro head tail H T hH hT
    obtain ⟨net2, H2, T2, hrun, hlen, hH2, hT2, hch, hHv, hdep, hTv⟩ :=
      addChild_spec net head tail H T hH hT
    refine ⟨net2, H2, T2, hrun, hH2, hT2, ?_, hch, ?_, hdep, hHv, hTv, ?_⟩
    · rw [hch]
      simp
    · rw [hdep]
      simp
    · intro hvalid hunvisited
      have hhl : head < net.length := getElem?_lt_of_eq_some hH
      have hvalid2 : ∀ d ∈ T2.dependencies, d < net2.length := by
        intro d hd
        rw [hdep, List.mem_append, List.mem_singleton] at hd
        rw [hlen]
        rcases hd with hd | hd
        · exact hvalid d hd
        · rw [hd]
          exact hhl
      unfold visitedDependencies
      rw [hT2]
      simp only
      rw [visitedLoop_spec net2 T2.dependencies hvalid2, hdep, List.all_append]
      have hhead : visitedAt net2 head = false := by
        unfold visitedAt
        rw [hH2]
        exact hHv.trans hunvisited
      simp [hhead]

theorem visitedDependencies_iff_all_visited_witness :
    visitedDependencies exampleNet 2 = some false ∧
    visitedDependencies exampleNet 0 = some true ∧
    (∃ r, visitedDependencies exampleNet 2 = some r ∧
      (r = true ↔ ∀ d ∈ [0, 1], ∃ D, exampleNet[d]? = some D ∧ D.visited = true) ∧
      (([0, 1] : List Nat) = [] → r = true)) ∧
    (∃ net2 H2 T2, addChild exampleNet 1 0 = some net2 ∧
      net2[1]? = some H2 ∧ net2[0]? = some T2 ∧
      0 ∈ H2.children ∧ H2.children = [2] ++ [0] ∧
      1 ∈ T2.dependencies ∧ T2.dependencies = [] ++ [1] ∧
      H2.visited = false ∧ T2.visited = true ∧
      ((∀ d ∈ ([] : List Nat), d < exampleNet.length) → false = false →
        visitedDependencies net2 0 = some false)) :=
  ⟨rfl, rfl,
    (visitedDependencies_iff_all_visited exampleNet).1 2 _ rfl (by decide),
    (visitedDependencies_iff_all_visited exampleNet).2 1 0 _ _ rfl rfl⟩

/-- C17. For a layer with at least one input channel whose input and output channels are
all connected to signals with at least one sample, `forward()` returns for every kernel, and
it has then gathered the input signals in slot order, called `setSampleCount` with the
number of samples `n` of the first input's value buffer, cleared the gradient buffer of the
signal of every output channel in slot order, and after that called `forwardPropagation`
once, on the gathered inputs and the output signals in slot order. In the state `tk` the
kernel is called in, every gradient row of every output signal is zero, every signal
connected through a data channel holds `n` samples in its value and gradient buffers, and
the first input still holds `n` samples. -/
theorem forward_order [Zero F] (s : State F σ) (hpos : 1 ≤ s.layer.inputChannels)
    (hin : InputsWired s) (hout : OutputsWired s) :
    ∃ (tk : State F σ) (in_data out_data : List Nat) (p0 : Nat) (first : Signal F),
      getInput s.layer 0 = some p0 ∧ s.heap[p0]? = some first ∧
      (∀ kernel : Kernel F σ, forward kernel s = .ok { tk with
        env := (kernel tk.env tk.heap in_data out_data).1
        heap := (kernel tk.env tk.heap in_data out_data).2
        log := tk.log ++ [Event.forwardPropagation in_data out_data] }) ∧
      tk.log = s.log ++ [Event.setSampleCount first.weight.length] ++
        (List.range s.layer.outputChannels).map Event.clearOutputGradients ∧
      tk.layer = s.layer ∧ tk.env = s.env ∧
      in_data.length = s.layer.inputChannels ∧
      (∀ i, i < s.layer.inputChannels → in_data[i]? = getInput s.layer i) ∧
      out_data.length = s.layer.outputChannels ∧
      (∀ i, i < s.layer.outputChannels → out_data[i]? = getOutput s.layer i) ∧
      (∀ i p, i < s.layer.outputChannels → getOutput s.layer i = some p →
        ∃ b, tk.heap[p]? = some b ∧ ∀ row ∈ b.change, ∀ x ∈ row, x = (0 : F)) ∧
      (∀ p, DataHeld s.layer p → ∃ b, tk.heap[p]? = some b ∧
        b.weight.length = first.weight.length ∧ b.change.length = first.weight.length) ∧
      (∃ b0, tk.heap[p0]? = some b0 ∧ b0.weight.length = first.weight.length) := by
  obtain ⟨t1, tk, p0, first, hp0, hfirst, hw0, hrel, hinv, hrun⟩ :=
    forward_master s hpos hin hout
  have hlay : t1.layer = s.layer := hrel.1
  have hsome1 : ∀ j, j < s.layer.inputChannels → ∃ p, getInput s.layer j = some p := by
    intro j hj
    obtain ⟨p, a, hp, _⟩ := inputReady_ne_nil (hin.2 j hj)
    exact ⟨p, hp⟩
  have hsome2 : ∀ j, j < s.layer.outputChannels → ∃ p, getOutput s.layer j = some p := by
    intro j hj
    obtain ⟨p, a, hp, _⟩ := outputReady_unpack (hout.2 j hj)
    exact ⟨p, hp⟩
  have hins := filterMap_range_of_some (getInput s.layer) _ hsome1
  have houts := filterMap_range_of_some (getOutput s.layer) _ hsome2
  refine ⟨tk, _, _, p0, first, hp0, hfirst, hrun, ?_, hinv.1.trans hlay,
    hinv.2.1.trans hrel.2.1, hins.1, hins.2, houts.1, houts.2, ?_, ?_, ?_⟩
  · rw [hinv.2.2.1, hrel.2.2.1]
  · intro i p hi hp
    obtain ⟨a, ha, _⟩ := signalHeld_cell hin hout (Or.inr ⟨i, hi, hp⟩)
    obtain ⟨b1, hb1, _⟩ := hrel.2.2.2.2 p a ha
    obtain ⟨b, hb, hyes, _⟩ := hinv.2.2.2.2 p b1 hb1
    refine ⟨b, hb, ?_⟩
    rw [hyes ⟨i, hi, by rw [hlay]; exact hp⟩]
    exact clearGradients_zero b1
  · intro p hdata
    have hheld := dataHeld_signalHeld hdata
    obtain ⟨a, ha, _⟩ := signalHeld_cell hin hout hheld
    obtain ⟨b1, hb1, _, _, _, hc1, _, hw1, _⟩ := hrel.2.2.2.2 p a ha
    obtain ⟨b, hb, hbw, hbc⟩ := clearOutInv_cell hinv hb1
    refine ⟨b, hb, ?_, ?_⟩
    · rw [hbw, hw1 hdata]
      exact resized_length _ _
    · rw [hbc, hc1 hheld]
      exact resized_length _ _
  · obtain ⟨b1, hb1, _, _, _, _, _, hw1, hw2⟩ := hrel.2.2.2.2 p0 first hfirst
    obtain ⟨b, hb, hbw, _⟩ := clearOutInv_cell hinv hb1
    refine ⟨b, hb, ?_⟩
    rw [hbw]
    by_cases hdata : DataHeld s.layer p0
    · rw [hw1 hdata]
      exact resized_length _ _
    · rw [hw2 hdata]

theorem forward_order_witness :
    1 ≤ batchState.layer.inputChannels ∧ InputsWired batchState ∧ OutputsWired batchState ∧
    ∃ (tk : State Int Nat) (in_data out_data : List Nat) (p0 : Nat) (first : Signal Int),
      getInput batchState.layer 0 = some p0 ∧ batchState.heap[p0]? = some first ∧
      (∀ kernel : Kernel Int Nat, forward kernel batchState = .ok { tk with
        env := (kernel tk.env tk.heap in_data out_data).1
        heap := (kernel tk.env tk.heap in_data out_data).2
        log := tk.log ++ [Event.forwardPropagation in_data out_data] }) ∧
      tk.log = batchState.log ++ [Event.setSampleCount first.weight.length] ++
        (List.range batchState.layer.outputChannels).map Event.clearOutputGradients ∧
      tk.layer = batchState.layer ∧ tk.env = batchState.env ∧
      in_data.length = batchState.layer.inputChannels ∧
      (∀ i, i < batchState.layer.inputChannels →
        in_data[i]? = getInput batchState.layer i) ∧
      out_data.length = batchState.layer.outputChannels ∧
      (∀ i, i < batchState.layer.outputChannels →
        out_data[i]? = getOutput batchState.layer i) ∧
      (∀ i p, i < batchState.layer.outputChannels → getOutput batchState.layer i = some p →
        ∃ b, tk.heap[p]? = some b ∧ ∀ row ∈ b.change, ∀ x ∈ row, x = (0 : Int)) ∧
      (∀ p, DataHeld batchState.layer p → ∃ b, tk.heap[p]? = some b ∧
        b.weight.length = first.weight.length ∧ b.change.length = first.weight.length) ∧
      (∃ b0, tk.heap[p0]? = some b0 ∧ b0.weight.length = first.weight.length) :=
  ⟨by decide, by decide, by decide,
    forward_order batchState (by decide) (by decide) (by decide)⟩

/-- C18. For a layer whose input and output channels are all connected to signals with at
least one sample in both buffers, and `n ≥ 1`, `setSampleCount(n)` returns, and every buffer
it resizes (the gradient buffer of every connected signal, and the value buffer of every
signal connected through a channel that is neither weight nor bias) that held `m < n`
samples before holds `n` samples after, its first `m` samples are the old ones and each of
the samples `m .. n-1` equals the sample that was first before the call. -/
theorem setSampleCount_grows_with_first_sample {n : Nat} (hn : 1 ≤ n) (s : State F σ)
    (hin : InputsWired s) (hout : OutputsWired s) :
    ∃ t, setSampleCount n s = .ok t ∧
      ∀ (p : Nat) (a : Signal F), s.heap[p]? = some a → SignalHeld s.layer p →
        ∃ b, t.heap[p]? = some b ∧ GrownFrom n a.change b.change ∧
          (DataHeld s.layer p → GrownFrom n a.weight b.weight) := by
  obtain ⟨t, ht, hrel⟩ := setSampleCount_spec hn s hin hout
  refine ⟨t, ht, ?_⟩
  intro p a ha hheld
  obtain ⟨b, hb, _, _, _, hc1, _, hw1, _⟩ := hrel.2.2.2.2 p a ha
  refine ⟨b, hb, ?_, ?_⟩
  · rw [hc1 hheld]
    exact grownFrom_resized n _
  · intro hdata
    rw [hw1 hdata]
    exact grownFrom_resized n _

theorem setSampleCount_grows_with_first_sample_witness :
    InputsWired batchState ∧ OutputsWired batchState ∧
    ∃ t, setSampleCount 5 batchState = .ok t ∧
      ∀ (p : Nat) (a : Signal Int), batchState.heap[p]? = some a →
        SignalHeld batchState.layer p →
        ∃ b, t.heap[p]? = some b ∧ GrownFrom 5 a.change b.change ∧
          (DataHeld batchState.layer p → GrownFrom 5 a.weight b.weight) :=
  ⟨by decide, by decide,
    setSampleCount_grows_with_first_sample (by decide) batchState (by decide) (by decide)⟩

/-- C19. For every kernel and state: (a) on a layer with at least one input channel whose
input and output slots all hold a signal with at least one sample in its value and in its
gradient buffer, `forward()` returns, so none of its accesses is out of range; (b) on a layer
with zero input channels `forward()` faults (the read of `fowardInData[0]`); (c) if the state
is the one `setInputData(data)` returned on a layer without shared inputs, and the batch
handed to some data input channel was empty, `forward()` faults (the read of element 0 of
that channel's value buffer in `setSampleCount`, if not an earlier access). -/
theorem forward_bounds [Zero F] (kernel : Kernel F σ) (s : State F σ) :
    (1 ≤ s.layer.inputChannels → InputsWired s → OutputsWired s →
      ∃ t, forward kernel s = .ok t) ∧
    (s.layer.inputChannels = 0 → forward kernel s = .fault) ∧
    (∀ (data : List (Tensor F)) (s0 : State F σ) (i : Nat),
      setInputData data s0 = .ok s → NoSharedInput s0.layer →
      i < s0.layer.inputChannels → s0.layer.inputTypes[i]? = some ChannelType.data →
      data[dataIndex s0.layer i]? = some [] → forward kernel s = .fault) := by
  refine ⟨?_, ?_, ?_⟩
  · intro hpos hin hout
    obtain ⟨t1, tk, p0, first, _, _, _, _, _, hrun⟩ := forward_master s hpos hin hout
    exact ⟨_, hrun kernel⟩
  · intro hzero
    unfold forward
    rw [hzero]
    rfl
  · intro data s0 i hset hns hi hkind hbatch
    obtain ⟨hlay, hcells⟩ := setInputData_cells hset hns
    obtain ⟨p, b, hp, hb, hbd⟩ := hcells i hi hkind
    have hbw : b.weight = [] := (Option.some.inj (hbatch.symm.trans hbd)).symm
    have hkind2 : s.layer.inputTypes[i]? = some ChannelType.data := by
      rw [hlay]
      exact hkind
    exact forward_fault_of_empty kernel s (by rw [hlay]; exact hi) hkind2 rfl
      (by rw [hlay]; exact hp) hb hbw

theorem forward_bounds_witness :
    (∃ t, forward exampleKernel batchState = .ok t) ∧
    (sourcelessState.layer.inputChannels = 0 ∧
      forward exampleKernel sourcelessState = .fault) ∧
    (setInputData [[]] batchState = .ok starvedState ∧
      forward exampleKernel starvedState = .fault) :=
  ⟨(forward_bounds exampleKernel batchState).1 (by decide) (by decide) (by decide),
    ⟨rfl, (forward_bounds exampleKernel sourcelessState).2.1 rfl⟩,
    ⟨rfl, (forward_bounds exampleKernel starvedState).2.2 [[]] batchState 0 rfl
      (by decide) (by decide) rfl rfl⟩⟩

/-- C21. For a kernel size `ks ≥ 1`: (a) the constructor returns the filter exactly when the
width and the height of every input layer are multiples of `ks`, and throws otherwise;
(b) on the filter it returns, `initialize` returns, and for every input layer `L` at
position `k`: output layer `k` is a new layer of `L.width / ks` by `L.height / ks`; among
the calls made, exactly one attaches input neuron `(x, y)` of `L` as a source to a signal
of output layer `k`, and that signal is the one of output neuron `(x / ks, y / ks)` (the
only such call on the neuron at all when `L` occurs once among the input layers); output
neuron `(i, j)` gets exactly one input signal; and the calls attaching sources to that
signal are those of its window, `ks * ks` calls on pairwise different neurons. -/
theorem averagePool_partition (inputLayers : List GridLayer) (ks : Nat) (hks : 1 ≤ ks) :
    ((AveragePoolFilter.new inputLayers ks = .object ⟨inputLayers, [], ks⟩ ↔
        ∀ L ∈ inputLayers, L.width % ks = 0 ∧ L.height % ks = 0) ∧
      ((¬ ∀ L ∈ inputLayers, L.width % ks = 0 ∧ L.height % ks = 0) →
        AveragePoolFilter.new inputLayers ks = .mapSizeError)) ∧
    ∀ f, AveragePoolFilter.new inputLayers ks = .object f →
      ∃ g calls, f.initialize = .ok (g, calls) ∧
        g.outputLayers.length = inputLayers.length ∧
        ∀ (k : Nat) (L : GridLayer), inputLayers[k]? = some L →
          g.outputLayers[k]? = some (some ⟨.created k, L.width / ks, L.height / ks⟩) ∧
          (∀ x y, x < L.width → y < L.height →
            x / ks < L.width / ks ∧ y / ks < L.height / ks ∧
            calls.filter (PoolEvent.attaches L.ref x y k) =
              [PoolEvent.addOutput L.ref x y ⟨k, x / ks, y / ks⟩] ∧
            ((∀ k2 L2, inputLayers[k2]? = some L2 → L2.ref = L.ref → k2 = k) →
              calls.filter (PoolEvent.attachesAny L.ref x y) =
                [PoolEvent.addOutput L.ref x y ⟨k, x / ks, y / ks⟩])) ∧
          (∀ i j, i < L.width / ks → j < L.height / ks →
            calls.filter (PoolEvent.drives (.created k) i j) =
              [PoolEvent.addInput (.created k) i j ⟨k, i, j⟩] ∧
            calls.filter (PoolEvent.feeds ⟨k, i, j⟩) = windowEvents L ks i j ⟨k, i, j⟩ ∧
            ((calls.filter (PoolEvent.feeds ⟨k, i, j⟩)).filterMap PoolEvent.source).length =
              ks * ks ∧
            ((calls.filter (PoolEvent.feeds ⟨k, i, j⟩)).filterMap PoolEvent.source).Nodup) := by
  obtain ⟨hiff, hcases⟩ := checkLayers_spec hks inputLayers
  refine ⟨⟨?_, ?_⟩, ?_⟩
  · rw [← hiff]
    unfold AveragePoolFilter.new
    rcases hcases with h | h
    · rw [h]
      simp
    · rw [h]
      simp
  · intro hnot
    unfold AveragePoolFilter.new
    rcases hcases with h | h
    · exact absurd (hiff.1 h) hnot
    · rw [h]
  · intro f hf
    have hshape : f = ⟨inputLayers, [], ks⟩ ∧
        ∀ L ∈ inputLayers, L.width % ks = 0 ∧ L.height % ks = 0 := by
      unfold AveragePoolFilter.new at hf
      rcases hcases with h | h
      · rw [h] at hf
        simp only [Constructed.object.injEq] at hf
        exact ⟨hf.symm, hiff.1 h⟩
      · rw [h] at hf
        cases hf
    obtain ⟨hfeq, hdiv⟩ := hshape
    subst hfeq
    obtain ⟨g, hrun, _, _, hlen, hlayers⟩ :=
      initialize_spec ⟨inputLayers, [], ks⟩ hks
    refine ⟨g, _, hrun, hlen, ?_⟩
    intro k L hL
    have hLmem : L ∈ inputLayers := List.getElem?_mem hL
    refine ⟨hlayers k L hL, ?_, ?_⟩
    · intro x y hx hy
      have hxd : x / ks < L.width / ks :=
        Nat.div_lt_div_of_lt_of_dvd (Nat.dvd_of_mod_eq_zero (hdiv L hLmem).1) hx
      have hyd : y / ks < L.height / ks :=
        Nat.div_lt_div_of_lt_of_dvd (Nat.dvd_of_mod_eq_zero (hdiv L hLmem).2) hy
      refine ⟨hxd, hyd, ?_, ?_⟩
      · refine filter_attach ⟨inputLayers, [], ks⟩ _ k x y L hL hks hxd hyd
          (fun _ _ _ => rfl) (fun _ => rfl) (fun _ _ _ _ => rfl) (fun _ => rfl) ?_ ?_ ?_
        · intro l x2 y2 s hp
          unfold PoolEvent.attaches at hp
          have := of_decide_eq_true hp
          exact ⟨this.2.1, this.2.2.1⟩
        · intro k2 L2 x2 y2 i2 j2 _ hp
          unfold PoolEvent.attaches at hp
          exact (of_decide_eq_true hp).2.2.2
        · unfold PoolEvent.attaches
          exact decide_eq_true ⟨rfl, rfl, rfl, rfl⟩
      · intro honce
        refine filter_attach ⟨inputLayers, [], ks⟩ _ k x y L hL hks hxd hyd
          (fun _ _ _ => rfl) (fun _ => rfl) (fun _ _ _ _ => rfl) (fun _ => rfl) ?_ ?_ ?_
        · intro l x2 y2 s hp
          unfold PoolEvent.attachesAny at hp
          exact (of_decide_eq_true hp).2
        · intro k2 L2 x2 y2 i2 j2 hL2 hp
          unfold PoolEvent.attachesAny at hp
          exact honce k2 L2 hL2 (of_decide_eq_true hp).1
        · unfold PoolEvent.attachesAny
          exact decide_eq_true ⟨rfl, rfl, rfl⟩
    · intro i j hi hj
      have hfeeds := filter_feeds ⟨inputLayers, [], ks⟩ k j i L hL hj hi
      have hcard := windowEvents_card L ks i j ⟨k, i, j⟩
      refine ⟨filter_drives ⟨inputLayers, [], ks⟩ k j i L hL hj hi, hfeeds, ?_, ?_⟩
      · rw [hfeeds]
        exact hcard.2.2.2
      · rw [hfeeds]
        exact hcard.2.2.1

theorem averagePool_partition_witness :
    AveragePoolFilter.new exampleMaps 2 = .object examplePool ∧
    AveragePoolFilter.new exampleMaps 3 = .mapSizeError ∧
    ∃ g calls, examplePool.initialize = .ok (g, calls) ∧
      g.outputLayers.length = exampleMaps.length ∧
      ∀ (k : Nat) (L : GridLayer), exampleMaps[k]? = some L →
        g.outputLayers[k]? = some (some ⟨.created k, L.width / 2, L.height / 2⟩) ∧
        (∀ x y, x < L.width → y < L.height →
          x / 2 < L.width / 2 ∧ y / 2 < L.height / 2 ∧
          calls.filter (PoolEvent.attaches L.ref x y k) =
            [PoolEvent.addOutput L.ref x y ⟨k, x / 2, y / 2⟩] ∧
          ((∀ k2 L2, exampleMaps[k2]? = some L2 → L2.ref = L.ref → k2 = k) →
            calls.filter (PoolEvent.attachesAny L.ref x y) =
              [PoolEvent.addOutput L.ref x y ⟨k, x / 2, y / 2⟩])) ∧
        (∀ i j, i < L.width / 2 → j < L.height / 2 →
          calls.filter (PoolEvent.drives (.created k) i j) =
            [PoolEvent.addInput (.created k) i j ⟨k, i, j⟩] ∧
          calls.filter (PoolEvent.feeds ⟨k, i, j⟩) = windowEvents L 2 i j ⟨k, i, j⟩ ∧
          ((calls.filter (PoolEvent.feeds ⟨k, i, j⟩)).filterMap PoolEvent.source).length =
            2 * 2 ∧
          ((calls.filter (PoolEvent.feeds ⟨k, i, j⟩)).filterMap PoolEvent.source).Nodup) :=
  ⟨rfl, (averagePool_partition exampleMaps 3 (by decide)).1.2 (by decide),
    (averagePool_partition exampleMaps 2 (by decide)).2 examplePool rfl⟩
end tgr
